import Mathlib

/-!
# ThreadCritical (Windows): a recursive lock built from a counter and an event

Verification development for
`src/hotspot/src/os/windows/vm/threadCritical_windows.cpp`.

The four file-level statics (`initialized`, `lock_count`, `lock_event`,
`lock_owner`) together with the kernel's event objects form the shared state.
The constructor, the destructor and the static `release()` are embedded as a
small-step machine: one program point per shared read, write, compare-and-swap,
wait and signal, in the order in which the source performs them.  A whole
operation executed by one thread alone is the iteration of that step function;
the concurrent program is the interleaving of the same step function over
several threads.

Modelling choices:
* shared accesses take effect one at a time, in program order;
* `lock_count` is a 32-bit `jint`: `++` and `--` wrap round;
* whether `assert` is compiled in is a parameter (`asserts`); a failed assertion
  terminates the process;
* the kernel decides whether a `CreateEvent` call succeeds (`createOk`); waits,
  signals and closes fail exactly on a handle that names no open event.
-/

namespace ThreadCritical

/-! ## Machine integers and Windows constants -/

/-- The value `(DWORD)-1`, with which `lock_owner` is initialised and which the
code uses for "no owner". -/
def NONE : Nat := 0xFFFFFFFF

/-- The null handle. -/
def NULL : Nat := 0

/-- Return value of a successful wait. -/
def WAIT_OBJECT_0 : Nat := 0

/-- Return value of a failed wait. -/
def WAIT_FAILED : Nat := 0xFFFFFFFF

/-- Largest `jint`. -/
def JINT_MAX : Int := 2147483647

/-- Smallest `jint`. -/
def JINT_MIN : Int := -2147483648

/-- Two's-complement wrap-around of an integer into the 32-bit `jint` range. -/
def wrapJint (x : Int) : Int := (x + 2147483648) % 4294967296 - 2147483648

/-- Membership in the `jint` range. -/
def IsJint (x : Int) : Prop := JINT_MIN ≤ x ∧ x ≤ JINT_MAX

instance (x : Int) : Decidable (IsJint x) := by
  unfold IsJint; exact inferInstance

/-! ## The operating system's event objects and the atomic primitive -/

/-- A kernel event object: its signaled flag and whether its handle is still open. -/
structure EventObj where
  signaled : Bool
  isOpen : Bool
  deriving DecidableEq, Repr

/-- The event object a handle refers to: handle `h > 0` names the `h`-th object
ever created, and only while it has not been closed. -/
def lookup (h : Nat) (evs : List EventObj) : Option EventObj :=
  if h = NULL then none
  else match evs[h - 1]? with
    | some e => if e.isOpen then some e else none
    | none => none

/-- Modelled from the spec: `CreateEvent(NULL, false, false, NULL)`, the creation
of an auto-reset object in the unsignaled state.  The flag `ok` is the
kernel's decision whether the call succeeds; on failure the call returns `NULL`
and creates nothing. -/
def CreateEvent (ok : Bool) (evs : List EventObj) : Nat × List EventObj :=
  if ok then (evs.length + 1, evs ++ [{ signaled := false, isOpen := true }])
  else (NULL, evs)

/-- Modelled from the spec: `WaitForSingleObject(h, INFINITE)` on an auto-reset
event.  On a signaled event the wait returns `WAIT_OBJECT_0` and resets the
event; on an unsignaled event the caller cannot proceed (`none`); on anything
that is not an open event the call fails at once. -/
def WaitForSingleObject (h : Nat) (evs : List EventObj) : Option (Nat × List EventObj) :=
  match lookup h evs with
  | none => some (WAIT_FAILED, evs)
  | some e =>
    if e.signaled then some (WAIT_OBJECT_0, evs.set (h - 1) { e with signaled := false })
    else none

/-- Modelled from the spec: `SetEvent(h)`, which leaves the event signaled for the
next wait.  Returns nonzero on success and `0` when `h` is not an open event. -/
def SetEvent (h : Nat) (evs : List EventObj) : Nat × List EventObj :=
  match lookup h evs with
  | none => (0, evs)
  | some e => (1, evs.set (h - 1) { e with signaled := true })

/-- Modelled from the spec: `CloseHandle(h)`, which closes an open handle.  Returns
nonzero on success and `0` when `h` is not an open event. -/
def CloseHandle (h : Nat) (evs : List EventObj) : Nat × List EventObj :=
  match lookup h evs with
  | none => (0, evs)
  | some e => (1, evs.set (h - 1) { e with isOpen := false })

/-- Modelled from the spec: `Atomic::cmpxchg(exchange_value, dest, compare_value)`.
Returns the value found at `dest` and the value left there. -/
def cmpxchg (exchange_value : Int) (dest : Int) (compare_value : Int) : Int × Int :=
  if dest = compare_value then (dest, exchange_value) else (dest, dest)

/-! ## Shared state -/

/-- The file-level statics of `threadCritical_windows.cpp` (lines 38-41) and the
kernel's event objects. -/
structure State where
  initialized : Bool
  lock_count : Int
  lock_event : Nat
  lock_owner : Nat
  events : List EventObj
  deriving DecidableEq, Repr

/-- The state at program start: `initialized = false`, `lock_count = -1`,
`lock_event` zero-initialised, `lock_owner = -1`, no event object. -/
def State.init : State :=
  { initialized := false, lock_count := -1, lock_event := NULL, lock_owner := NONE,
    events := [] }

/-- The handle stored in `lock_event` names an open event object. -/
def State.eventCreated (s : State) : Prop := (lookup s.lock_event s.events).isSome = true

instance (s : State) : Decidable s.eventCreated := by
  unfold State.eventCreated; exact inferInstance

/-- The event named by `lock_event` is open and signaled. -/
def State.eventSignaled (s : State) : Prop :=
  ∃ e, lookup s.lock_event s.events = some e ∧ e.signaled = true

/-! ## Program points and the step function -/

/-- Program points of the three operations.  Each names the shared access that
is executed next; values already read into a local are carried along. -/
inductive Pc where
  /-- Line 67: read `lock_owner`, compare with the current thread. -/
  | ctorReadOwner
  /-- Line 69: `Atomic::cmpxchg(0, &lock_count, -1)`. -/
  | ctorCas
  /-- Line 70: read `initialized` inside the retry loop. -/
  | ctorLoopReadInit
  /-- Line 71: read `lock_event` as the argument of the wait. -/
  | ctorLoopReadEvent
  /-- Lines 71-72: `WaitForSingleObject` on the handle read, and the assertion on
  its return value. -/
  | ctorWait (h : Nat)
  /-- Line 77: read `initialized` after the loop. -/
  | ctorReadInit
  /-- Line 79: call `CreateEvent`. -/
  | ctorCreate
  /-- Line 79: store the returned handle into `lock_event`. -/
  | ctorWriteEvent (h : Nat)
  /-- Line 80: `initialized = true`. -/
  | ctorSetInit
  /-- Line 83: `assert(lock_owner == -1)`. -/
  | ctorAssertOwner
  /-- Line 84: `lock_owner = current_thread`. -/
  | ctorWriteOwner
  /-- Line 87: read `lock_count` for the increment. -/
  | ctorIncRead
  /-- Line 87: store the incremented value. -/
  | ctorIncWrite (v : Int)
  /-- Line 90: `assert(lock_owner == GetCurrentThreadId())`. -/
  | ctorFinalAssert
  /-- Line 94: `assert(lock_owner == GetCurrentThreadId())`. -/
  | dtorAssertOwner
  /-- Line 95: `assert(lock_count >= 0)`. -/
  | dtorAssertCount
  /-- Line 97: read `lock_count`, compare with zero. -/
  | dtorReadCount
  /-- Line 99: `lock_owner = -1`. -/
  | dtorClearOwner
  /-- Line 100: `lock_count = -1`. -/
  | dtorClearCount
  /-- Line 102: read `lock_event` as the argument of the signal. -/
  | dtorReadEvent
  /-- Lines 102-103: `SetEvent` on the handle read, and the assertion on its
  return value. -/
  | dtorSignal (h : Nat)
  /-- Line 106: read `lock_count` for the decrement. -/
  | dtorDecRead
  /-- Line 106: store the decremented value. -/
  | dtorDecWrite (v : Int)
  /-- Line 58: `assert(lock_owner == -1)`. -/
  | releaseAssertOwner
  /-- Line 59: `assert(lock_count == -1)`. -/
  | releaseAssertCount
  /-- Line 60: `assert(lock_event != NULL)`. -/
  | releaseAssertEvent
  /-- Line 61: read `lock_event` as the argument of the close. -/
  | releaseReadEvent
  /-- Line 61: `CloseHandle` on the handle read. -/
  | releaseClose (h : Nat)
  /-- The operation has returned to its caller. -/
  | done
  /-- An assertion has failed. -/
  | fatal
  deriving DecidableEq, Repr

/-- One atomic step of thread `t` at program point `pc`.  `asserts` tells whether
`assert` is compiled in (otherwise an assertion is a no-op); `createOk` is the
kernel's answer should the step be the `CreateEvent` call.  `none` means the
thread cannot move: it is blocked in the wait, or the operation is over. -/
def stepPc (asserts : Bool) (t : Nat) (createOk : Bool) (pc : Pc) (s : State) :
    Option (Pc × State) :=
  match pc with
  | .ctorReadOwner =>
    some (if s.lock_owner ≠ t then .ctorCas else .ctorIncRead, s)
  | .ctorCas =>
    let r := cmpxchg 0 s.lock_count (-1)
    some (if r.1 ≠ -1 then .ctorLoopReadInit else .ctorReadInit, { s with lock_count := r.2 })
  | .ctorLoopReadInit =>
    some (if s.initialized then .ctorLoopReadEvent else .ctorCas, s)
  | .ctorLoopReadEvent =>
    some (.ctorWait s.lock_event, s)
  | .ctorWait h =>
    match WaitForSingleObject h s.events with
    | none => none
    | some (ret, evs) =>
      some (if asserts && ret ≠ WAIT_OBJECT_0 then .fatal else .ctorCas, { s with events := evs })
  | .ctorReadInit =>
    some (if !s.initialized then .ctorCreate else .ctorAssertOwner, s)
  | .ctorCreate =>
    let r := CreateEvent createOk s.events
    some (.ctorWriteEvent r.1, { s with events := r.2 })
  | .ctorWriteEvent h =>
    some (.ctorSetInit, { s with lock_event := h })
  | .ctorSetInit =>
    some (.ctorAssertOwner, { s with initialized := true })
  | .ctorAssertOwner =>
    some (if asserts && s.lock_owner ≠ NONE then .fatal else .ctorWriteOwner, s)
  | .ctorWriteOwner =>
    some (.ctorFinalAssert, { s with lock_owner := t })
  | .ctorIncRead =>
    some (.ctorIncWrite s.lock_count, s)
  | .ctorIncWrite v =>
    some (.ctorFinalAssert, { s with lock_count := wrapJint (v + 1) })
  | .ctorFinalAssert =>
    some (if asserts && s.lock_owner ≠ t then .fatal else .done, s)
  | .dtorAssertOwner =>
    some (if asserts && s.lock_owner ≠ t then .fatal else .dtorAssertCount, s)
  | .dtorAssertCount =>
    some (if asserts && s.lock_count < 0 then .fatal else .dtorReadCount, s)
  | .dtorReadCount =>
    some (if s.lock_count = 0 then .dtorClearOwner else .dtorDecRead, s)
  | .dtorClearOwner =>
    some (.dtorClearCount, { s with lock_owner := NONE })
  | .dtorClearCount =>
    some (.dtorReadEvent, { s with lock_count := -1 })
  | .dtorReadEvent =>
    some (.dtorSignal s.lock_event, s)
  | .dtorSignal h =>
    let r := SetEvent h s.events
    some (if asserts && r.1 = 0 then .fatal else .done, { s with events := r.2 })
  | .dtorDecRead =>
    some (.dtorDecWrite s.lock_count, s)
  | .dtorDecWrite v =>
    some (.done, { s with lock_count := wrapJint (v - 1) })
  | .releaseAssertOwner =>
    some (if asserts && s.lock_owner ≠ NONE then .fatal else .releaseAssertCount, s)
  | .releaseAssertCount =>
    some (if asserts && s.lock_count ≠ -1 then .fatal else .releaseAssertEvent, s)
  | .releaseAssertEvent =>
    some (if asserts && s.lock_event = NULL then .fatal else .releaseReadEvent, s)
  | .releaseReadEvent =>
    some (.releaseClose s.lock_event, s)
  | .releaseClose h =>
    some (.done, { s with events := (CloseHandle h s.events).2 })
  | .done => none
  | .fatal => none

/-! ## One thread running alone -/

/-- Run thread `t` from `pc` for at most `fuel` steps; the result is the program
point and state at which it stopped or ran out of fuel. -/
def run (asserts : Bool) (t : Nat) (createOk : Bool) : Nat → Pc → State → Pc × State
  | 0, pc, s => (pc, s)
  | fuel + 1, pc, s =>
    match stepPc asserts t createOk pc s with
    | none => (pc, s)
    | some (pc', s') => run asserts t createOk fuel pc' s'

/-- The configurations thread `t` passes through when run from `pc` for at most
`fuel` steps, the starting configuration first. -/
def trace (asserts : Bool) (t : Nat) (createOk : Bool) : Nat → Pc → State → List (Pc × State)
  | 0, pc, s => [(pc, s)]
  | fuel + 1, pc, s =>
    (pc, s) :: match stepPc asserts t createOk pc s with
      | none => []
      | some (pc', s') => trace asserts t createOk fuel pc' s'

/-- The constructor `ThreadCritical::ThreadCritical()` (lines 64-91), the acquire
operation, run by thread `t` alone. -/
def ctor (asserts : Bool) (t : Nat) (createOk : Bool) (fuel : Nat) (s : State) : Pc × State :=
  run asserts t createOk fuel .ctorReadOwner s

/-- The destructor `ThreadCritical::~ThreadCritical()` (lines 93-108), the release
operation, run by thread `t` alone. -/
def dtor (asserts : Bool) (t : Nat) (fuel : Nat) (s : State) : Pc × State :=
  run asserts t false fuel .dtorAssertOwner s

/-- The static `ThreadCritical::release()` (lines 57-62), the shutdown operation. -/
def release (asserts : Bool) (t : Nat) (fuel : Nat) (s : State) : Pc × State :=
  run asserts t false fuel .releaseAssertOwner s

/-- Trace of the constructor. -/
def ctorTrace (asserts : Bool) (t : Nat) (createOk : Bool) (fuel : Nat) (s : State) :
    List (Pc × State) :=
  trace asserts t createOk fuel .ctorReadOwner s

/-- Trace of the destructor. -/
def dtorTrace (asserts : Bool) (t : Nat) (fuel : Nat) (s : State) : List (Pc × State) :=
  trace asserts t false fuel .dtorAssertOwner s

/-- Trace of the static `release()`. -/
def releaseTrace (asserts : Bool) (t : Nat) (fuel : Nat) (s : State) : List (Pc × State) :=
  trace asserts t false fuel .releaseAssertOwner s

/-- The program point is a compare-and-swap. -/
def Pc.isCas : Pc → Bool
  | .ctorCas => true
  | _ => false

/-- The program point is a wait on the event. -/
def Pc.isWait : Pc → Bool
  | .ctorWait _ => true
  | _ => false

/-- The program point is the creation of the event. -/
def Pc.isCreate : Pc → Bool
  | .ctorCreate => true
  | _ => false

/-- The program point is a signal of the event. -/
def Pc.isSignal : Pc → Bool
  | .dtorSignal _ => true
  | _ => false

/-- The program point is the closing of the handle. -/
def Pc.isClose : Pc → Bool
  | .releaseClose _ => true
  | _ => false

/-- A sample state: the lock held once by thread 7, the event created and
unsignaled. -/
def heldOnce : State :=
  { initialized := true, lock_count := 0, lock_event := 1, lock_owner := 7,
    events := [{ signaled := false, isOpen := true }] }

/-- The program points of the retry loop of the constructor (lines 69-74). -/
def Pc.inLoop : Pc → Bool
  | .ctorCas => true
  | .ctorLoopReadInit => true
  | .ctorLoopReadEvent => true
  | .ctorWait _ => true
  | _ => false

/-! ## Sequences of whole operations -/

/-- An operation requested by a client thread: an acquire (with the kernel's
answer to a `CreateEvent` call, should one be made) or a release. -/
inductive Op where
  | acquire (t : Nat) (createOk : Bool)
  | release (t : Nat)
  deriving DecidableEq, Repr

/-- The thread performing an operation. -/
def Op.thread : Op → Nat
  | .acquire t _ => t
  | .release t => t

/-- The operation is an acquire. -/
def Op.isAcquire : Op → Bool
  | .acquire _ _ => true
  | .release _ => false

/-- The operation is a release. -/
def Op.isRelease : Op → Bool
  | .acquire _ _ => false
  | .release _ => true

/-- Perform one operation to completion on `s`; `none` when it has not returned
within `fuel` steps (it is blocked, spinning, or has failed an assertion). -/
def execOp (asserts : Bool) (fuel : Nat) (op : Op) (s : State) : Option State :=
  match op with
  | .acquire t ok =>
    if (ctor asserts t ok fuel s).1 = .done then some (ctor asserts t ok fuel s).2 else none
  | .release t =>
    if (dtor asserts t fuel s).1 = .done then some (dtor asserts t fuel s).2 else none

/-- The trace of one operation. -/
def opTrace (asserts : Bool) (fuel : Nat) (op : Op) (s : State) : List (Pc × State) :=
  match op with
  | .acquire t ok => ctorTrace asserts t ok fuel s
  | .release t => dtorTrace asserts t fuel s

/-- Perform a sequence of operations one after the other, each to completion. -/
def execOps (asserts : Bool) (fuel : Nat) : List Op → State → Option State
  | [], s => some s
  | op :: ops, s =>
    match execOp asserts fuel op s with
    | none => none
    | some s' => execOps asserts fuel ops s'

/-- The concatenated traces of a sequence of operations. -/
def execTrace (asserts : Bool) (fuel : Nat) : List Op → State → List (Pc × State)
  | [], _ => []
  | op :: ops, s =>
    opTrace asserts fuel op s ++
      match execOp asserts fuel op s with
      | none => []
      | some s' => execTrace asserts fuel ops s'

/-- Every operation of the sequence, in the state in which it starts, satisfies
`P`. -/
def OpsSatisfy (P : Op → State → Prop) (asserts : Bool) (fuel : Nat) :
    List Op → State → Prop
  | [], _ => True
  | op :: ops, s =>
    P op s ∧ ∀ s', execOp asserts fuel op s = some s' → OpsSatisfy P asserts fuel ops s'

/-- The contract under which the operations of a sequence are performed: the
caller's id is not the sentinel, and a release is called by the owner on a
count that is not negative. -/
def Op.pre (op : Op) (s : State) : Prop :=
  op.thread ≠ NONE ∧ (op.isAcquire = false → s.lock_owner = op.thread ∧ 0 ≤ s.lock_count)

instance (op : Op) (s : State) : Decidable (op.pre s) := by
  unfold Op.pre; exact inferInstance

/-- The nesting depth of a sequence stays within `B`: at every acquire of the
sequence, the acquires performed so far (that one included) exceed the releases
performed so far by at most `B`, so that no more than `B` scopes are ever open
at once.  `a` and `r` are the acquires and the releases performed before the
sequence. -/
def nestedWithin (B : Nat) : List Op → Nat → Nat → Bool
  | [], _, _ => true
  | .acquire _ _ :: ops, a, r => decide (a + 1 ≤ r + B) && nestedWithin B ops (a + 1) r
  | .release _ :: ops, a, r => nestedWithin B ops a (r + 1)

/-- The shape of the state after `a` acquires and `r` releases performed under
the contract `Op.pre` and nested at most `2^32 - 1` deep: unlocked when `a = r`,
otherwise owned by a real thread, the counter at `a - r - 1` as a `jint`. -/
def State.nestedAt (s : State) (a r : Nat) : Prop :=
  (s.lock_owner = NONE ∧ s.lock_count = -1 ∧ a = r) ∨
  (s.lock_owner ≠ NONE ∧ r < a ∧ a ≤ r + 4294967295 ∧
    s.lock_count = wrapJint ((a : Int) - (r : Int) - 1))

/-- The state in which `2^32` consecutive acquires by thread 1 leave the initial
state: owned by thread 1, with the counter wrapped round to `-1`. -/
def wrappedState : State :=
  { initialized := true, lock_count := -1, lock_event := 1, lock_owner := 1,
    events := [{ signaled := false, isOpen := true }] }

/-- The state after the first acquire by thread 1 on the initial state. -/
def heldByOne : State :=
  { initialized := true, lock_count := 0, lock_event := 1, lock_owner := 1,
    events := [{ signaled := false, isOpen := true }] }

/-- The state in which the constructor leaves a free lock: the event is created
first when `initialized` is still false. -/
def afterFirstAcquire (t : Nat) (createOk : Bool) (s : State) : State :=
  if s.initialized then { s with lock_count := 0, lock_owner := t }
  else { initialized := true, lock_count := 0, lock_event := (CreateEvent createOk s.events).1,
         lock_owner := t, events := (CreateEvent createOk s.events).2 }

/-- The state after an acquire by thread 1 on the initial state when `CreateEvent`
fails: `initialized` is set although `lock_event` is still `NULL`. -/
def heldWithoutEvent : State :=
  { initialized := true, lock_count := 0, lock_event := NULL, lock_owner := 1, events := [] }

/-- The shape of the state after `a` acquires and `r` releases by `t`, started on a
free lock and nested at most `2^32 - 1` deep: the counter is `a - r - 1` as a
`jint`, and the lock is owned by `t` unless every acquire has been released. -/
def balance (t : Nat) (a r : Nat) (s : State) : Prop :=
  a ≤ r + 4294967295 ∧ s.lock_count = wrapJint ((a : Int) - (r : Int) - 1) ∧
  (s.lock_owner = t ∨ (s.lock_owner = NONE ∧ a ≤ r))

/-! ## The concurrent program

Several threads run the constructor and the destructor, properly nested, their
atomic steps interleaved in any order. -/

/-- The private state of a client thread: where it is, and how many of its
acquires have returned without their release having started. -/
structure Thread where
  pc : Pc
  depth : Nat
  deriving DecidableEq, Repr

/-- The whole program: the shared state, every thread's private state, and
whether a failed assertion has terminated the process. -/
structure System where
  shared : State
  threads : Nat → Thread
  aborted : Bool

/-- At program start every thread is in client code, outside any operation. -/
def System.init : System :=
  { shared := State.init, threads := fun _ => { pc := .done, depth := 0 }, aborted := false }

/-- What a thread may do next: call the constructor, call the destructor (of its
innermost live scope), or execute the next atomic step of the operation it is
in. -/
inductive Action where
  | callAcquire (t : Nat)
  | callRelease (t : Nat)
  | step (t : Nat) (createOk : Bool)
  deriving DecidableEq, Repr

/-- The thread that acts. -/
def Action.thread : Action → Nat
  | .callAcquire t => t
  | .callRelease t => t
  | .step t _ => t

/-- The nesting bound of the client: `none` for no bound, `some L` when no thread
nests more than `L` acquires. -/
def allowsDepth (limit : Option Nat) (d : Nat) : Bool :=
  match limit with
  | none => true
  | some L => decide (d < L)

/-- One transition of the program.  Nothing moves once the process has aborted.
A thread in client code may call the constructor (within the nesting bound) or,
if it has a live scope, the destructor; a thread inside an operation executes
its next atomic step, and `depth` counts a scope from the return of the
constructor to the call of the matching destructor. -/
def System.next (asserts : Bool) (limit : Option Nat) (a : Action) (σ : System) :
    Option System :=
  if σ.aborted then none
  else
    match a with
    | .callAcquire t =>
      if (σ.threads t).pc = .done ∧ allowsDepth limit (σ.threads t).depth = true then
        some { σ with threads :=
          Function.update σ.threads t ⟨.ctorReadOwner, (σ.threads t).depth⟩ }
      else none
    | .callRelease t =>
      if (σ.threads t).pc = .done ∧ 1 ≤ (σ.threads t).depth then
        some { σ with threads :=
          Function.update σ.threads t ⟨.dtorAssertOwner, (σ.threads t).depth - 1⟩ }
      else none
    | .step t createOk =>
      match stepPc asserts t createOk (σ.threads t).pc σ.shared with
      | none => none
      | some (pc', s') =>
        some { shared := s',
               threads := Function.update σ.threads t
                 ⟨pc', if (σ.threads t).pc = .ctorFinalAssert ∧ pc' = .done
                   then (σ.threads t).depth + 1 else (σ.threads t).depth⟩,
               aborted := decide (pc' = .fatal) }

/-- The states the program can reach when the threads of `T` run. -/
inductive Reachable (asserts : Bool) (limit : Option Nat) (T : Finset Nat) : System → Prop where
  | init : Reachable asserts limit T System.init
  | step {σ σ' : System} (a : Action) :
      Reachable asserts limit T σ → a.thread ∈ T → System.next asserts limit a σ = some σ' →
      Reachable asserts limit T σ'

/-- Thread `t` is between the return of an acquire and the start of its matching
outermost release. -/
def System.holds (σ : System) (t : Nat) : Prop := 1 ≤ (σ.threads t).depth

/-! ## The invariant of the concurrent program -/

/-- The thread configurations in which the thread has the lock: from its
successful compare-and-swap to the store of `-1` into `lock_count`. -/
def owns (pc : Pc) (d : Nat) : Bool :=
  match pc with
  | .done => decide (1 ≤ d)
  | .ctorReadOwner => decide (1 ≤ d)
  | .ctorReadInit => true
  | .ctorCreate => true
  | .ctorWriteEvent _ => true
  | .ctorSetInit => true
  | .ctorAssertOwner => true
  | .ctorWriteOwner => true
  | .ctorIncRead => true
  | .ctorIncWrite _ => true
  | .ctorFinalAssert => true
  | .dtorAssertOwner => true
  | .dtorAssertCount => true
  | .dtorReadCount => true
  | .dtorClearOwner => true
  | .dtorClearCount => true
  | .dtorDecRead => true
  | .dtorDecWrite _ => true
  | _ => false

/-- What holds of the shared state and of a thread's depth at each of the
thread's program points, under the nesting bound `L`. -/
def good (L : Nat) (t : Nat) (s : State) (pc : Pc) (d : Nat) : Prop :=
  match pc with
  | .done =>
    d = 0 ∨ (d ≤ L ∧ s.lock_owner = t ∧ s.lock_count = wrapJint ((d : Int) - 1))
  | .ctorReadOwner =>
    d < L ∧ (d = 0 ∨ (s.lock_owner = t ∧ s.lock_count = wrapJint ((d : Int) - 1)))
  | .ctorCas => d = 0 ∧ 0 < L
  | .ctorLoopReadInit => d = 0 ∧ 0 < L
  | .ctorLoopReadEvent => d = 0 ∧ 0 < L
  | .ctorWait _ => d = 0 ∧ 0 < L
  | .ctorReadInit => d = 0 ∧ 0 < L ∧ s.lock_owner = NONE ∧ s.lock_count = 0
  | .ctorCreate => d = 0 ∧ 0 < L ∧ s.lock_owner = NONE ∧ s.lock_count = 0
  | .ctorWriteEvent _ => d = 0 ∧ 0 < L ∧ s.lock_owner = NONE ∧ s.lock_count = 0
  | .ctorSetInit => d = 0 ∧ 0 < L ∧ s.lock_owner = NONE ∧ s.lock_count = 0
  | .ctorAssertOwner => d = 0 ∧ 0 < L ∧ s.lock_owner = NONE ∧ s.lock_count = 0
  | .ctorWriteOwner => d = 0 ∧ 0 < L ∧ s.lock_owner = NONE ∧ s.lock_count = 0
  | .ctorIncRead =>
    1 ≤ d ∧ d < L ∧ s.lock_owner = t ∧ s.lock_count = wrapJint ((d : Int) - 1)
  | .ctorIncWrite v =>
    1 ≤ d ∧ d < L ∧ s.lock_owner = t ∧ s.lock_count = wrapJint ((d : Int) - 1) ∧
      v = s.lock_count
  | .ctorFinalAssert => d < L ∧ s.lock_owner = t ∧ s.lock_count = wrapJint (d : Int)
  | .dtorAssertOwner => d < L ∧ s.lock_owner = t ∧ s.lock_count = wrapJint (d : Int)
  | .dtorAssertCount => d < L ∧ s.lock_owner = t ∧ s.lock_count = wrapJint (d : Int)
  | .dtorReadCount => d < L ∧ s.lock_owner = t ∧ s.lock_count = wrapJint (d : Int)
  | .dtorClearOwner => d = 0 ∧ s.lock_owner = t ∧ s.lock_count = 0
  | .dtorClearCount => d = 0 ∧ s.lock_owner = NONE ∧ s.lock_count = 0
  | .dtorReadEvent => d = 0
  | .dtorSignal _ => d = 0
  | .dtorDecRead => 1 ≤ d ∧ d < L ∧ s.lock_owner = t ∧ s.lock_count = wrapJint (d : Int)
  | .dtorDecWrite v =>
    1 ≤ d ∧ d < L ∧ s.lock_owner = t ∧ s.lock_count = wrapJint (d : Int) ∧ v = s.lock_count
  | _ => False

/-- Thread `t` has the lock in state `σ`. -/
def System.own (σ : System) (t : Nat) : Bool := owns (σ.threads t).pc (σ.threads t).depth

/-- The invariant of the concurrent program under the nesting bound `L`. -/
structure Inv (L : Nat) (σ : System) : Prop where
  excl : ∀ t u, 1 ≤ (σ.threads t).depth → 1 ≤ (σ.threads u).depth → t = u
  good : σ.aborted = false → ∀ t, good L t σ.shared (σ.threads t).pc (σ.threads t).depth
  uniq : σ.aborted = false → ∀ t u, σ.own t = true → σ.own u = true → t = u
  free : σ.aborted = false → (∀ t, σ.own t = false) →
    σ.shared.lock_count = -1 ∧ σ.shared.lock_owner = NONE

/-- A program state in which only threads 1 and 2 have left their initial
configuration. -/
def sys2 (s : State) (a b : Thread) : System :=
  { shared := s,
    threads := fun i => if i = 1 then a else if i = 2 then b else ⟨.done, 0⟩,
    aborted := false }

/-- The program state in which threads 1 and 2 both hold the lock: thread 1 inside
`2^32 - 1` of its scopes, thread 2 inside one. -/
def twoHolders : System :=
  sys2 { initialized := true, lock_count := -1, lock_event := 1, lock_owner := 2,
         events := [{ signaled := true, isOpen := true }] }
    ⟨.done, 4294967295⟩ ⟨.done, 1⟩

/-! ## Further notions for sequences of operations -/

/-- The kernel's answer to the `CreateEvent` call of an operation, should it make
one (a release makes none). -/
def Op.createOk : Op → Bool
  | .acquire _ ok => ok
  | .release _ => true

/-- The contract `Op.pre`, and a `CreateEvent` call made by the operation
succeeds. -/
def Op.preCreated (op : Op) (s : State) : Prop :=
  op.pre s ∧ op.createOk = true

instance (op : Op) (s : State) : Decidable (op.preCreated s) := by
  unfold Op.preCreated; exact inferInstance

/-- A release starts in a state whose `lock_event` names an open event. -/
def Op.releaseHasEvent (op : Op) (s : State) : Prop :=
  op.isAcquire = false → s.eventCreated

/-- Either nothing has happened to the event yet (`initialized` false, the lock
free) or `initialized` is true and `lock_event` names an open event. -/
def State.eventOK (s : State) : Prop :=
  (s.initialized = false ∧ s.lock_count = -1 ∧ s.lock_owner = NONE) ∨
  (s.initialized = true ∧ s.eventCreated)

/-- The state after `2^31` releases, without assertions, on the initial state:
the counter has wrapped round to the largest `jint`. -/
def overReleased : State := { State.init with lock_count := 2147483647 }

/-! ## Further notions for the concurrent program -/

/-- What the two "Lock acquired illegally." assertions of the constructor need:
`lock_owner` is `NONE` whenever `lock_count` is `-1`, it is `NONE` for a thread
about to execute line 83, and it is that thread for a thread about to execute
line 90. -/
def System.assertsHold (σ : System) : Prop :=
  (σ.shared.lock_count = -1 → σ.shared.lock_owner = NONE) ∧
  ∀ t, ((σ.threads t).pc = .ctorAssertOwner → σ.shared.lock_owner = NONE) ∧
       ((σ.threads t).pc = .ctorFinalAssert → σ.shared.lock_owner = t)

/-- The action executes the `CreateEvent` call of line 79. -/
def Action.isCreation (a : Action) (σ : System) : Bool :=
  match a with
  | .step t _ => (σ.threads t).pc.isCreate
  | _ => false

/-- Execute a sequence of actions one after the other; `none` when one of them is
not possible. -/
def System.exec (asserts : Bool) (limit : Option Nat) : List Action → System → Option System
  | [], σ => some σ
  | a :: as, σ =>
    match System.next asserts limit a σ with
    | none => none
    | some σ' => System.exec asserts limit as σ'

/-- The number of `CreateEvent` calls executed when the actions are performed one
after the other from `σ`, for as long as they are possible. -/
def creations (asserts : Bool) (limit : Option Nat) : List Action → System → Nat
  | [], _ => 0
  | a :: as, σ =>
    match System.next asserts limit a σ with
    | none => 0
    | some σ' => (if a.isCreation σ then 1 else 0) + creations asserts limit as σ'

/-- The program points of lines 77-80, between the winning compare-and-swap and
the store of `initialized = true`. -/
def Pc.inCreation : Pc → Bool
  | .ctorReadInit => true
  | .ctorCreate => true
  | .ctorWriteEvent _ => true
  | .ctorSetInit => true
  | _ => false

/-- The program points at which a thread can be while `initialized` is false. -/
def Pc.beforeInit : Pc → Bool
  | .done => true
  | .ctorReadOwner => true
  | .ctorCas => true
  | .ctorLoopReadInit => true
  | .ctorReadInit => true
  | .ctorCreate => true
  | .ctorWriteEvent _ => true
  | .ctorSetInit => true
  | _ => false

/-- The program points between the `CreateEvent` call and the store of
`initialized = true`. -/
def Pc.hasCreated : Pc → Bool
  | .ctorWriteEvent _ => true
  | .ctorSetInit => true
  | _ => false

/-- Once `initialized` is true no thread is inside the creation of the event, and
a handle carried by a thread into a wait or a signal is `lock_event`. -/
def Pc.handleOK (pc : Pc) (ev : Nat) : Prop :=
  match pc with
  | .ctorWait h => h = ev
  | .dtorSignal h => h = ev
  | .ctorCreate => False
  | .ctorWriteEvent _ => False
  | .ctorSetInit => False
  | _ => True

/-- The situation while `initialized` is false, `n` being the number of
`CreateEvent` calls made so far: nobody owns the lock, every thread is in
client code or in the first part of the constructor, at most one thread is
inside lines 77-80, `lock_count` is `0` when one is, and a call has been made
only if some thread is past it. -/
def BeforeInit (n : Nat) (σ : System) : Prop :=
  σ.shared.lock_owner = NONE ∧
  (∀ t, (σ.threads t).pc.beforeInit = true ∧ (σ.threads t).depth = 0) ∧
  (∀ t u, (σ.threads t).pc.inCreation = true → (σ.threads u).pc.inCreation = true → t = u) ∧
  (∀ t, (σ.threads t).pc.inCreation = true → σ.shared.lock_count = 0) ∧
  (n = 1 → ∃ x, (σ.threads x).pc.hasCreated = true)

/-- The situation once `initialized` is true: nobody is inside the creation of
the event, and the handles carried into waits and signals are `lock_event`. -/
def AfterInit (σ : System) : Prop :=
  ∀ t, (σ.threads t).pc.handleOK σ.shared.lock_event

/-- The invariant behind the single creation of the event, `n` being the number
of `CreateEvent` calls made so far. -/
def CreationInv (n : Nat) (σ : System) : Prop :=
  n ≤ 1 ∧
  (σ.shared.initialized = false → BeforeInit n σ) ∧
  (σ.shared.initialized = true → AfterInit σ)

/-- The program point is the store `initialized = true` of line 80. -/
def Pc.isInitStore : Pc → Bool
  | .ctorSetInit => true
  | _ => false

/-- The action executes the store `initialized = true` of line 80. -/
def Action.isInitStore (a : Action) (σ : System) : Bool :=
  match a with
  | .step t _ => (σ.threads t).pc.isInitStore
  | _ => false

/-- The number of stores `initialized = true` executed when the actions are
performed one after the other from `σ`, for as long as they are possible. -/
def initStores (asserts : Bool) (limit : Option Nat) : List Action → System → Nat
  | [], _ => 0
  | a :: as, σ =>
    match System.next asserts limit a σ with
    | none => 0
    | some σ' => (if a.isInitStore σ then 1 else 0) + initStores asserts limit as σ'

/-- Thread 1 runs its first acquire from the call to the return, the kernel
creating the event. -/
def firstAcquireActions : List Action :=
  [.callAcquire 1, .step 1 true, .step 1 true, .step 1 true, .step 1 true, .step 1 true,
   .step 1 true, .step 1 true, .step 1 true, .step 1 true]

/-- The program points of the body of the retry loop (lines 70-73). -/
def Pc.inRetry : Pc → Bool
  | .ctorLoopReadInit => true
  | .ctorLoopReadEvent => true
  | .ctorWait _ => true
  | _ => false

/-- The program points of a thread that is about to try the compare-and-swap of
line 69 or to signal the event (line 102). -/
def Pc.willWake : Pc → Bool
  | .ctorCas => true
  | .dtorReadEvent => true
  | .dtorSignal _ => true
  | _ => false

/-- Thread `t` is blocked in the wait of line 71: the event it waits on is open
and unsignaled. -/
def System.blockedInWait (σ : System) (t : Nat) : Prop :=
  ∃ h, (σ.threads t).pc = .ctorWait h ∧ WaitForSingleObject h σ.shared.events = none

/-- Thread `u` has a step to take without starting a new acquire: the next atomic
step of the operation it is in, or the release of a scope it is in.  (A thread in
client code outside all its scopes may have come to the end of its sequence of
operations.) -/
def System.enabled (asserts : Bool) (limit : Option Nat) (σ : System) (u : Nat) : Prop :=
  ∃ a : Action, a.thread = u ∧ a ≠ .callAcquire u ∧
    (System.next asserts limit a σ).isSome = true

/-- The invariant behind the wake-up of waiters: in a running process, when the
lock is free, the event unsignaled and some thread in the body of the retry
loop, some thread is about to try the compare-and-swap or to signal. -/
def WakeInv (σ : System) : Prop :=
  σ.aborted = false → σ.shared.initialized = true → σ.shared.lock_count = -1 →
  WaitForSingleObject σ.shared.lock_event σ.shared.events = none →
  (∃ t, (σ.threads t).pc.inRetry = true) → ∃ u, (σ.threads u).pc.willWake = true

/-- Where a failed assertion has ended the process, the lock was held or
`lock_event` names no open event. -/
def RunInv (σ : System) : Prop :=
  σ.aborted = true →
    σ.shared.lock_count ≠ -1 ∨ lookup σ.shared.lock_event σ.shared.events = none

/-- Thread 1 acquires; thread 2 tries, fails the compare-and-swap and goes to the
wait; thread 1 releases as far as the store of `-1` into `lock_count`. -/
def wakeRun : List Action :=
  firstAcquireActions ++
  [.callAcquire 2, .step 2 true, .step 2 true, .step 2 true, .step 2 true,
   .callRelease 1, .step 1 true, .step 1 true, .step 1 true, .step 1 true, .step 1 true]

/-- The state at the end of `wakeRun` under the nesting bound 5: thread 2 is
blocked in the wait, the lock is free and thread 1 is about to signal. -/
def wakeState : System :=
  (System.exec true (some 5) wakeRun System.init).getD System.init

/-- After `2^32` nested acquires by thread 1 (`lock_count` is `-1` again):
thread 3 wins the compare-and-swap; thread 1, still the owner on record, nests
once more, which makes `lock_count` `1`; thread 3 completes its acquire; thread 2
tries, fails the compare-and-swap and blocks in the wait; thread 3 starts its
release and finds `lock_count` nonzero; thread 1 leaves one scope, which makes
`lock_count` `0`; thread 3 reads the `0` for its decrement; thread 1 acquires
again, is no longer the owner on record, fails the compare-and-swap and blocks in
the wait; thread 3 stores `-1` and returns without a signal. -/
def lostWakeupRun : List Action :=
  [.callAcquire 3, .step 3 true, .step 3 true,
   .callAcquire 1, .step 1 true, .step 1 true, .step 1 true, .step 1 true,
   .step 3 true, .step 3 true, .step 3 true, .step 3 true,
   .callAcquire 2, .step 2 true, .step 2 true, .step 2 true, .step 2 true,
   .callRelease 3, .step 3 true, .step 3 true, .step 3 true,
   .callRelease 1, .step 1 true, .step 1 true, .step 1 true, .step 1 true, .step 1 true,
   .step 3 true,
   .callAcquire 1, .step 1 true, .step 1 true, .step 1 true, .step 1 true,
   .step 3 true]

/-- The state at the end of `lostWakeupRun`, without assertions and without a
nesting bound. -/
def lostWakeup : System :=
  (System.exec false none lostWakeupRun
    (sys2 wrappedState ⟨.done, 4294967296⟩ ⟨.done, 0⟩)).getD System.init

/-- The state in which thread 1, in its first acquire, is about to execute the
assertion of line 83. -/
def atLine83 : System :=
  (System.exec true (some 5) (firstAcquireActions.take 7) System.init).getD System.init

/-- The state in which thread 1, in its first acquire, is about to execute the
assertion of line 90. -/
def atLine90 : System :=
  (System.exec true (some 5) (firstAcquireActions.take 9) System.init).getD System.init

/-! ## Running a single thread: basic facts -/

@[simp]
theorem run_done (asserts : Bool) (t : Nat) (createOk : Bool) (fuel : Nat) (s : State) :
    run asserts t createOk fuel .done s = (.done, s) := by
  cases fuel <;> simp [run, stepPc]

@[simp]
theorem run_fatal (asserts : Bool) (t : Nat) (createOk : Bool) (fuel : Nat) (s : State) :
    run asserts t createOk fuel .fatal s = (.fatal, s) := by
  cases fuel <;> simp [run, stepPc]

@[simp]
theorem trace_done (asserts : Bool) (t : Nat) (createOk : Bool) (fuel : Nat) (s : State) :
    trace asserts t createOk fuel .done s = [(.done, s)] := by
  cases fuel <;> simp [trace, stepPc]

@[simp]
theorem trace_fatal (asserts : Bool) (t : Nat) (createOk : Bool) (fuel : Nat) (s : State) :
    trace asserts t createOk fuel .fatal s = [(.fatal, s)] := by
  cases fuel <;> simp [trace, stepPc]

/-! ## Acquire of a free lock -/

/-- C3: on a state with `lock_count = -1` and `lock_owner = NONE`, the constructor
run by a thread `t ≠ NONE` returns (for any fuel of at least nine steps) with
`lock_count = 0` and `lock_owner = t`; it performs exactly one compare-and-swap,
the one found at the second configuration of its trace, which succeeds, and it
never waits on the event. -/
theorem ctor_free_lock (asserts : Bool) (t : Nat) (createOk : Bool) (fuel : Nat) (s : State)
    (ht : t ≠ NONE) (hc : s.lock_count = -1) (ho : s.lock_owner = NONE) (hf : 9 ≤ fuel) :
    (ctor asserts t createOk fuel s).1 = .done ∧
    (ctor asserts t createOk fuel s).2.lock_count = 0 ∧
    (ctor asserts t createOk fuel s).2.lock_owner = t ∧
    (ctorTrace asserts t createOk fuel s).countP (fun c => c.1.isCas) = 1 ∧
    (ctorTrace asserts t createOk fuel s)[1]? = some (.ctorCas, s) ∧
    (ctorTrace asserts t createOk fuel s)[2]? = some (.ctorReadInit, { s with lock_count := 0 }) ∧
    (ctorTrace asserts t createOk fuel s).countP (fun c => c.1.isWait) = 0 := by
  obtain ⟨n, rfl⟩ : ∃ n, fuel = n + 9 := ⟨fuel - 9, by omega⟩
  have ht2 : ¬ NONE = t := fun h => ht h.symm
  cases hi : s.initialized <;>
    simp [ctor, ctorTrace, run, trace, stepPc, cmpxchg, hc, ho, hi, ht2, Pc.isCas, Pc.isWait,
      List.countP_cons]

/-- Witness for C3: thread 7 acquiring the lock on the initial state. -/
theorem ctor_free_lock_witness :
    (ctor true 7 true 9 State.init).1 = .done ∧
    (ctor true 7 true 9 State.init).2.lock_count = 0 ∧
    (ctor true 7 true 9 State.init).2.lock_owner = 7 ∧
    (ctorTrace true 7 true 9 State.init).countP (fun c => c.1.isCas) = 1 ∧
    (ctorTrace true 7 true 9 State.init)[1]? = some (.ctorCas, State.init) ∧
    (ctorTrace true 7 true 9 State.init)[2]? =
      some (.ctorReadInit, { State.init with lock_count := 0 }) ∧
    (ctorTrace true 7 true 9 State.init).countP (fun c => c.1.isWait) = 0 :=
  ctor_free_lock true 7 true 9 State.init (by decide) rfl rfl (by decide)

/-! ## Facts about the event objects -/

theorem lookup_some_iff (h : Nat) (evs : List EventObj) (e : EventObj) :
    lookup h evs = some e ↔ h ≠ NULL ∧ evs[h - 1]? = some e ∧ e.isOpen = true := by
  unfold lookup
  by_cases h0 : h = NULL
  · simp [h0]
  · simp only [h0, if_false, ne_eq, not_false_eq_true, true_and]
    cases hg : evs[h - 1]? with
    | none => simp
    | some e' =>
      by_cases ho : e'.isOpen = true
      · simp only [ho, if_true, Option.some.injEq]
        constructor
        · intro h1; subst h1; exact ⟨rfl, ho⟩
        · intro h1; exact h1.1
      · simp only [ho, Bool.false_eq_true, if_false, Option.some.injEq]
        constructor
        · intro h1; cases h1
        · intro h1; obtain ⟨h2, h3⟩ := h1; subst h2; exact absurd h3 ho

theorem lookup_set_self (h : Nat) (evs : List EventObj) (e e' : EventObj)
    (hl : lookup h evs = some e) (ho : e'.isOpen = true) :
    lookup h (evs.set (h - 1) e') = some e' := by
  rw [lookup_some_iff] at hl ⊢
  obtain ⟨h0, hg, _⟩ := hl
  have hi : h - 1 < evs.length := by
    rcases Nat.lt_or_ge (h - 1) evs.length with h1 | h1
    · exact h1
    · simp [List.getElem?_eq_none h1] at hg
  exact ⟨h0, by simp [List.getElem?_set, hi], ho⟩

theorem lookup_set_closed (h : Nat) (evs : List EventObj) (e' : EventObj)
    (ho : e'.isOpen = false) :
    lookup h (evs.set (h - 1) e') = none := by
  unfold lookup
  by_cases h0 : h = NULL
  · simp [h0]
  · simp only [h0, if_false, List.getElem?_set]
    by_cases hi : h - 1 < evs.length <;> simp [hi, ho]

theorem SetEvent_of_created (h : Nat) (evs : List EventObj) (e : EventObj)
    (hl : lookup h evs = some e) :
    SetEvent h evs = (1, evs.set (h - 1) { e with signaled := true }) := by
  simp [SetEvent, hl]

/-! ## Re-entrant acquire and nested release -/

/-- The constructor on a lock already owned by the caller: four steps, the
counter incremented with wrap-around, nothing else touched. -/
theorem ctor_reentrant_wrap (asserts : Bool) (t : Nat) (createOk : Bool) (n : Nat) (s : State)
    (ho : s.lock_owner = t) :
    ctor asserts t createOk (n + 4) s =
      (.done, { s with lock_count := wrapJint (s.lock_count + 1) }) := by
  simp [ctor, run, stepPc, ho]

theorem wrapJint_of_isJint (x : Int) (h : IsJint x) : wrapJint x = x := by
  unfold IsJint JINT_MIN JINT_MAX at h
  unfold wrapJint
  omega

/-- C5: on a state with `lock_owner = t` and `0 ≤ lock_count < JINT_MAX`, the
constructor run by `t` returns after four steps with `lock_count` incremented
and every other field, the event objects included, unchanged; its trace
contains no compare-and-swap, no wait and no event creation. -/
theorem ctor_reentrant (asserts : Bool) (t : Nat) (createOk : Bool) (fuel : Nat) (s : State)
    (ht : t ≠ NONE) (ho : s.lock_owner = t) (hd : 0 ≤ s.lock_count)
    (hmax : s.lock_count < JINT_MAX) (hf : 4 ≤ fuel) :
    ctor asserts t createOk fuel s = (.done, { s with lock_count := s.lock_count + 1 }) ∧
    (ctorTrace asserts t createOk fuel s).length = 5 ∧
    (ctorTrace asserts t createOk fuel s).countP (fun c => c.1.isCas) = 0 ∧
    (ctorTrace asserts t createOk fuel s).countP (fun c => c.1.isWait) = 0 ∧
    (ctorTrace asserts t createOk fuel s).countP (fun c => c.1.isCreate) = 0 := by
  obtain ⟨n, rfl⟩ : ∃ n, fuel = n + 4 := ⟨fuel - 4, by omega⟩
  have hw : wrapJint (s.lock_count + 1) = s.lock_count + 1 :=
    wrapJint_of_isJint _ (by unfold IsJint JINT_MIN; unfold JINT_MAX at *; omega)
  have _ := ht
  refine ⟨by rw [ctor_reentrant_wrap asserts t createOk n s ho, hw], ?_, ?_, ?_, ?_⟩ <;>
    simp [ctorTrace, trace, stepPc, ho, Pc.isCas, Pc.isWait, Pc.isCreate, List.countP_cons]

/-- Witness for C5: thread 7 re-entering at depth 3. -/
theorem ctor_reentrant_witness :
    ctor true 7 true 4 { State.init with lock_owner := 7, lock_count := 3 } =
      (.done, { { State.init with lock_owner := 7, lock_count := 3 } with
                lock_count := (3 : Int) + 1 }) ∧
    (ctorTrace true 7 true 4 { State.init with lock_owner := 7, lock_count := 3 }).length = 5 ∧
    (ctorTrace true 7 true 4 { State.init with lock_owner := 7, lock_count := 3 }).countP
      (fun c => c.1.isCas) = 0 ∧
    (ctorTrace true 7 true 4 { State.init with lock_owner := 7, lock_count := 3 }).countP
      (fun c => c.1.isWait) = 0 ∧
    (ctorTrace true 7 true 4 { State.init with lock_owner := 7, lock_count := 3 }).countP
      (fun c => c.1.isCreate) = 0 :=
  ctor_reentrant true 7 true 4 { State.init with lock_owner := 7, lock_count := 3 }
    (by decide) rfl (by decide) (by decide) (by decide)

/-- The destructor on a lock held by the caller at a nonzero count: five steps,
the counter decremented with wrap-around, nothing else touched. -/
theorem dtor_nested_wrap (asserts : Bool) (t : Nat) (n : Nat) (s : State)
    (ho : s.lock_owner = t) (hd : 0 < s.lock_count) :
    dtor asserts t (n + 5) s = (.done, { s with lock_count := wrapJint (s.lock_count - 1) }) := by
  have h1 : ¬ s.lock_count < 0 := by omega
  have h2 : ¬ s.lock_count = 0 := by omega
  simp [dtor, run, stepPc, ho, h1, h2]

/-- C7: on a state with `lock_owner = t` and a `jint` count `lock_count > 0`, the
destructor run by `t` returns with `lock_count` decremented and every other
field, the event objects included, unchanged; its trace contains no signal. -/
theorem dtor_nested (asserts : Bool) (t : Nat) (fuel : Nat) (s : State)
    (ho : s.lock_owner = t) (hd : 0 < s.lock_count) (hj : IsJint s.lock_count)
    (hf : 5 ≤ fuel) :
    dtor asserts t fuel s = (.done, { s with lock_count := s.lock_count - 1 }) ∧
    (dtorTrace asserts t fuel s).countP (fun c => c.1.isSignal) = 0 := by
  obtain ⟨n, rfl⟩ : ∃ n, fuel = n + 5 := ⟨fuel - 5, by omega⟩
  have hw : wrapJint (s.lock_count - 1) = s.lock_count - 1 :=
    wrapJint_of_isJint _ (by unfold IsJint JINT_MIN JINT_MAX at *; omega)
  have h1 : ¬ s.lock_count < 0 := by omega
  have h2 : ¬ s.lock_count = 0 := by omega
  refine ⟨by rw [dtor_nested_wrap asserts t n s ho hd, hw], ?_⟩
  simp [dtorTrace, trace, stepPc, ho, h1, h2, Pc.isSignal, List.countP_cons]

/-- Witness for C7: thread 7 leaving depth 3. -/
theorem dtor_nested_witness :
    dtor true 7 5 { State.init with lock_owner := 7, lock_count := 3 } =
      (.done, { { State.init with lock_owner := 7, lock_count := 3 } with
                lock_count := (3 : Int) - 1 }) ∧
    (dtorTrace true 7 5 { State.init with lock_owner := 7, lock_count := 3 }).countP
      (fun c => c.1.isSignal) = 0 :=
  dtor_nested true 7 5 { State.init with lock_owner := 7, lock_count := 3 }
    rfl (by decide) (by decide) (by decide)

/-! ## Outermost release -/

/-- C6: on a state with `lock_owner = t`, `lock_count = 0` and `lock_event` naming
an open event, the destructor run by `t` returns with `lock_owner = NONE` and
`lock_count = -1`, `initialized` and `lock_event` unchanged; its trace contains
exactly one signal, issued on `lock_event` in a state where both fields are
already cleared, and the event is left signaled. -/
theorem dtor_outermost (asserts : Bool) (t : Nat) (fuel : Nat) (s : State)
    (ho : s.lock_owner = t) (hc : s.lock_count = 0) (he : s.eventCreated) (hf : 7 ≤ fuel) :
    (dtor asserts t fuel s).1 = .done ∧
    (dtor asserts t fuel s).2.lock_owner = NONE ∧
    (dtor asserts t fuel s).2.lock_count = -1 ∧
    (dtor asserts t fuel s).2.initialized = s.initialized ∧
    (dtor asserts t fuel s).2.lock_event = s.lock_event ∧
    (dtorTrace asserts t fuel s).countP (fun c => c.1.isSignal) = 1 ∧
    (dtorTrace asserts t fuel s)[6]? =
      some (.dtorSignal s.lock_event, { s with lock_owner := NONE, lock_count := -1 }) ∧
    (dtor asserts t fuel s).2.eventSignaled := by
  obtain ⟨n, rfl⟩ : ∃ n, fuel = n + 7 := ⟨fuel - 7, by omega⟩
  unfold State.eventCreated at he
  obtain ⟨e, hl⟩ := Option.isSome_iff_exists.mp he
  have hs := SetEvent_of_created _ _ _ hl
  have hl2 := lookup_set_self _ _ e { e with signaled := true } hl
    ((lookup_some_iff _ _ _).mp hl).2.2
  refine ⟨?_, ?_, ?_, ?_, ?_, ?_, ?_, ?_⟩
  all_goals first
    | (simp [dtor, dtorTrace, run, trace, stepPc, ho, hc, hs, Pc.isSignal, List.countP_cons]; done)
    | (simp only [State.eventSignaled]
       refine ⟨{ e with signaled := true }, ?_, rfl⟩
       simp [dtor, run, stepPc, ho, hc, hs, hl2])

/-- Witness for C6: thread 7 releasing the lock it holds once. -/
theorem dtor_outermost_witness :
    (dtor true 7 7 heldOnce).1 = .done ∧
    (dtor true 7 7 heldOnce).2.lock_owner = NONE ∧
    (dtor true 7 7 heldOnce).2.lock_count = -1 ∧
    (dtor true 7 7 heldOnce).2.initialized = heldOnce.initialized ∧
    (dtor true 7 7 heldOnce).2.lock_event = heldOnce.lock_event ∧
    (dtorTrace true 7 7 heldOnce).countP (fun c => c.1.isSignal) = 1 ∧
    (dtorTrace true 7 7 heldOnce)[6]? =
      some (.dtorSignal heldOnce.lock_event,
        { heldOnce with lock_owner := NONE, lock_count := -1 }) ∧
    (dtor true 7 7 heldOnce).2.eventSignaled :=
  dtor_outermost true 7 7 heldOnce rfl rfl (by decide) (by decide)

/-! ## Misuse of release -/

/-- C8: with assertions compiled in and `lock_event` naming an open event, the
destructor run by `t` ends at the fatal point exactly when `lock_owner ≠ t` or
`lock_count < 0`, and otherwise returns; when it ends at the fatal point every
configuration of its trace still carries the state it started from. -/
theorem dtor_fatal_iff (t : Nat) (fuel : Nat) (s : State)
    (he : s.eventCreated) (hf : 7 ≤ fuel) :
    ((dtor true t fuel s).1 = .fatal ↔ (s.lock_owner ≠ t ∨ s.lock_count < 0)) ∧
    ((dtor true t fuel s).1 = .fatal ∨ (dtor true t fuel s).1 = .done) ∧
    ((dtor true t fuel s).1 = .fatal → ∀ c ∈ dtorTrace true t fuel s, c.2 = s) := by
  obtain ⟨n, rfl⟩ : ∃ n, fuel = n + 7 := ⟨fuel - 7, by omega⟩
  unfold State.eventCreated at he
  obtain ⟨e, hl⟩ := Option.isSome_iff_exists.mp he
  have hs := SetEvent_of_created _ _ _ hl
  by_cases ho : s.lock_owner = t
  · by_cases hn : s.lock_count < 0
    · simp [dtor, dtorTrace, run, trace, stepPc, ho, hn]
    · by_cases hz : s.lock_count = 0
      · simp [dtor, dtorTrace, run, trace, stepPc, ho, hn, hz, hs]
      · simp [dtor, dtorTrace, run, trace, stepPc, ho, hn, hz]
  · simp [dtor, dtorTrace, run, trace, stepPc, ho]

/-- Witness for C8: thread 8 releasing a lock held by thread 7. -/
theorem dtor_fatal_iff_witness :
    ((dtor true 8 7 heldOnce).1 = .fatal ↔ (heldOnce.lock_owner ≠ 8 ∨ heldOnce.lock_count < 0)) ∧
    ((dtor true 8 7 heldOnce).1 = .fatal ∨ (dtor true 8 7 heldOnce).1 = .done) ∧
    ((dtor true 8 7 heldOnce).1 = .fatal → ∀ c ∈ dtorTrace true 8 7 heldOnce, c.2 = heldOnce) :=
  dtor_fatal_iff 8 7 heldOnce (by decide) (by decide)

/-! ## Shutdown -/

/-- C9: with assertions compiled in, the static `release()` returns, having called
`CloseHandle` once, exactly when `lock_owner = NONE`, `lock_count = -1` and
`lock_event ≠ NULL`; it then leaves the four statics as they were and the
handle in `lock_event` no longer names an open event.  In every other case, in
particular whenever `lock_count ≥ 0` and whenever `lock_event = NULL`, it ends
at the fatal point with the state untouched and without calling
`CloseHandle`; the initial state is such a case. -/
theorem release_iff (t : Nat) (fuel : Nat) (s : State) (hf : 5 ≤ fuel) :
    (((release true t fuel s).1 = .done ∧
        (releaseTrace true t fuel s).countP (fun c => c.1.isClose) = 1) ↔
      (s.lock_owner = NONE ∧ s.lock_count = -1 ∧ s.lock_event ≠ NULL)) ∧
    ((release true t fuel s).1 = .done →
      lookup s.lock_event (release true t fuel s).2.events = none ∧
      (release true t fuel s).2 = { s with events := (CloseHandle s.lock_event s.events).2 }) ∧
    (¬ (s.lock_owner = NONE ∧ s.lock_count = -1 ∧ s.lock_event ≠ NULL) →
      (release true t fuel s).1 = .fatal ∧ (release true t fuel s).2 = s ∧
      (releaseTrace true t fuel s).countP (fun c => c.1.isClose) = 0) ∧
    (0 ≤ s.lock_count → (release true t fuel s).1 = .fatal) ∧
    (s.lock_event = NULL → (release true t fuel s).1 = .fatal) ∧
    (release true t fuel State.init).1 = .fatal := by
  obtain ⟨n, rfl⟩ : ∃ n, fuel = n + 5 := ⟨fuel - 5, by omega⟩
  have hclose : lookup s.lock_event (CloseHandle s.lock_event s.events).2 = none := by
    unfold CloseHandle
    cases hl : lookup s.lock_event s.events with
    | none => simpa using hl
    | some e => exact lookup_set_closed _ _ _ rfl
  refine ⟨?_, ?_, ?_, ?_, ?_, ?_⟩
  · by_cases ho : s.lock_owner = NONE <;> by_cases hc : s.lock_count = -1 <;>
      by_cases hn : s.lock_event = NULL <;>
      simp [release, releaseTrace, run, trace, stepPc, ho, hc, hn, Pc.isClose, List.countP_cons]
  · by_cases ho : s.lock_owner = NONE <;> by_cases hc : s.lock_count = -1 <;>
      by_cases hn : s.lock_event = NULL <;>
      simp [release, run, stepPc, ho, hc, hn, hclose]
  · by_cases ho : s.lock_owner = NONE <;> by_cases hc : s.lock_count = -1 <;>
      by_cases hn : s.lock_event = NULL <;>
      simp [release, releaseTrace, run, trace, stepPc, ho, hc, hn, Pc.isClose, List.countP_cons]
  · intro h0
    have hc : ¬ s.lock_count = -1 := by omega
    by_cases ho : s.lock_owner = NONE <;> simp [release, run, stepPc, ho, hc]
  · intro hn
    by_cases ho : s.lock_owner = NONE <;> by_cases hc : s.lock_count = -1 <;>
      simp [release, run, stepPc, ho, hc, hn]
  · simp [release, run, stepPc, State.init, NULL]

/-- Witness for C9: shutdown attempted by thread 7 while it holds the lock. -/
theorem release_iff_witness :
    (((release true 7 5 heldOnce).1 = .done ∧
        (releaseTrace true 7 5 heldOnce).countP (fun c => c.1.isClose) = 1) ↔
      (heldOnce.lock_owner = NONE ∧ heldOnce.lock_count = -1 ∧ heldOnce.lock_event ≠ NULL)) ∧
    ((release true 7 5 heldOnce).1 = .done →
      lookup heldOnce.lock_event (release true 7 5 heldOnce).2.events = none ∧
      (release true 7 5 heldOnce).2 =
        { heldOnce with events := (CloseHandle heldOnce.lock_event heldOnce.events).2 }) ∧
    (¬ (heldOnce.lock_owner = NONE ∧ heldOnce.lock_count = -1 ∧ heldOnce.lock_event ≠ NULL) →
      (release true 7 5 heldOnce).1 = .fatal ∧ (release true 7 5 heldOnce).2 = heldOnce ∧
      (releaseTrace true 7 5 heldOnce).countP (fun c => c.1.isClose) = 0) ∧
    (0 ≤ heldOnce.lock_count → (release true 7 5 heldOnce).1 = .fatal) ∧
    (heldOnce.lock_event = NULL → (release true 7 5 heldOnce).1 = .fatal) ∧
    (release true 7 5 State.init).1 = .fatal :=
  release_iff 7 5 heldOnce (by decide)

/-! ## Fuel, and what a returning operation has done -/

theorem run_mem_trace (asserts : Bool) (t : Nat) (createOk : Bool) (fuel : Nat) :
    ∀ (pc : Pc) (s : State), run asserts t createOk fuel pc s ∈ trace asserts t createOk fuel pc s := by
  induction fuel with
  | zero => intro pc s; simp [run, trace]
  | succ n ih =>
    intro pc s
    cases hs : stepPc asserts t createOk pc s with
    | none => simp [run, trace, hs]
    | some r =>
      obtain ⟨pc', s'⟩ := r
      simp only [run, trace, hs, List.mem_cons]
      exact Or.inr (ih pc' s')

theorem run_add_of_done (asserts : Bool) (t : Nat) (createOk : Bool) (fuel m : Nat) :
    ∀ (pc : Pc) (s : State), (run asserts t createOk fuel pc s).1 = .done →
      run asserts t createOk (fuel + m) pc s = run asserts t createOk fuel pc s := by
  induction fuel with
  | zero =>
    intro pc s h
    simp only [run] at h
    subst h
    simp [run]
  | succ n ih =>
    intro pc s h
    rw [Nat.add_right_comm]
    cases hs : stepPc asserts t createOk pc s with
    | none =>
      simp only [run, hs] at h ⊢
    | some r =>
      obtain ⟨pc', s'⟩ := r
      simp only [run, hs] at h ⊢
      exact ih pc' s' h

/-- While `lock_count ≠ -1` a thread running alone never leaves the retry loop
other than through a failed assertion, and it changes neither `lock_count` nor
`lock_owner`. -/
theorem trace_loop_stuck (asserts : Bool) (t : Nat) (createOk : Bool) (fuel : Nat) :
    ∀ (pc : Pc) (s : State), s.lock_count ≠ -1 → pc.inLoop = true →
      ∀ c ∈ trace asserts t createOk fuel pc s,
        (c.1.inLoop = true ∨ c.1 = .fatal) ∧ c.2.lock_count = s.lock_count ∧
        c.2.lock_owner = s.lock_owner := by
  induction fuel with
  | zero =>
    intro pc s _ hp c hc
    simp only [trace, List.mem_singleton] at hc
    subst hc
    exact ⟨Or.inl hp, rfl, rfl⟩
  | succ n ih =>
    intro pc s hcnt hp c hc
    simp only [trace, List.mem_cons] at hc
    rcases hc with hc | hc
    · subst hc
      exact ⟨Or.inl hp, rfl, rfl⟩
    · cases pc <;> simp only [Pc.inLoop, Bool.false_eq_true] at hp
      · -- ctorCas
        simp only [stepPc, cmpxchg, hcnt, if_false, ne_eq, not_false_eq_true, if_true] at hc
        exact ih .ctorLoopReadInit s hcnt rfl c hc
      · -- ctorLoopReadInit
        simp only [stepPc] at hc
        by_cases hi : s.initialized = true
        · simp only [hi, if_true] at hc
          exact ih .ctorLoopReadEvent s hcnt rfl c hc
        · simp only [hi, Bool.false_eq_true, if_false] at hc
          exact ih .ctorCas s hcnt rfl c hc
      · -- ctorLoopReadEvent
        simp only [stepPc] at hc
        exact ih (.ctorWait s.lock_event) s hcnt rfl c hc
      · -- ctorWait
        rename_i h
        simp only [stepPc] at hc
        cases hw : WaitForSingleObject h s.events with
        | none => simp [hw] at hc
        | some r =>
          obtain ⟨ret, evs⟩ := r
          simp only [hw] at hc
          by_cases hf : (asserts && decide (ret ≠ WAIT_OBJECT_0)) = true
          · simp only [hf, if_true, trace_fatal, List.mem_singleton] at hc
            subst hc
            exact ⟨Or.inr rfl, rfl, rfl⟩
          · simp only [hf, Bool.false_eq_true, if_false] at hc
            exact ih .ctorCas { s with events := evs } hcnt rfl c hc

/-- An acquire of a lock that is neither free nor owned by the caller never
returns, whatever the fuel; `lock_count` and `lock_owner` stay as they are and
no compare-and-swap succeeds (the point after a successful one is never
reached). -/
theorem ctor_never_returns (asserts : Bool) (u : Nat) (createOk : Bool) (fuel : Nat) (s : State)
    (ho : s.lock_owner ≠ u) (hc : s.lock_count ≠ -1) :
    (ctor asserts u createOk fuel s).1 ≠ .done ∧
    ∀ c ∈ ctorTrace asserts u createOk fuel s,
      c.1 ≠ .done ∧ c.1 ≠ .ctorReadInit ∧ c.2.lock_count = s.lock_count ∧
      c.2.lock_owner = s.lock_owner := by
  have key : ∀ c ∈ ctorTrace asserts u createOk fuel s,
      c.1 ≠ .done ∧ c.1 ≠ .ctorReadInit ∧ c.2.lock_count = s.lock_count ∧
      c.2.lock_owner = s.lock_owner := by
    intro c hmem
    cases fuel with
    | zero =>
      simp only [ctorTrace, trace, List.mem_singleton] at hmem
      subst hmem
      simp
    | succ n =>
      simp only [ctorTrace, trace, stepPc, ne_eq, ho, not_false_eq_true, if_true,
        List.mem_cons] at hmem
      rcases hmem with hmem | hmem
      · subst hmem
        simp
      · obtain ⟨h1, h2, h3⟩ := trace_loop_stuck asserts u createOk n .ctorCas s hc rfl c hmem
        refine ⟨?_, ?_, h2, h3⟩
        · intro hd; rcases h1 with h1 | h1 <;> simp [hd, Pc.inLoop] at h1
        · intro hd; rcases h1 with h1 | h1 <;> simp [hd, Pc.inLoop] at h1
  exact ⟨(key _ (run_mem_trace asserts u createOk fuel .ctorReadOwner s)).1, key⟩

/-- What a returning constructor has done: either the caller owned the lock and
the counter was incremented (with wrap-around), or the lock was free and the
caller now owns it at count zero. -/
theorem ctor_done_cases (asserts : Bool) (t : Nat) (createOk : Bool) (fuel : Nat) (s : State)
    (hd : (ctor asserts t createOk fuel s).1 = .done) :
    (s.lock_owner = t ∧
      (ctor asserts t createOk fuel s).2 = { s with lock_count := wrapJint (s.lock_count + 1) }) ∨
    (s.lock_owner ≠ t ∧ s.lock_count = -1 ∧ (ctor asserts t createOk fuel s).2.lock_count = 0 ∧
      (ctor asserts t createOk fuel s).2.lock_owner = t ∧
      (asserts = true → s.lock_owner = NONE)) := by
  by_cases ho : s.lock_owner = t
  · left
    refine ⟨ho, ?_⟩
    have h1 := run_add_of_done asserts t createOk fuel 4 .ctorReadOwner s hd
    have h2 := ctor_reentrant_wrap asserts t createOk fuel s ho
    unfold ctor at h2 ⊢
    rw [← h1, h2]
  · right
    by_cases hc : s.lock_count = -1
    · have h1 := run_add_of_done asserts t createOk fuel 9 .ctorReadOwner s hd
      unfold ctor at hd ⊢
      rw [← h1] at hd ⊢
      refine ⟨ho, hc, ?_⟩
      by_cases hn : s.lock_owner = NONE
      · have ht2 : ¬ NONE = t := hn ▸ ho
        cases hi : s.initialized <;>
          simp [run, stepPc, cmpxchg, hc, hi, hn, ht2]
      · cases ha : asserts
        · cases hi : s.initialized <;>
            simp [run, stepPc, cmpxchg, hc, ho, hi, hn]
        · subst ha
          exfalso
          cases hi : s.initialized <;>
            simp [run, stepPc, cmpxchg, hc, ho, hi, hn] at hd
    · exact absurd hd (ctor_never_returns asserts t createOk fuel s ho hc).1

/-- What a returning destructor has done: either the counter was zero and the
lock is now free, or the counter was decremented (with wrap-around); with
assertions compiled in, the caller was the owner and the counter was not
negative. -/
theorem dtor_done_cases (asserts : Bool) (t : Nat) (fuel : Nat) (s : State)
    (hd : (dtor asserts t fuel s).1 = .done) :
    (asserts = true → s.lock_owner = t ∧ 0 ≤ s.lock_count) ∧
    ((s.lock_count = 0 ∧ (dtor asserts t fuel s).2.lock_owner = NONE ∧
        (dtor asserts t fuel s).2.lock_count = -1) ∨
     (s.lock_count ≠ 0 ∧
        (dtor asserts t fuel s).2 = { s with lock_count := wrapJint (s.lock_count - 1) })) := by
  have h1 := run_add_of_done asserts t false fuel 7 .dtorAssertOwner s hd
  unfold dtor at hd ⊢
  rw [← h1] at hd ⊢
  constructor
  · intro ha
    subst ha
    by_cases ho : s.lock_owner = t
    · by_cases hn : s.lock_count < 0
      · simp [run, stepPc, ho, hn] at hd
      · exact ⟨ho, by omega⟩
    · simp [run, stepPc, ho] at hd
  · by_cases hz : s.lock_count = 0
    · left
      refine ⟨hz, ?_⟩
      cases ha : asserts
      · simp [run, stepPc, hz]
      · subst ha
        by_cases ho : s.lock_owner = t
        · by_cases hs : (SetEvent s.lock_event s.events).1 = 0
          · simp [run, stepPc, ho, hz, hs] at hd
          · simp [run, stepPc, ho, hz, hs]
        · simp [run, stepPc, ho] at hd
    · right
      refine ⟨hz, ?_⟩
      cases ha : asserts
      · simp [run, stepPc, hz]
      · subst ha
        by_cases ho : s.lock_owner = t
        · by_cases hn : s.lock_count < 0
          · simp [run, stepPc, ho, hn] at hd
          · simp [run, stepPc, ho, hn, hz]
        · simp [run, stepPc, ho] at hd

/-! ## Sequences of operations -/

theorem execOps_cons (asserts : Bool) (fuel : Nat) (op : Op) (ops : List Op) (s : State) :
    execOps asserts fuel (op :: ops) s =
      (execOp asserts fuel op s).bind (execOps asserts fuel ops) := by
  simp only [execOps]
  cases execOp asserts fuel op s <;> rfl

theorem execOps_append (asserts : Bool) (fuel : Nat) (ops₁ ops₂ : List Op) :
    ∀ s, execOps asserts fuel (ops₁ ++ ops₂) s =
      (execOps asserts fuel ops₁ s).bind (execOps asserts fuel ops₂) := by
  induction ops₁ with
  | nil => intro s; simp [execOps]
  | cons op ops ih =>
    intro s
    simp only [List.cons_append, execOps]
    cases execOp asserts fuel op s with
    | none => simp
    | some s' => simpa using ih s'

theorem wrapJint_wrapJint_add (c : Int) (n : Nat) :
    wrapJint (wrapJint (c + 1) + (n : Int)) = wrapJint (c + ((n + 1 : Nat) : Int)) := by
  unfold wrapJint
  push_cast
  omega

/-- The state after `n` further acquires by the owner: only the counter moves, by
`n` with wrap-around. -/
theorem execOps_reentrant (asserts : Bool) (t : Nat) (createOk : Bool) (fuel : Nat)
    (hf : 4 ≤ fuel) :
    ∀ (n : Nat) (s : State), s.lock_owner = t → IsJint s.lock_count →
      execOps asserts fuel (List.replicate n (.acquire t createOk)) s =
        some { s with lock_count := wrapJint (s.lock_count + (n : Int)) } := by
  obtain ⟨m, rfl⟩ : ∃ m, fuel = m + 4 := ⟨fuel - 4, by omega⟩
  intro n
  induction n with
  | zero =>
    intro s _ hj
    simp [execOps, wrapJint_of_isJint _ hj]
  | succ n ih =>
    intro s ho hj
    have hstep := ctor_reentrant_wrap asserts t createOk m s ho
    have hj' : IsJint (wrapJint (s.lock_count + 1)) := by
      unfold IsJint JINT_MIN JINT_MAX wrapJint; omega
    simp only [List.replicate_succ, execOps, execOp, hstep, if_true]
    rw [ih { s with lock_count := wrapJint (s.lock_count + 1) } ho hj']
    simp only [wrapJint_wrapJint_add]

/-! ## The owner/count invariant over whole operations -/

theorem execOps_nestedAt (asserts : Bool) (fuel : Nat) (ops : List Op) :
    ∀ (s s' : State) (a r : Nat), s.nestedAt a r → OpsSatisfy Op.pre asserts fuel ops s →
      nestedWithin 4294967295 ops a r = true →
      execOps asserts fuel ops s = some s' → ∃ a' r', s'.nestedAt a' r' := by
  induction ops with
  | nil =>
    intro s s' a r hinv _ _ hex
    simp only [execOps, Option.some.injEq] at hex
    exact ⟨a, r, hex ▸ hinv⟩
  | cons op ops ih =>
    intro s s' a r hinv hsat hd hex
    obtain ⟨⟨hne, hrel⟩, hrest⟩ := hsat
    simp only [execOps] at hex
    cases hop : execOp asserts fuel op s with
    | none => simp [hop] at hex
    | some s₁ =>
      simp only [hop] at hex
      cases op with
      | acquire t ok =>
        simp only [Op.thread] at hne
        simp only [nestedWithin, Bool.and_eq_true, decide_eq_true_eq] at hd
        obtain ⟨hd1, hd2⟩ := hd
        have h1 : s₁.nestedAt (a + 1) r := by
          simp only [execOp] at hop
          split at hop
          · rename_i hdone
            injection hop with hop
            rcases ctor_done_cases asserts t ok fuel s hdone with ⟨ho, hs⟩ | ⟨ho, hc, h0, hw, _⟩
            · rcases hinv with ⟨h1, _, _⟩ | ⟨h1, h2, h3, h4⟩
              · exact absurd (h1 ▸ ho : NONE = t).symm hne
              · right
                rw [← hop, hs]
                refine ⟨h1, by omega, by omega, ?_⟩
                show wrapJint (s.lock_count + 1) = _
                rw [h4]; unfold wrapJint; push_cast; omega
            · rcases hinv with ⟨_, _, h3⟩ | ⟨_, h2, h3, h4⟩
              · right
                rw [← hop]
                refine ⟨by rw [hw]; exact hne, by omega, by omega, ?_⟩
                rw [h0, h3]; unfold wrapJint; push_cast; omega
              · exfalso
                rw [h4] at hc
                unfold wrapJint at hc
                omega
          · cases hop
        exact ih s₁ s' (a + 1) r h1 (hrest s₁ hop) hd2 hex
      | release t =>
        simp only [Op.thread] at hne
        simp only [Op.isAcquire, Op.thread, forall_const] at hrel
        obtain ⟨ho, hge⟩ := hrel
        simp only [nestedWithin] at hd
        have h1 : s₁.nestedAt a (r + 1) := by
          simp only [execOp] at hop
          split at hop
          · rename_i hdone
            injection hop with hop
            rcases hinv with ⟨h1, _, _⟩ | ⟨h1, h2, h3, h4⟩
            · exact absurd (h1 ▸ ho : NONE = t).symm hne
            · rcases (dtor_done_cases asserts t fuel s hdone).2 with ⟨hz, h5, h6⟩ | ⟨hz, hs⟩
              · left
                rw [← hop]
                refine ⟨h5, h6, ?_⟩
                rw [h4] at hz
                unfold wrapJint at hz
                omega
              · right
                rw [← hop, hs]
                refine ⟨h1, ?_, by omega, ?_⟩
                · rw [h4] at hz
                  unfold wrapJint at hz
                  omega
                · show wrapJint (s.lock_count - 1) = _
                  rw [h4]; unfold wrapJint; push_cast; omega
          · cases hop
        exact ih s₁ s' a (r + 1) h1 (hrest s₁ hop) hd hex

/-- C10 (as amended): every state reached from the initial state by a sequence of
completed acquires and releases, performed by threads whose id is not the
sentinel, each release called by the owner on a count that is not negative,
and never nested more than `2^32 - 1` deep, satisfies
`lock_owner = NONE ↔ lock_count = -1`. -/
theorem owner_none_iff_unlocked (asserts : Bool) (fuel : Nat) (ops : List Op) (s : State)
    (hsat : OpsSatisfy Op.pre asserts fuel ops State.init)
    (hdepth : nestedWithin 4294967295 ops 0 0 = true)
    (hex : execOps asserts fuel ops State.init = some s) :
    s.lock_owner = NONE ↔ s.lock_count = -1 := by
  obtain ⟨a, r, h⟩ := execOps_nestedAt asserts fuel ops State.init s 0 0
    (Or.inl ⟨rfl, rfl, rfl⟩) hsat hdepth hex
  rcases h with ⟨h1, h2, _⟩ | ⟨h1, h2, h3, h4⟩
  · exact ⟨fun _ => h2, fun _ => h1⟩
  · refine ⟨fun h => absurd h h1, fun h => ?_⟩
    rw [h4] at h
    unfold wrapJint at h
    omega

/-- Witness for C10 (as amended): thread 7 acquires twice and releases once. -/
theorem owner_none_iff_unlocked_witness :
    OpsSatisfy Op.pre true 9 [.acquire 7 true, .acquire 7 true, .release 7] State.init ∧
    nestedWithin 4294967295 [.acquire 7 true, .acquire 7 true, .release 7] 0 0 = true ∧
    execOps true 9 [.acquire 7 true, .acquire 7 true, .release 7] State.init = some heldOnce ∧
    (heldOnce.lock_owner = NONE ↔ heldOnce.lock_count = -1) :=
  have hsat : OpsSatisfy Op.pre true 9
      [.acquire 7 true, .acquire 7 true, .release 7] State.init := by
    refine ⟨by decide, fun s₁ h₁ => ?_⟩
    have e₁ : s₁ = heldOnce := by
      have : execOp true 9 (.acquire 7 true) State.init = some heldOnce := by decide
      exact Option.some.inj (h₁.symm.trans this)
    subst e₁
    refine ⟨by decide, fun s₂ h₂ => ?_⟩
    have e₂ : s₂ = { heldOnce with lock_count := 1 } := by
      have : execOp true 9 (.acquire 7 true) heldOnce =
          some { heldOnce with lock_count := 1 } := by decide
      exact Option.some.inj (h₂.symm.trans this)
    subst e₂
    exact ⟨by decide, fun _ _ => trivial⟩
  have hex : execOps true 9 [.acquire 7 true, .acquire 7 true, .release 7] State.init =
      some heldOnce := by decide
  ⟨hsat, by decide, hex, owner_none_iff_unlocked true 9 _ heldOnce hsat (by decide) hex⟩

theorem opsSatisfy_pre_acquires (asserts : Bool) (fuel : Nat) (t : Nat) (createOk : Bool)
    (ht : t ≠ NONE) :
    ∀ (n : Nat) (s : State),
      OpsSatisfy Op.pre asserts fuel (List.replicate n (.acquire t createOk)) s := by
  intro n
  induction n with
  | zero => intro s; simp [OpsSatisfy]
  | succ n ih =>
    intro s
    simp only [List.replicate_succ, OpsSatisfy]
    exact ⟨⟨ht, by simp [Op.isAcquire]⟩, fun s' _ => ih s'⟩

theorem execOps_init_acquires (asserts : Bool) (n : Nat) :
    execOps asserts 16 (List.replicate (n + 1) (.acquire 1 true)) State.init =
      some { heldByOne with lock_count := wrapJint (n : Int) } := by
  have h2 : execOp asserts 16 (.acquire 1 true) State.init = some heldByOne := by
    cases asserts <;> decide
  have h3 := execOps_reentrant asserts 1 true 16 (by decide) n heldByOne rfl (by decide)
  have h4 : heldByOne.lock_count + (n : Int) = (n : Int) := by
    show (0 : Int) + (n : Int) = (n : Int)
    omega
  rw [List.replicate_succ, execOps_cons, h2, Option.some_bind, h3, h4]

theorem execOps_wrapped (asserts : Bool) :
    execOps asserts 16 (List.replicate 4294967296 (.acquire 1 true)) State.init =
      some wrappedState := by
  have h1 := execOps_init_acquires asserts 4294967295
  have h4 : wrapJint ((4294967295 : Nat) : Int) = -1 := by
    simp only [wrapJint]
    norm_num
  rw [h4] at h1
  exact h1

/-- C10 (as stated) fails: `2^32` consecutive acquires by thread 1, each of which
completes and meets the contract, lead from the initial state to a state with
`lock_owner = 1` and `lock_count = -1`. -/
theorem owner_none_iff_unlocked_fails :
    OpsSatisfy Op.pre true 16 (List.replicate 4294967296 (.acquire 1 true)) State.init ∧
    execOps true 16 (List.replicate 4294967296 (.acquire 1 true)) State.init =
      some wrappedState ∧
    ¬ (wrappedState.lock_owner = NONE ↔ wrappedState.lock_count = -1) :=
  ⟨opsSatisfy_pre_acquires true 16 1 true (by decide) _ _, execOps_wrapped true, by decide⟩

/-! ## Re-entrancy: nested acquires followed by as many releases -/

theorem ctor_free_state (asserts : Bool) (t : Nat) (createOk : Bool) (n : Nat) (s : State)
    (ht : t ≠ NONE) (hc : s.lock_count = -1) (ho : s.lock_owner = NONE) :
    ctor asserts t createOk (n + 9) s = (.done, afterFirstAcquire t createOk s) ∧
    (ctorTrace asserts t createOk (n + 9) s).countP (fun c => c.1.isWait) = 0 := by
  have ht2 : ¬ NONE = t := fun h => ht h.symm
  cases hi : s.initialized <;>
    simp [ctor, ctorTrace, run, trace, stepPc, cmpxchg, hc, ho, hi, ht2, Pc.isWait,
      List.countP_cons, afterFirstAcquire]

theorem lookup_CreateEvent (evs : List EventObj) :
    lookup (CreateEvent true evs).1 (CreateEvent true evs).2 =
      some { signaled := false, isOpen := true } := by
  simp [CreateEvent, lookup, NULL]

theorem afterFirstAcquire_eventCreated (t : Nat) (createOk : Bool) (s : State)
    (hev : if s.initialized then s.eventCreated else createOk = true) :
    (afterFirstAcquire t createOk s).eventCreated := by
  unfold afterFirstAcquire
  cases hi : s.initialized
  · simp only [hi, Bool.false_eq_true, if_false] at hev ⊢
    subst hev
    simp [State.eventCreated, lookup_CreateEvent]
  · simp only [hi, if_true] at hev ⊢
    exact hev

theorem execTrace_reentrant_noWait (asserts : Bool) (t : Nat) (createOk : Bool) (fuel : Nat)
    (hf : 4 ≤ fuel) :
    ∀ (n : Nat) (s : State), s.lock_owner = t →
      (execTrace asserts fuel (List.replicate n (.acquire t createOk)) s).countP
        (fun c => c.1.isWait) = 0 := by
  obtain ⟨m, rfl⟩ : ∃ m, fuel = m + 4 := ⟨fuel - 4, by omega⟩
  intro n
  induction n with
  | zero => intro s _; simp [execTrace]
  | succ n ih =>
    intro s ho
    have hstep := ctor_reentrant_wrap asserts t createOk m s ho
    have htr : (ctorTrace asserts t createOk (m + 4) s).countP (fun c => c.1.isWait) = 0 := by
      simp [ctorTrace, trace, stepPc, ho, Pc.isWait, List.countP_cons]
    simp only [List.replicate_succ, execTrace, execOp, opTrace, hstep, if_true,
      List.countP_append, htr, Nat.zero_add]
    exact ih { s with lock_count := wrapJint (s.lock_count + 1) } ho

/-- The state after `j` releases by the owner of a lock held at a count of at
least `j`: only the counter moves, down by `j`. -/
theorem execOps_nested_releases (asserts : Bool) (t : Nat) (fuel : Nat) (hf : 5 ≤ fuel) :
    ∀ (j : Nat) (s : State), s.lock_owner = t → (j : Int) ≤ s.lock_count →
      s.lock_count ≤ JINT_MAX →
      execOps asserts fuel (List.replicate j (.release t)) s =
        some { s with lock_count := s.lock_count - (j : Int) } := by
  obtain ⟨m, rfl⟩ : ∃ m, fuel = m + 5 := ⟨fuel - 5, by omega⟩
  intro j
  induction j with
  | zero => intro s _ _ _; simp [execOps]
  | succ j ih =>
    intro s ho hj hmax
    have hpos : 0 < s.lock_count := by push_cast at hj; omega
    have hstep := dtor_nested_wrap asserts t m s ho hpos
    have hw : wrapJint (s.lock_count - 1) = s.lock_count - 1 := by
      unfold wrapJint; unfold JINT_MAX at hmax; omega
    rw [hw] at hstep
    simp only [List.replicate_succ, execOps, execOp, hstep, if_true]
    rw [ih { s with lock_count := s.lock_count - 1 } ho
      (by push_cast at hj; show (j : Int) ≤ s.lock_count - 1; omega)
      (by show s.lock_count - 1 ≤ JINT_MAX; omega)]
    simp only [Option.some.injEq, State.mk.injEq, true_and, and_true]
    push_cast
    omega

/-- The destructor on a lock held once returns with the lock free; the signal
must succeed only when assertions are compiled in. -/
theorem dtor_outermost_done (asserts : Bool) (t : Nat) (n : Nat) (s : State)
    (ho : s.lock_owner = t) (hc : s.lock_count = 0) (he : asserts = true → s.eventCreated) :
    (dtor asserts t (n + 7) s).1 = .done ∧ (dtor asserts t (n + 7) s).2.lock_owner = NONE ∧
    (dtor asserts t (n + 7) s).2.lock_count = -1 := by
  cases ha : asserts
  · simp [dtor, run, stepPc, ho, hc]
  · have hcr := he ha
    unfold State.eventCreated at hcr
    obtain ⟨e, hl⟩ := Option.isSome_iff_exists.mp hcr
    simp [dtor, run, stepPc, ho, hc, SetEvent_of_created _ _ _ hl]

theorem afterFirstAcquire_count (t : Nat) (createOk : Bool) (s : State) :
    (afterFirstAcquire t createOk s).lock_count = 0 := by
  unfold afterFirstAcquire; cases s.initialized <;> rfl

theorem afterFirstAcquire_owner (t : Nat) (createOk : Bool) (s : State) :
    (afterFirstAcquire t createOk s).lock_owner = t := by
  unfold afterFirstAcquire; cases s.initialized <;> rfl

/-- The state after `k ≥ 1` consecutive acquires of a free lock, while the counter
does not overflow. -/
theorem execOps_acquires (asserts : Bool) (t : Nat) (createOk : Bool) (fuel : Nat) (s : State)
    (hf : 9 ≤ fuel) (ht : t ≠ NONE) (hc : s.lock_count = -1) (ho : s.lock_owner = NONE)
    (k : Nat) (hk : k ≤ 2147483647) :
    execOps asserts fuel (List.replicate (k + 1) (.acquire t createOk)) s =
      some { afterFirstAcquire t createOk s with lock_count := (k : Int) } := by
  obtain ⟨m, rfl⟩ : ∃ m, fuel = m + 9 := ⟨fuel - 9, by omega⟩
  have h1 := (ctor_free_state asserts t createOk m s ht hc ho).1
  have h2 : execOp asserts (m + 9) (.acquire t createOk) s =
      some (afterFirstAcquire t createOk s) := by
    simp [execOp, h1]
  have h3 := execOps_reentrant asserts t createOk (m + 9) (by omega) k
    (afterFirstAcquire t createOk s) (afterFirstAcquire_owner t createOk s)
    (by rw [afterFirstAcquire_count]; decide)
  rw [List.replicate_succ, execOps_cons, h2, Option.some_bind, h3, afterFirstAcquire_count]
  have h4 : wrapJint (0 + (k : Int)) = (k : Int) := by unfold wrapJint; omega
  rw [h4]

/-- C2 (as amended): for `1 ≤ N ≤ 2^31` and `t ≠ NONE`, on a state with
`lock_count = -1` and `lock_owner = NONE` (and, when assertions are compiled
in, an event that is open already or whose creation succeeds), `N` consecutive
acquires by `t` all return, the `k`-th leaving `lock_count = k - 1` and
`lock_owner = t`, none of them waiting on the event; the `N` releases that
follow all return, leaving `lock_count = N - 1 - j` after `j < N` of them and
`lock_count = -1`, `lock_owner = NONE` after all `N`. -/
theorem nested_acquire_release (asserts : Bool) (t : Nat) (createOk : Bool) (fuel N : Nat)
    (s : State) (hf : 9 ≤ fuel) (hN1 : 1 ≤ N) (hN : N ≤ 2147483648) (ht : t ≠ NONE)
    (hc : s.lock_count = -1) (ho : s.lock_owner = NONE)
    (hev : asserts = true → if s.initialized then s.eventCreated else createOk = true) :
    (∀ k, 1 ≤ k → k ≤ N →
      ∃ sk, execOps asserts fuel (List.replicate k (.acquire t createOk)) s = some sk ∧
        sk.lock_count = (k : Int) - 1 ∧ sk.lock_owner = t) ∧
    (execTrace asserts fuel (List.replicate N (.acquire t createOk)) s).countP
      (fun c => c.1.isWait) = 0 ∧
    (∀ j, j < N →
      ∃ sj, execOps asserts fuel
          (List.replicate N (.acquire t createOk) ++ List.replicate j (.release t)) s = some sj ∧
        sj.lock_count = (N : Int) - 1 - (j : Int) ∧ sj.lock_owner = t) ∧
    ∃ s', execOps asserts fuel
        (List.replicate N (.acquire t createOk) ++ List.replicate N (.release t)) s = some s' ∧
      s'.lock_count = -1 ∧ s'.lock_owner = NONE := by
  obtain ⟨M, rfl⟩ : ∃ M, N = M + 1 := ⟨N - 1, by omega⟩
  have hacq := execOps_acquires asserts t createOk fuel s hf ht hc ho
  have hown := afterFirstAcquire_owner t createOk s
  refine ⟨?_, ?_, ?_, ?_⟩
  · intro k hk1 hkN
    obtain ⟨k', rfl⟩ : ∃ k', k = k' + 1 := ⟨k - 1, by omega⟩
    refine ⟨_, hacq k' (by omega), ?_, hown⟩
    show (k' : Int) = ((k' + 1 : Nat) : Int) - 1
    push_cast; omega
  · obtain ⟨m, rfl⟩ : ∃ m, fuel = m + 9 := ⟨fuel - 9, by omega⟩
    have h1 := ctor_free_state asserts t createOk m s ht hc ho
    have h2 : execOp asserts (m + 9) (.acquire t createOk) s =
        some (afterFirstAcquire t createOk s) := by
      simp [execOp, h1.1]
    simp only [List.replicate_succ, execTrace, opTrace, h2, List.countP_append, h1.2,
      Nat.zero_add]
    exact execTrace_reentrant_noWait asserts t createOk (m + 9) (by omega) M _ hown
  · intro j hj
    rw [execOps_append, hacq M (by omega), Option.some_bind,
      execOps_nested_releases asserts t fuel (by omega) j
        { afterFirstAcquire t createOk s with lock_count := (M : Int) } hown
        (by show (j : Int) ≤ (M : Int); omega)
        (by show (M : Int) ≤ JINT_MAX; unfold JINT_MAX; omega)]
    refine ⟨_, rfl, ?_, hown⟩
    show (M : Int) - (j : Int) = ((M + 1 : Nat) : Int) - 1 - (j : Int)
    push_cast; omega
  · obtain ⟨m, rfl⟩ : ∃ m, fuel = m + 7 := ⟨fuel - 7, by omega⟩
    rw [execOps_append, hacq M (by omega), Option.some_bind, List.replicate_succ', execOps_append,
      execOps_nested_releases asserts t (m + 7) (by omega) M
        { afterFirstAcquire t createOk s with lock_count := (M : Int) } hown
        (by show (M : Int) ≤ (M : Int); omega)
        (by show (M : Int) ≤ JINT_MAX; unfold JINT_MAX; omega),
      Option.some_bind]
    have hd := dtor_outermost_done asserts t m
      { afterFirstAcquire t createOk s with lock_count := 0 } hown rfl
      (fun ha => afterFirstAcquire_eventCreated t createOk s (hev ha))
    simp only [sub_self]
    refine ⟨_, ?_, hd.2.2, hd.2.1⟩
    simp only [execOps_cons, execOps, execOp, hd.1, if_true, Option.some_bind]

/-- Witness for C2 (as amended): thread 7 nesting two acquires on the initial
state. -/
theorem nested_acquire_release_witness :
    (∀ k, 1 ≤ k → k ≤ 2 →
      ∃ sk, execOps true 9 (List.replicate k (.acquire 7 true)) State.init = some sk ∧
        sk.lock_count = (k : Int) - 1 ∧ sk.lock_owner = 7) ∧
    (execTrace true 9 (List.replicate 2 (.acquire 7 true)) State.init).countP
      (fun c => c.1.isWait) = 0 ∧
    (∀ j, j < 2 →
      ∃ sj, execOps true 9
          (List.replicate 2 (.acquire 7 true) ++ List.replicate j (.release 7)) State.init =
            some sj ∧
        sj.lock_count = ((2 : Nat) : Int) - 1 - (j : Int) ∧ sj.lock_owner = 7) ∧
    ∃ s', execOps true 9
        (List.replicate 2 (.acquire 7 true) ++ List.replicate 2 (.release 7)) State.init =
          some s' ∧
      s'.lock_count = -1 ∧ s'.lock_owner = NONE :=
  nested_acquire_release true 7 true 9 2 State.init (by decide) (by decide) (by decide)
    (by decide) rfl rfl (fun _ => by simp [State.init])

/-- C2 (as stated) fails twice over.  With `N = 2^31 + 1` the last acquire leaves
`lock_count = -2^31`, not `N - 1`, and the release that follows fails its
assertion.  With `N = 1` and a failing `CreateEvent` the acquire returns, and
the release fails the assertion on `SetEvent`. -/
theorem nested_acquire_release_fails :
    execOps true 16 (List.replicate 2147483649 (.acquire 1 true)) State.init =
      some { heldByOne with lock_count := -2147483648 } ∧
    (dtor true 1 16 { heldByOne with lock_count := -2147483648 }).1 = .fatal ∧
    execOps true 16 [.acquire 1 false] State.init = some heldWithoutEvent ∧
    (dtor true 1 16 heldWithoutEvent).1 = .fatal := by
  refine ⟨?_, by decide, by decide, by decide⟩
  have h1 := execOps_init_acquires true 2147483648
  have h4 : wrapJint ((2147483648 : Nat) : Int) = -2147483648 := by
    simp only [wrapJint]
    norm_num
  rw [h4] at h1
  exact h1

/-! ## Release pairing: another thread cannot get in before the last release -/

theorem execOps_balance (asserts : Bool) (fuel : Nat) (t : Nat) (ht : t ≠ NONE)
    (ops : List Op) :
    ∀ (s s' : State) (a r : Nat), balance t a r s → (∀ op ∈ ops, op.thread = t) →
      nestedWithin 4294967295 ops a r = true →
      execOps asserts fuel ops s = some s' →
      balance t (a + ops.countP Op.isAcquire) (r + ops.countP Op.isRelease) s' := by
  induction ops with
  | nil =>
    intro s s' a r hb _ _ hex
    simp only [execOps, Option.some.injEq] at hex
    subst hex
    simpa using hb
  | cons op ops ih =>
    intro s s' a r hb hth hd hex
    have hth' : ∀ op' ∈ ops, op'.thread = t := fun op' h => hth op' (List.mem_cons_of_mem _ h)
    have hop : op.thread = t := hth op (List.mem_cons_self _ _)
    obtain ⟨hB, hcnt, hown⟩ := hb
    rw [execOps_cons] at hex
    cases hstep : execOp asserts fuel op s with
    | none => simp [hstep] at hex
    | some s₁ =>
      rw [hstep, Option.some_bind] at hex
      cases op with
      | acquire t' ok =>
        simp only [Op.thread] at hop
        subst hop
        simp only [nestedWithin, Bool.and_eq_true, decide_eq_true_eq] at hd
        obtain ⟨hd1, hd2⟩ := hd
        have e₁ : (Op.acquire t' ok).isAcquire = true := rfl
        have e₂ : (Op.acquire t' ok).isRelease = false := rfl
        simp only [List.countP_cons, e₁, e₂, if_true, Bool.false_eq_true, if_false,
          Nat.add_zero]
        have hb₁ : balance t' (a + 1) r s₁ := by
          simp only [execOp] at hstep
          split at hstep
          · rename_i hdone
            injection hstep with hstep
            rcases ctor_done_cases asserts t' ok fuel s hdone with ⟨ho, hs⟩ | ⟨ho, hc, h0, hw, _⟩
            · refine ⟨hd1, ?_, Or.inl ?_⟩
              · rw [← hstep, hs]
                show wrapJint (s.lock_count + 1) = _
                rw [hcnt]; unfold wrapJint; push_cast; omega
              · rw [← hstep, hs]; exact ho
            · refine ⟨hd1, ?_, Or.inl ?_⟩
              · rw [← hstep, h0]
                rw [hcnt] at hc
                unfold wrapJint at hc ⊢
                push_cast
                omega
              · rw [← hstep]; exact hw
          · cases hstep
        have := ih s₁ s' (a + 1) r hb₁ hth' hd2 hex
        rw [Nat.add_assoc, Nat.add_comm 1] at this
        exact this
      | release t' =>
        simp only [Op.thread] at hop
        subst hop
        simp only [nestedWithin] at hd
        have e₁ : (Op.release t').isAcquire = false := rfl
        have e₂ : (Op.release t').isRelease = true := rfl
        simp only [List.countP_cons, e₁, e₂, if_true, Bool.false_eq_true, if_false,
          Nat.add_zero]
        have hb₁ : balance t' a (r + 1) s₁ := by
          simp only [execOp] at hstep
          split at hstep
          · rename_i hdone
            injection hstep with hstep
            rcases (dtor_done_cases asserts t' fuel s hdone).2 with ⟨hz, h1, h2⟩ | ⟨hz, hs⟩
            · rw [hcnt] at hz
              unfold wrapJint at hz
              refine ⟨by omega, ?_, Or.inr ⟨?_, by omega⟩⟩
              · rw [← hstep, h2]; unfold wrapJint; push_cast; omega
              · rw [← hstep]; exact h1
            · refine ⟨by omega, ?_, ?_⟩
              · rw [← hstep, hs]
                show wrapJint (s.lock_count - 1) = _
                rw [hcnt]; unfold wrapJint; push_cast; omega
              · rw [← hstep, hs]
                rcases hown with h | ⟨h, h'⟩
                · exact Or.inl h
                · exact Or.inr ⟨h, by omega⟩
          · cases hstep
        have := ih s₁ s' a (r + 1) hb₁ hth' hd hex
        rw [Nat.add_assoc, Nat.add_comm 1] at this
        exact this

/-- C4 (as amended): let `t ≠ u`, neither the sentinel, and let `s` be reached
from a state with `lock_count = -1`, `lock_owner = NONE` by a sequence of
completed operations of `t` with `k` acquires and `j < k` releases, never
nested more than `2^32 - 1` deep.  Then `lock_owner = t`, `lock_count` is
`k - j - 1` as a `jint` and is not `-1`, it is `k - j - 1 ≥ 0` when
`k - j ≤ 2^31`, and an acquire by `u` does not return for any fuel: its trace
never reaches the point after a successful compare-and-swap, and `lock_count`
and `lock_owner` keep their values throughout. -/
theorem other_thread_excluded (asserts : Bool) (fuel : Nat) (t u : Nat) (ops : List Op)
    (s₀ s : State) (htu : t ≠ u) (ht : t ≠ NONE) (hu : u ≠ NONE)
    (hc : s₀.lock_count = -1) (ho : s₀.lock_owner = NONE)
    (hops : ∀ op ∈ ops, op.thread = t)
    (hdepth : nestedWithin 4294967295 ops 0 0 = true)
    (hjk : ops.countP Op.isRelease < ops.countP Op.isAcquire)
    (hex : execOps asserts fuel ops s₀ = some s) :
    s.lock_owner = t ∧
    s.lock_count =
      wrapJint ((ops.countP Op.isAcquire : Int) - (ops.countP Op.isRelease : Int) - 1) ∧
    s.lock_count ≠ -1 ∧
    (ops.countP Op.isAcquire ≤ ops.countP Op.isRelease + 2147483648 →
      s.lock_count = (ops.countP Op.isAcquire : Int) - (ops.countP Op.isRelease : Int) - 1 ∧
      0 ≤ s.lock_count) ∧
    ∀ (fuel' : Nat) (createOk : Bool),
      (ctor asserts u createOk fuel' s).1 ≠ .done ∧
      ∀ c ∈ ctorTrace asserts u createOk fuel' s,
        c.1 ≠ .done ∧ c.1 ≠ .ctorReadInit ∧ c.2.lock_count = s.lock_count ∧
        c.2.lock_owner = s.lock_owner := by
  have _ := hu
  have hb := execOps_balance asserts fuel t ht ops s₀ s 0 0
    ⟨by omega, by rw [hc]; decide, Or.inr ⟨ho, Nat.le_refl 0⟩⟩ hops hdepth hex
  simp only [Nat.zero_add] at hb
  obtain ⟨hB, hcnt, hown⟩ := hb
  have hown' : s.lock_owner = t := by
    rcases hown with h | ⟨_, h⟩
    · exact h
    · omega
  have hne : s.lock_count ≠ -1 := by
    rw [hcnt]
    unfold wrapJint
    omega
  refine ⟨hown', hcnt, hne, fun hk => ?_, fun fuel' createOk => ?_⟩
  · rw [hcnt]
    unfold wrapJint
    omega
  · exact ctor_never_returns asserts u createOk fuel' s (by rw [hown']; exact htu) hne

/-- Witness for C4 (as amended): thread 7 has acquired twice and released once;
thread 8 tries to acquire. -/
theorem other_thread_excluded_witness :
    (nestedWithin 4294967295 [.acquire 7 true, .acquire 7 true, .release 7] 0 0 = true ∧
      ([.acquire 7 true, .acquire 7 true, .release 7] : List Op).countP Op.isRelease <
        ([.acquire 7 true, .acquire 7 true, .release 7] : List Op).countP Op.isAcquire ∧
      execOps true 9 [.acquire 7 true, .acquire 7 true, .release 7] State.init =
        some heldOnce) ∧
    heldOnce.lock_owner = 7 ∧
    heldOnce.lock_count =
      wrapJint ((([.acquire 7 true, .acquire 7 true, .release 7] : List Op).countP
          Op.isAcquire : Int) -
        (([.acquire 7 true, .acquire 7 true, .release 7] : List Op).countP
          Op.isRelease : Int) - 1) ∧
    heldOnce.lock_count ≠ -1 ∧
    (([.acquire 7 true, .acquire 7 true, .release 7] : List Op).countP Op.isAcquire ≤
        ([.acquire 7 true, .acquire 7 true, .release 7] : List Op).countP Op.isRelease +
          2147483648 →
      heldOnce.lock_count =
        (([.acquire 7 true, .acquire 7 true, .release 7] : List Op).countP
          Op.isAcquire : Int) -
        (([.acquire 7 true, .acquire 7 true, .release 7] : List Op).countP
          Op.isRelease : Int) - 1 ∧
      0 ≤ heldOnce.lock_count) ∧
    ∀ (fuel' : Nat) (createOk : Bool),
      (ctor true 8 createOk fuel' heldOnce).1 ≠ .done ∧
      ∀ c ∈ ctorTrace true 8 createOk fuel' heldOnce,
        c.1 ≠ .done ∧ c.1 ≠ .ctorReadInit ∧ c.2.lock_count = heldOnce.lock_count ∧
        c.2.lock_owner = heldOnce.lock_owner :=
  ⟨⟨by decide, by decide, by decide⟩,
    other_thread_excluded true 9 7 8 [.acquire 7 true, .acquire 7 true, .release 7]
      State.init heldOnce (by decide) (by decide) (by decide) rfl rfl (by decide) (by decide)
      (by decide) (by decide)⟩

/-- C4 (as stated) fails for `k = 2^32`, `j = 0`: after `2^32` acquires by thread 1
and no release, `lock_count` is `-1`, not `k - j - 1`; without assertions an
acquire by thread 2 then returns with the lock, and with assertions its
compare-and-swap still succeeds and sets `lock_count` to `0`.  Already for
`k = 2^31 + 1`, `j = 0` the value of `lock_count` is `-2^31`, not `k - j - 1`. -/
theorem other_thread_excluded_fails :
    (List.replicate 4294967296 (Op.acquire 1 true)).countP Op.isAcquire = 4294967296 ∧
    (List.replicate 4294967296 (Op.acquire 1 true)).countP Op.isRelease = 0 ∧
    execOps false 16 (List.replicate 4294967296 (.acquire 1 true)) State.init =
      some wrappedState ∧
    execOps true 16 (List.replicate 4294967296 (.acquire 1 true)) State.init =
      some wrappedState ∧
    wrappedState.lock_count ≠ (4294967296 : Int) - 0 - 1 ∧
    ctor false 2 true 16 wrappedState =
      (.done, { wrappedState with lock_count := 0, lock_owner := 2 }) ∧
    (ctorTrace true 2 true 16 wrappedState)[2]? =
      some (.ctorReadInit, { wrappedState with lock_count := 0 }) ∧
    execOps true 16 (List.replicate 2147483649 (.acquire 1 true)) State.init =
      some { heldByOne with lock_count := -2147483648 } := by
  refine ⟨?_, ?_, execOps_wrapped false, execOps_wrapped true, by decide, by decide, by decide,
    ?_⟩
  · rw [List.countP_replicate]; simp [Op.isAcquire]
  · rw [List.countP_replicate]; simp [Op.isRelease]
  · have h1 := execOps_init_acquires true 2147483648
    have h4 : wrapJint ((2147483648 : Nat) : Int) = -2147483648 := by
      simp only [wrapJint]
      norm_num
    rw [h4] at h1
    exact h1

/-! ## Mutual exclusion in the concurrent program -/

theorem good_owns_facts (L t : Nat) (s : State) (pc : Pc) (d : Nat) (hL : L ≤ 4294967295)
    (hg : good L t s pc d) (ho : owns pc d = true) :
    s.lock_count ≠ -1 ∧ (s.lock_owner = t ∨ s.lock_owner = NONE) := by
  cases pc <;>
    simp only [good, owns, decide_eq_true_eq, Bool.false_eq_true, wrapJint] at hg ho <;>
    omega

theorem good_of_not_owns (L t : Nat) (s s' : State) (pc : Pc) (d : Nat)
    (hg : good L t s pc d) (ho : owns pc d = false) : good L t s' pc d ∧ d = 0 := by
  cases pc <;>
    simp only [good, owns, decide_eq_false_iff_not, Bool.true_eq_false, wrapJint] at hg ho ⊢ <;>
    omega

theorem good_congr (L t : Nat) (s s' : State) (pc : Pc) (d : Nat)
    (hg : good L t s pc d) (hc : s'.lock_count = s.lock_count)
    (ho : s'.lock_owner = s.lock_owner) : good L t s' pc d := by
  cases pc <;> simp only [good, hc, ho] at hg ⊢ <;> exact hg

theorem owns_of_depth (L t : Nat) (s : State) (pc : Pc) (d : Nat)
    (hg : good L t s pc d) (hd : 1 ≤ d) : owns pc d = true := by
  cases pc <;> simp only [good, owns, decide_eq_true_eq] at hg ⊢ <;> omega

theorem step_good (asserts : Bool) (L t : Nat) (ok : Bool) (s s' : State) (pc pc' : Pc) (d : Nat)
    (hL : L ≤ 4294967295) (hg : good L t s pc d)
    (hother : owns pc d = false →
      s.lock_owner ≠ t ∧ (s.lock_count = -1 → s.lock_owner = NONE))
    (hstep : stepPc asserts t ok pc s = some (pc', s')) (hnf : pc' ≠ .fatal) :
    good L t s' pc' (if pc = .ctorFinalAssert ∧ pc' = .done then d + 1 else d) ∧
    (owns pc d = false →
      owns pc' (if pc = .ctorFinalAssert ∧ pc' = .done then d + 1 else d) = true →
      s.lock_count = -1) ∧
    (owns pc d = false →
      owns pc' (if pc = .ctorFinalAssert ∧ pc' = .done then d + 1 else d) = false →
      s'.lock_count = s.lock_count ∧ s'.lock_owner = s.lock_owner) ∧
    (owns pc d = true →
      owns pc' (if pc = .ctorFinalAssert ∧ pc' = .done then d + 1 else d) = false →
      s'.lock_count = -1 ∧ s'.lock_owner = NONE) := by
  cases pc
  case ctorWait h =>
    simp only [stepPc] at hstep
    cases hw : WaitForSingleObject h s.events with
    | none => simp [hw] at hstep
    | some r =>
      obtain ⟨ret, evs⟩ := r
      simp only [hw, Option.some.injEq, Prod.mk.injEq] at hstep
      obtain ⟨h1, rfl⟩ := hstep
      split_ifs at h1
      · exact absurd h1.symm hnf
      · subst h1
        simp only [good, owns] at hg ⊢
        simp [hg]
  case ctorCas =>
    by_cases hc : s.lock_count = -1
    · simp only [stepPc, cmpxchg, hc, if_true, ne_eq, not_true_eq_false, if_false,
        Option.some.injEq, Prod.mk.injEq] at hstep
      obtain ⟨rfl, rfl⟩ := hstep
      simp only [good, owns] at hg hother ⊢
      simp [hg, hc, hother]
    · simp only [stepPc, cmpxchg, hc, if_false, ne_eq, not_false_eq_true, if_true,
        Option.some.injEq, Prod.mk.injEq] at hstep
      obtain ⟨rfl, rfl⟩ := hstep
      simp only [good, owns] at hg ⊢
      simp [hg]
  all_goals simp only [stepPc, Option.some.injEq, Prod.mk.injEq] at hstep
  all_goals obtain ⟨h1, rfl⟩ := hstep
  all_goals try split_ifs at h1
  all_goals try subst h1
  all_goals try (exact absurd rfl hnf)
  all_goals simp only [good, owns, wrapJint, decide_eq_true_eq, decide_eq_false_iff_not,
    Bool.false_eq_true, Bool.true_eq_false, reduceCtorEq, and_self, and_true, true_and,
    if_true, if_false, false_and, and_false, ne_eq, false_implies, true_implies,
    implies_true, not_true_eq_false, not_false_eq_true] at hg hother ⊢
  all_goals omega

theorem Inv_init (L : Nat) : Inv L System.init where
  excl := by intro t u h; simp [System.init] at h
  good := by intro _ t; simp [System.init, ThreadCritical.good]
  uniq := by intro _ t u h; simp [System.init, System.own, owns] at h
  free := by intro _ _; exact ⟨rfl, rfl⟩

theorem Inv_callAcquire (L : Nat) (σ : System) (t : Nat) (hinv : Inv L σ)
    (hpc : (σ.threads t).pc = .done) (hd : (σ.threads t).depth < L) :
    Inv L { σ with threads :=
      Function.update σ.threads t ⟨.ctorReadOwner, (σ.threads t).depth⟩ } := by
  have hdepth : ∀ u, ((Function.update σ.threads t
      ⟨.ctorReadOwner, (σ.threads t).depth⟩) u).depth = (σ.threads u).depth := by
    intro u
    by_cases hu : u = t
    · subst hu; simp
    · simp [Function.update_noteq hu]
  have hown : ∀ u, owns ((Function.update σ.threads t
      ⟨.ctorReadOwner, (σ.threads t).depth⟩) u).pc ((Function.update σ.threads t
      ⟨.ctorReadOwner, (σ.threads t).depth⟩) u).depth = σ.own u := by
    intro u
    by_cases hu : u = t
    · subst hu; simp [System.own, owns, hpc]
    · simp [Function.update_noteq hu, System.own]
  constructor
  · intro u v hu hv
    simp only [hdepth] at hu hv
    exact hinv.excl u v hu hv
  · intro hab u
    have hg := hinv.good hab u
    by_cases hu : u = t
    · subst hu
      simp only [Function.update_same]
      rw [hpc] at hg
      simp only [ThreadCritical.good] at hg ⊢
      omega
    · simp only [Function.update_noteq hu]
      exact hg
  · intro hab u v hu hv
    simp only [System.own, hown] at hu hv
    exact hinv.uniq hab u v hu hv
  · intro hab hall
    simp only [System.own, hown] at hall
    exact hinv.free hab hall

theorem Inv_callRelease (L : Nat) (σ : System) (t : Nat) (hinv : Inv L σ)
    (hpc : (σ.threads t).pc = .done) (hd : 1 ≤ (σ.threads t).depth) :
    Inv L { σ with threads :=
      Function.update σ.threads t ⟨.dtorAssertOwner, (σ.threads t).depth - 1⟩ } := by
  have hdepth : ∀ u, ((Function.update σ.threads t
      ⟨.dtorAssertOwner, (σ.threads t).depth - 1⟩) u).depth ≤ (σ.threads u).depth := by
    intro u
    by_cases hu : u = t
    · subst hu; simp
    · simp [Function.update_noteq hu]
  have hown : ∀ u, owns ((Function.update σ.threads t
      ⟨.dtorAssertOwner, (σ.threads t).depth - 1⟩) u).pc ((Function.update σ.threads t
      ⟨.dtorAssertOwner, (σ.threads t).depth - 1⟩) u).depth = σ.own u := by
    intro u
    by_cases hu : u = t
    · subst hu; simp [System.own, owns, hpc, hd]
    · simp [Function.update_noteq hu, System.own]
  constructor
  · intro u v hu hv
    exact hinv.excl u v (le_trans hu (hdepth u)) (le_trans hv (hdepth v))
  · intro hab u
    have hg := hinv.good hab u
    by_cases hu : u = t
    · subst hu
      simp only [Function.update_same]
      rw [hpc] at hg
      simp only [ThreadCritical.good, wrapJint] at hg ⊢
      omega
    · simp only [Function.update_noteq hu]
      exact hg
  · intro hab u v hu hv
    simp only [System.own, hown] at hu hv
    exact hinv.uniq hab u v hu hv
  · intro hab hall
    simp only [System.own, hown] at hall
    exact hinv.free hab hall

theorem Inv_step (asserts : Bool) (L : Nat) (hL : L ≤ 4294967295) (σ : System) (t : Nat)
    (ok : Bool) (pc' : Pc) (s' : State) (ht : t ≠ NONE) (hinv : Inv L σ)
    (hab : σ.aborted = false)
    (hstep : stepPc asserts t ok (σ.threads t).pc σ.shared = some (pc', s')) :
    Inv L { shared := s',
            threads := Function.update σ.threads t
              ⟨pc', if (σ.threads t).pc = .ctorFinalAssert ∧ pc' = .done
                then (σ.threads t).depth + 1 else (σ.threads t).depth⟩,
            aborted := decide (pc' = .fatal) } := by
  have hg := hinv.good hab t
  have hother : owns (σ.threads t).pc (σ.threads t).depth = false →
      σ.shared.lock_owner ≠ t ∧ (σ.shared.lock_count = -1 → σ.shared.lock_owner = NONE) := by
    intro hno
    by_cases hex : ∃ u, σ.own u = true
    · obtain ⟨u, hu⟩ := hex
      have hut : u ≠ t := by
        intro h
        rw [h, System.own, hno] at hu
        cases hu
      obtain ⟨hc, ho⟩ := good_owns_facts L u σ.shared _ _ hL (hinv.good hab u) hu
      refine ⟨?_, fun h => absurd h hc⟩
      rcases ho with ho | ho
      · rw [ho]; exact hut
      · rw [ho]; exact fun h => ht h.symm
    · have hall : ∀ u, σ.own u = false := by
        intro u
        cases h : σ.own u
        · rfl
        · exact absurd ⟨u, h⟩ hex
      have hfree := hinv.free hab hall
      exact ⟨by rw [hfree.2]; exact fun h => ht h.symm, fun _ => hfree.2⟩
  by_cases hf : pc' = .fatal
  · -- the process aborts: only the depths matter, and they are unchanged
    have hdepth : ∀ u, ((Function.update σ.threads t
        ⟨pc', if (σ.threads t).pc = .ctorFinalAssert ∧ pc' = .done
          then (σ.threads t).depth + 1 else (σ.threads t).depth⟩) u).depth =
        (σ.threads u).depth := by
      intro u
      by_cases hu : u = t
      · subst hu; simp [hf]
      · simp [Function.update_noteq hu]
    constructor
    · intro u v hu hv
      simp only [hdepth] at hu hv
      exact hinv.excl u v hu hv
    · intro h; simp [hf] at h
    · intro h; simp [hf] at h
    · intro h; simp [hf] at h
  · obtain ⟨g1, g2, g3, g4⟩ := step_good asserts L t ok σ.shared s' (σ.threads t).pc pc'
      (σ.threads t).depth hL hg hother hstep hf
    generalize hd' : (if (σ.threads t).pc = .ctorFinalAssert ∧ pc' = .done
      then (σ.threads t).depth + 1 else (σ.threads t).depth) = d' at g1 g2 g3 g4 ⊢
    have hother_no : ∀ u, u ≠ t → σ.own t = true → σ.own u = false := by
      intro u hu hown
      cases h : σ.own u
      · rfl
      · exact absurd (hinv.uniq hab u t h hown) hu
    have hgood' : ∀ u, good L u s' ((Function.update σ.threads t ⟨pc', d'⟩) u).pc
        ((Function.update σ.threads t ⟨pc', d'⟩) u).depth := by
      intro u
      by_cases hu : u = t
      · subst hu
        simp only [Function.update_same]
        exact g1
      · simp only [Function.update_noteq hu]
        have hgu := hinv.good hab u
        cases hown_t : owns (σ.threads t).pc (σ.threads t).depth
        · cases hown_t' : owns pc' d'
          · exact good_congr L u σ.shared s' _ _ hgu (g3 hown_t hown_t').1 (g3 hown_t hown_t').2
          · have hc := g2 hown_t hown_t'
            have hu_no : σ.own u = false := by
              cases h : σ.own u
              · rfl
              · exact absurd hc (good_owns_facts L u σ.shared _ _ hL hgu h).1
            exact (good_of_not_owns L u σ.shared s' _ _ hgu hu_no).1
        · exact (good_of_not_owns L u σ.shared s' _ _ hgu (hother_no u hu hown_t)).1
    have huniq' : ∀ u v, owns ((Function.update σ.threads t ⟨pc', d'⟩) u).pc
        ((Function.update σ.threads t ⟨pc', d'⟩) u).depth = true →
        owns ((Function.update σ.threads t ⟨pc', d'⟩) v).pc
        ((Function.update σ.threads t ⟨pc', d'⟩) v).depth = true → u = v := by
      have key : ∀ v, v ≠ t → owns pc' d' = true → σ.own v = true → False := by
        intro v hv hown' hownv
        cases hown_t : owns (σ.threads t).pc (σ.threads t).depth
        · exact absurd (g2 hown_t hown')
            (good_owns_facts L v σ.shared _ _ hL (hinv.good hab v) hownv).1
        · exact hv (hinv.uniq hab v t hownv hown_t)
      intro u v hu hv
      by_cases hut : u = t
      · by_cases hvt : v = t
        · rw [hut, hvt]
        · subst hut
          simp only [Function.update_same, Function.update_noteq hvt] at hu hv
          exact absurd hv (fun h => key v hvt hu h)
      · by_cases hvt : v = t
        · subst hvt
          simp only [Function.update_same, Function.update_noteq hut] at hu hv
          exact absurd hu (fun h => key u hut hv h)
        · simp only [Function.update_noteq hut, Function.update_noteq hvt] at hu hv
          exact hinv.uniq hab u v hu hv
    constructor
    · intro u v hu hv
      exact huniq' u v (owns_of_depth L u s' _ _ (hgood' u) hu)
        (owns_of_depth L v s' _ _ (hgood' v) hv)
    · intro _ u
      exact hgood' u
    · intro _ u v hu hv
      exact huniq' u v hu hv
    · intro _ hall
      have hall' : ∀ u, owns ((Function.update σ.threads t ⟨pc', d'⟩) u).pc
          ((Function.update σ.threads t ⟨pc', d'⟩) u).depth = false := hall
      have ht' : owns pc' d' = false := by
        have := hall' t
        simpa only [Function.update_same] using this
      cases hown_t : owns (σ.threads t).pc (σ.threads t).depth
      · have hall0 : ∀ u, σ.own u = false := by
          intro u
          by_cases hu : u = t
          · subst hu; exact hown_t
          · have := hall' u
            simpa only [Function.update_noteq hu] using this
        have hfree := hinv.free hab hall0
        have h3 := g3 hown_t ht'
        exact ⟨by show s'.lock_count = -1; rw [h3.1]; exact hfree.1,
          by show s'.lock_owner = NONE; rw [h3.2]; exact hfree.2⟩
      · exact g4 hown_t ht'

theorem Inv_next (asserts : Bool) (L : Nat) (hL : L ≤ 4294967295) (a : Action)
    (σ σ' : System) (ha : a.thread ≠ NONE) (hinv : Inv L σ)
    (hn : System.next asserts (some L) a σ = some σ') : Inv L σ' := by
  unfold System.next at hn
  rcases Bool.eq_false_or_eq_true σ.aborted with hab | hab
  · simp [hab] at hn
  · rw [if_neg (by rw [hab]; exact Bool.false_ne_true)] at hn
    cases a with
    | callAcquire t =>
      simp only [allowsDepth, decide_eq_true_eq] at hn
      split_ifs at hn with hc
      injection hn with hn
      subst hn
      exact Inv_callAcquire L σ t hinv hc.1 hc.2
    | callRelease t =>
      simp only at hn
      split_ifs at hn with hc
      injection hn with hn
      subst hn
      exact Inv_callRelease L σ t hinv hc.1 hc.2
    | step t ok =>
      simp only [Action.thread] at ha
      simp only at hn
      cases hs : stepPc asserts t ok (σ.threads t).pc σ.shared with
      | none => simp [hs] at hn
      | some r =>
        obtain ⟨pc', s'⟩ := r
        simp only [hs, Option.some.injEq] at hn
        subst hn
        exact Inv_step asserts L hL σ t ok pc' s' ha hinv hab hs

theorem reachable_inv (asserts : Bool) (L : Nat) (T : Finset Nat) (hL : L ≤ 4294967295)
    (hT : NONE ∉ T) (σ : System) (hr : Reachable asserts (some L) T σ) : Inv L σ := by
  induction hr with
  | init => exact Inv_init L
  | step a _ hmem hn ih =>
    exact Inv_next asserts L hL a _ _ (fun h => hT (h ▸ hmem)) ih hn

/-- C1 (as amended): for every finite set `T` of thread ids not containing the
sentinel, with no thread nesting more than `L ≤ 2^32 - 1` acquires, in every
state reachable from the initial state by interleaved atomic steps of properly
nested constructor and destructor calls, at most one thread is between the
return of an acquire and the start of its matching outermost release. -/
theorem mutual_exclusion (asserts : Bool) (L : Nat) (T : Finset Nat) (σ : System) (t u : Nat)
    (hL : L ≤ 4294967295) (hT : NONE ∉ T) (hr : Reachable asserts (some L) T σ)
    (ht : σ.holds t) (hu : σ.holds u) : t = u :=
  (reachable_inv asserts L T hL hT σ hr).excl t u ht hu

/-! ## Concrete runs of two threads -/

theorem sys2_init : System.init = sys2 State.init ⟨.done, 0⟩ ⟨.done, 0⟩ := by
  unfold System.init sys2
  congr 1
  funext i
  split_ifs <;> rfl

theorem update_sys2_one (a b x : Thread) :
    Function.update (fun i => if i = 1 then a else if i = 2 then b else (⟨.done, 0⟩ : Thread))
      1 x = fun i => if i = 1 then x else if i = 2 then b else ⟨.done, 0⟩ := by
  funext i
  by_cases h : i = 1
  · subst h; simp
  · simp [Function.update_noteq h, h]

theorem update_sys2_two (a b x : Thread) :
    Function.update (fun i => if i = 1 then a else if i = 2 then b else (⟨.done, 0⟩ : Thread))
      2 x = fun i => if i = 1 then a else if i = 2 then x else ⟨.done, 0⟩ := by
  funext i
  by_cases h : i = 2
  · subst h; simp
  · simp [Function.update_noteq h, h]

theorem reach_call_one (asserts : Bool) (limit : Option Nat) (T : Finset Nat) (s : State)
    (d : Nat) (b : Thread) (h1 : 1 ∈ T) (hd : allowsDepth limit d = true)
    (hr : Reachable asserts limit T (sys2 s ⟨.done, d⟩ b)) :
    Reachable asserts limit T (sys2 s ⟨.ctorReadOwner, d⟩ b) := by
  refine Reachable.step (.callAcquire 1) hr h1 ?_
  simp [System.next, sys2, hd, update_sys2_one]

theorem reach_call_two (asserts : Bool) (limit : Option Nat) (T : Finset Nat) (s : State)
    (d : Nat) (a : Thread) (h2 : 2 ∈ T) (hd : allowsDepth limit d = true)
    (hr : Reachable asserts limit T (sys2 s a ⟨.done, d⟩)) :
    Reachable asserts limit T (sys2 s a ⟨.ctorReadOwner, d⟩) := by
  refine Reachable.step (.callAcquire 2) hr h2 ?_
  simp [System.next, sys2, hd, update_sys2_two]

theorem reach_release_one (asserts : Bool) (limit : Option Nat) (T : Finset Nat) (s : State)
    (d : Nat) (b : Thread) (h1 : 1 ∈ T) (hd : 1 ≤ d)
    (hr : Reachable asserts limit T (sys2 s ⟨.done, d⟩ b)) :
    Reachable asserts limit T (sys2 s ⟨.dtorAssertOwner, d - 1⟩ b) := by
  refine Reachable.step (.callRelease 1) hr h1 ?_
  simp [System.next, sys2, hd, update_sys2_one]

theorem reach_step_one (asserts : Bool) (limit : Option Nat) (T : Finset Nat) (ok : Bool)
    (s s' : State) (pc pc' : Pc) (d : Nat) (b : Thread) (h1 : 1 ∈ T)
    (hs : stepPc asserts 1 ok pc s = some (pc', s')) (hf : pc' ≠ .fatal)
    (hr : Reachable asserts limit T (sys2 s ⟨pc, d⟩ b)) :
    Reachable asserts limit T
      (sys2 s' ⟨pc', if pc = .ctorFinalAssert ∧ pc' = .done then d + 1 else d⟩ b) := by
  refine Reachable.step (.step 1 ok) hr h1 ?_
  simp [System.next, sys2, hs, hf, update_sys2_one]

theorem reach_step_two (asserts : Bool) (limit : Option Nat) (T : Finset Nat) (ok : Bool)
    (s s' : State) (pc pc' : Pc) (d : Nat) (a : Thread) (h2 : 2 ∈ T)
    (hs : stepPc asserts 2 ok pc s = some (pc', s')) (hf : pc' ≠ .fatal)
    (hr : Reachable asserts limit T (sys2 s a ⟨pc, d⟩)) :
    Reachable asserts limit T
      (sys2 s' a ⟨pc', if pc = .ctorFinalAssert ∧ pc' = .done then d + 1 else d⟩) := by
  refine Reachable.step (.step 2 ok) hr h2 ?_
  simp [System.next, sys2, hs, hf, update_sys2_two]

/-- Thread 1 acquires the free lock of the initial state. -/
theorem reach_first_acquire (asserts : Bool) (limit : Option Nat) (T : Finset Nat) (h1 : 1 ∈ T)
    (hd : allowsDepth limit 0 = true) :
    Reachable asserts limit T (sys2 heldByOne ⟨.done, 1⟩ ⟨.done, 0⟩) := by
  have r0 : Reachable asserts limit T (sys2 State.init ⟨.done, 0⟩ ⟨.done, 0⟩) :=
    sys2_init ▸ Reachable.init
  have r1 := reach_call_one asserts limit T _ _ _ h1 hd r0
  have r2 := reach_step_one asserts limit T true State.init State.init .ctorReadOwner .ctorCas
    0 _ h1 (by cases asserts <;> decide) (by decide) r1
  have r3 := reach_step_one asserts limit T true State.init { State.init with lock_count := 0 }
    .ctorCas .ctorReadInit _ _ h1 (by cases asserts <;> decide) (by decide) r2
  have r4 := reach_step_one asserts limit T true _ { State.init with lock_count := 0 }
    .ctorReadInit .ctorCreate _ _ h1 (by cases asserts <;> decide) (by decide) r3
  have r5 := reach_step_one asserts limit T true _
    { State.init with lock_count := 0, events := [{ signaled := false, isOpen := true }] }
    .ctorCreate (.ctorWriteEvent 1) _ _ h1 (by cases asserts <;> decide) (by decide) r4
  have r6 := reach_step_one asserts limit T true _
    { State.init with lock_count := 0, lock_event := 1,
                      events := [{ signaled := false, isOpen := true }] }
    (.ctorWriteEvent 1) .ctorSetInit _ _ h1 (by cases asserts <;> decide) (by decide) r5
  have r7 := reach_step_one asserts limit T true _
    { heldByOne with lock_owner := NONE }
    .ctorSetInit .ctorAssertOwner _ _ h1 (by cases asserts <;> decide) (by decide) r6
  have r8 := reach_step_one asserts limit T true _
    { heldByOne with lock_owner := NONE }
    .ctorAssertOwner .ctorWriteOwner _ _ h1 (by cases asserts <;> decide) (by decide) r7
  have r9 := reach_step_one asserts limit T true _ heldByOne
    .ctorWriteOwner .ctorFinalAssert _ _ h1 (by cases asserts <;> decide) (by decide) r8
  have r10 := reach_step_one asserts limit T true _ heldByOne
    .ctorFinalAssert .done _ _ h1 (by cases asserts <;> decide) (by decide) r9
  exact r10

/-- Thread 1, holding the lock, acquires it once more. -/
theorem reach_nested_acquire (asserts : Bool) (limit : Option Nat) (T : Finset Nat) (h1 : 1 ∈ T)
    (c : Int) (d : Nat) (b : Thread) (hd : allowsDepth limit d = true)
    (hr : Reachable asserts limit T (sys2 { heldByOne with lock_count := c } ⟨.done, d⟩ b)) :
    Reachable asserts limit T
      (sys2 { heldByOne with lock_count := wrapJint (c + 1) } ⟨.done, d + 1⟩ b) := by
  have r1 := reach_call_one asserts limit T _ _ _ h1 hd hr
  have r2 := reach_step_one asserts limit T true _ { heldByOne with lock_count := c }
    .ctorReadOwner .ctorIncRead _ _ h1 (by simp [stepPc, heldByOne]) (by decide) r1
  have r3 := reach_step_one asserts limit T true _ { heldByOne with lock_count := c }
    .ctorIncRead (.ctorIncWrite c) _ _ h1 (by simp [stepPc]) (by simp) r2
  have r4 := reach_step_one asserts limit T true _
    { heldByOne with lock_count := wrapJint (c + 1) }
    (.ctorIncWrite c) .ctorFinalAssert _ _ h1 (by simp [stepPc]) (by decide) r3
  have r5 := reach_step_one asserts limit T true _
    { heldByOne with lock_count := wrapJint (c + 1) }
    .ctorFinalAssert .done _ _ h1 (by simp [stepPc, heldByOne]) (by decide) r4
  simpa using r5

/-- Thread 1 nests `n + 1` acquires while thread 2 stays outside. -/
theorem reach_nested (asserts : Bool) (T : Finset Nat) (h1 : 1 ∈ T) :
    ∀ n : Nat, Reachable asserts none T
      (sys2 { heldByOne with lock_count := wrapJint (n : Int) } ⟨.done, n + 1⟩ ⟨.done, 0⟩) := by
  intro n
  induction n with
  | zero => exact reach_first_acquire asserts none T h1 rfl
  | succ n ih =>
    have h := reach_nested_acquire asserts none T h1 _ _ _ rfl ih
    have hw : wrapJint (wrapJint (n : Int) + 1) = wrapJint (((n + 1 : Nat) : Int)) := by
      unfold wrapJint; push_cast; omega
    rw [hw] at h
    exact h

/-- With or without assertions: thread 1 nests `2^32` acquires, which wraps
`lock_count` round to `-1`; the compare-and-swap of thread 2 succeeds; thread 1
leaves its innermost scope, which the destructor takes for the outermost one
(`lock_count` is `0`), clearing `lock_owner`; thread 2 passes its assertions
and returns. -/
theorem reach_twoHolders (asserts : Bool) : Reachable asserts none {1, 2} twoHolders := by
  have h1 : (1 : Nat) ∈ ({1, 2} : Finset Nat) := by decide
  have h2 : (2 : Nat) ∈ ({1, 2} : Finset Nat) := by decide
  have r0 := reach_nested asserts {1, 2} h1 4294967295
  have hw : wrapJint ((4294967295 : Nat) : Int) = -1 := by
    simp only [wrapJint]; norm_num
  rw [hw] at r0
  have r1 := reach_call_two asserts none {1, 2} _ _ _ h2 rfl r0
  have r2 := reach_step_two asserts none {1, 2} true _ wrappedState
    .ctorReadOwner .ctorCas _ _ h2 (by cases asserts <;> decide) (by decide) r1
  have r3 := reach_step_two asserts none {1, 2} true _ heldByOne
    .ctorCas .ctorReadInit _ _ h2 (by cases asserts <;> decide) (by decide) r2
  have r4 := reach_release_one asserts none {1, 2} _ _ _ h1 (by decide) r3
  have r5 := reach_step_one asserts none {1, 2} true _ heldByOne
    .dtorAssertOwner .dtorAssertCount _ _ h1 (by cases asserts <;> decide) (by decide) r4
  have r6 := reach_step_one asserts none {1, 2} true _ heldByOne
    .dtorAssertCount .dtorReadCount _ _ h1 (by cases asserts <;> decide) (by decide) r5
  have r7 := reach_step_one asserts none {1, 2} true _ heldByOne
    .dtorReadCount .dtorClearOwner _ _ h1 (by cases asserts <;> decide) (by decide) r6
  have r8 := reach_step_one asserts none {1, 2} true _ { heldByOne with lock_owner := NONE }
    .dtorClearOwner .dtorClearCount _ _ h1 (by cases asserts <;> decide) (by decide) r7
  have r9 := reach_step_one asserts none {1, 2} true _
    { heldByOne with lock_owner := NONE, lock_count := -1 }
    .dtorClearCount .dtorReadEvent _ _ h1 (by cases asserts <;> decide) (by decide) r8
  have r10 := reach_step_one asserts none {1, 2} true _
    { heldByOne with lock_owner := NONE, lock_count := -1 }
    .dtorReadEvent (.dtorSignal 1) _ _ h1 (by cases asserts <;> decide) (by decide) r9
  have r11 := reach_step_one asserts none {1, 2} true _
    { heldByOne with lock_owner := NONE, lock_count := -1,
                     events := [{ signaled := true, isOpen := true }] }
    (.dtorSignal 1) .done _ _ h1 (by cases asserts <;> decide) (by decide) r10
  have r12 := reach_step_two asserts none {1, 2} true _
    { heldByOne with lock_owner := NONE, lock_count := -1,
                     events := [{ signaled := true, isOpen := true }] }
    .ctorReadInit .ctorAssertOwner _ _ h2 (by cases asserts <;> decide) (by decide) r11
  have r13 := reach_step_two asserts none {1, 2} true _
    { heldByOne with lock_owner := NONE, lock_count := -1,
                     events := [{ signaled := true, isOpen := true }] }
    .ctorAssertOwner .ctorWriteOwner _ _ h2 (by cases asserts <;> decide) (by decide) r12
  have r14 := reach_step_two asserts none {1, 2} true _
    { heldByOne with lock_owner := 2, lock_count := -1,
                     events := [{ signaled := true, isOpen := true }] }
    .ctorWriteOwner .ctorFinalAssert _ _ h2 (by cases asserts <;> decide) (by decide) r13
  have r15 := reach_step_two asserts none {1, 2} true _
    { heldByOne with lock_owner := 2, lock_count := -1,
                     events := [{ signaled := true, isOpen := true }] }
    .ctorFinalAssert .done _ _ h2 (by cases asserts <;> decide) (by decide) r14
  exact r15

/-- C1 (as stated) fails without a bound on the nesting depth, with assertions
compiled in as well as without: a state in which thread 1 and thread 2 are
both between the return of an acquire and the start of its matching outermost
release is reachable. -/
theorem mutual_exclusion_fails :
    NONE ∉ ({1, 2} : Finset Nat) ∧ Reachable true none {1, 2} twoHolders ∧
    Reachable false none {1, 2} twoHolders ∧
    twoHolders.holds 1 ∧ twoHolders.holds 2 ∧ (1 : Nat) ≠ 2 := by
  refine ⟨by decide, reach_twoHolders true, reach_twoHolders false, ?_, ?_, by decide⟩
  · show 1 ≤ 4294967295; decide
  · show 1 ≤ 1; decide

/-- Witness for C1 (as amended): threads 1 and 2 under the nesting bound 5, in the
state where thread 1 has acquired the lock once. -/
theorem mutual_exclusion_witness :
    Reachable true (some 5) {1, 2} (sys2 heldByOne ⟨.done, 1⟩ ⟨.done, 0⟩) ∧
    (sys2 heldByOne ⟨.done, 1⟩ ⟨.done, 0⟩).holds 1 ∧ (1 : Nat) = 1 :=
  have hr := reach_first_acquire true (some 5) {1, 2} (by decide) rfl
  have hh : (sys2 heldByOne ⟨.done, 1⟩ ⟨.done, 0⟩).holds 1 := by
    show 1 ≤ 1; decide
  ⟨hr, hh, mutual_exclusion true 5 {1, 2} _ 1 1 (by decide) (by decide) hr hh hh⟩

/-! ## A thread whose id is the sentinel -/

/-- C19: for the thread whose id is the sentinel `NONE`, the constructor on the
initial state takes the else branch of line 67: it returns after four steps
with `lock_count = 0`, `lock_owner = NONE` and `initialized = false`; its trace
contains no compare-and-swap and no event creation and never reaches the fatal
point, the conditions of both "Lock acquired illegally." assertions
(`lock_owner == -1`, `lock_owner ==` current thread) holding in every state of
it (only the one of line 90 lies on the path); the state returned violates
`lock_owner = NONE ↔ lock_count = -1`. -/
theorem sentinel_collision (asserts : Bool) (createOk : Bool) (n : Nat) :
    ctor asserts NONE createOk (n + 4) State.init =
      (.done, { State.init with lock_count := 0 }) ∧
    (ctorTrace asserts NONE createOk (n + 4) State.init)[1]? = some (.ctorIncRead, State.init) ∧
    (ctorTrace asserts NONE createOk (n + 4) State.init).countP (fun c => c.1.isCas) = 0 ∧
    (ctorTrace asserts NONE createOk (n + 4) State.init).countP (fun c => c.1.isCreate) = 0 ∧
    (∀ c ∈ ctorTrace asserts NONE createOk (n + 4) State.init,
      c.1 ≠ .fatal ∧ c.2.lock_owner = NONE) ∧
    ({ State.init with lock_count := 0 } : State).lock_owner = NONE ∧
    ({ State.init with lock_count := 0 } : State).lock_count = 0 ∧
    ({ State.init with lock_count := 0 } : State).initialized = false ∧
    ¬ (({ State.init with lock_count := 0 } : State).lock_owner = NONE ↔
        ({ State.init with lock_count := 0 } : State).lock_count = -1) := by
  have hw : wrapJint 0 = 0 := by decide
  refine ⟨?_, ?_, ?_, ?_, ?_, rfl, rfl, rfl, by decide⟩ <;>
    simp [ctor, ctorTrace, run, trace, stepPc, State.init, hw, Pc.isCas, Pc.isCreate,
      List.countP_cons]

/-! ## The retry loop -/

/-- A thread that cannot move stays where it is. -/
theorem trace_blocked (asserts : Bool) (t : Nat) (createOk : Bool) (fuel : Nat) (pc : Pc)
    (s : State) (h : stepPc asserts t createOk pc s = none) :
    trace asserts t createOk fuel pc s = [(pc, s)] ∧
    run asserts t createOk fuel pc s = (pc, s) := by
  cases fuel <;> simp [trace, run, h]

/-- The wait of line 71 on an open, unsignaled event does not return. -/
theorem stepPc_wait_blocked (asserts : Bool) (t : Nat) (createOk : Bool) (h : Nat) (s : State)
    (e : EventObj) (hl : lookup h s.events = some e) (hu : e.signaled = false) :
    stepPc asserts t createOk (.ctorWait h) s = none := by
  simp [stepPc, WaitForSingleObject, hl, hu]

/-- A compare-and-swap that finds `lock_count ≠ -1` changes nothing. -/
theorem stepPc_cas_failed (asserts : Bool) (t : Nat) (createOk : Bool) (s : State)
    (hc : s.lock_count ≠ -1) :
    stepPc asserts t createOk .ctorCas s = some (.ctorLoopReadInit, s) := by
  simp [stepPc, cmpxchg, hc]

/-- While `initialized` is false and the lock is taken, a thread running alone
goes round between the compare-and-swap and the read of `initialized`: it
never stops and never changes the state. -/
theorem trace_spin (asserts : Bool) (t : Nat) (createOk : Bool) (s : State)
    (hc : s.lock_count ≠ -1) (hi : s.initialized = false) :
    ∀ (fuel : Nat) (pc : Pc), (pc = .ctorCas ∨ pc = .ctorLoopReadInit) →
      (trace asserts t createOk fuel pc s).length = fuel + 1 ∧
      ∀ c ∈ trace asserts t createOk fuel pc s,
        (c.1 = .ctorCas ∨ c.1 = .ctorLoopReadInit) ∧ c.2 = s := by
  intro fuel
  induction fuel with
  | zero =>
    intro pc hp
    refine ⟨by simp [trace], fun c hmem => ?_⟩
    simp only [trace, List.mem_singleton] at hmem
    subst hmem
    exact ⟨hp, rfl⟩
  | succ n ih =>
    intro pc hp
    have hstep : ∃ pc', (pc' = .ctorCas ∨ pc' = .ctorLoopReadInit) ∧
        stepPc asserts t createOk pc s = some (pc', s) := by
      rcases hp with rfl | rfl
      · exact ⟨.ctorLoopReadInit, Or.inr rfl, stepPc_cas_failed asserts t createOk s hc⟩
      · exact ⟨.ctorCas, Or.inl rfl, by simp [stepPc, hi]⟩
    obtain ⟨pc', hp', hs⟩ := hstep
    obtain ⟨h1, h2⟩ := ih pc' hp'
    simp only [trace, hs]
    refine ⟨by simp [h1], fun c hmem => ?_⟩
    simp only [List.mem_cons] at hmem
    rcases hmem with rfl | hmem
    · exact ⟨hp, rfl⟩
    · exact h2 c hmem

/-- C16: in the retry loop of the constructor, a compare-and-swap that finds
`lock_count ≠ -1` leaves the state as it is and goes on to read `initialized`;
if that is true the thread reads `lock_event` and waits on it, if it is false
the thread goes straight back to the compare-and-swap; the wait is entered
from nowhere else.  The wait changes none of the four statics and is followed
by the compare-and-swap again (or by the fatal point).  Inside the loop
`lock_count` and `lock_owner` change in one step only: a compare-and-swap
that finds `-1` and stores `0`, which leaves the loop.  The wait is a wait on
the event: on an open event that is unsignaled the thread cannot move; on an
open event that is signaled it resets the event and goes back to the
compare-and-swap; on a handle that names no open event the call fails.  Run
alone on a lock held by somebody else, the thread spins while `initialized` is
false (with any fuel it uses all of it, never at the wait and never changing
the state), and blocks once `initialized` is true and `lock_event` names an
unsignaled event (with any fuel of at least four steps it stands at the wait
on `lock_event`, the state unchanged). -/
theorem retry_loop (asserts : Bool) (t : Nat) (createOk : Bool) (s : State) :
    (s.lock_count ≠ -1 →
      stepPc asserts t createOk .ctorCas s = some (.ctorLoopReadInit, s)) ∧
    (s.initialized = true →
      stepPc asserts t createOk .ctorLoopReadInit s = some (.ctorLoopReadEvent, s) ∧
      stepPc asserts t createOk .ctorLoopReadEvent s = some (.ctorWait s.lock_event, s)) ∧
    (s.initialized = false →
      stepPc asserts t createOk .ctorLoopReadInit s = some (.ctorCas, s)) ∧
    (∀ pc pc' s', stepPc asserts t createOk pc s = some (pc', s') →
      (pc'.isWait = true → pc = .ctorLoopReadEvent) ∧
      (pc' = .ctorLoopReadEvent → pc = .ctorLoopReadInit ∧ s.initialized = true)) ∧
    (∀ h pc' s', stepPc asserts t createOk (.ctorWait h) s = some (pc', s') →
      (pc' = .ctorCas ∨ pc' = .fatal) ∧ s'.lock_count = s.lock_count ∧
      s'.lock_owner = s.lock_owner ∧ s'.initialized = s.initialized ∧
      s'.lock_event = s.lock_event) ∧
    (∀ pc pc' s', pc.inLoop = true → stepPc asserts t createOk pc s = some (pc', s') →
      (s'.lock_count ≠ s.lock_count ∨ s'.lock_owner ≠ s.lock_owner) →
      pc = .ctorCas ∧ s.lock_count = -1 ∧ s'.lock_count = 0 ∧
      s'.lock_owner = s.lock_owner ∧ pc' = .ctorReadInit) ∧
    (∀ h e, lookup h s.events = some e → e.signaled = false →
      stepPc asserts t createOk (.ctorWait h) s = none) ∧
    (∀ h e, lookup h s.events = some e → e.signaled = true →
      stepPc asserts t createOk (.ctorWait h) s =
        some (.ctorCas, { s with events := s.events.set (h - 1) { e with signaled := false } })) ∧
    (∀ h, lookup h s.events = none →
      stepPc asserts t createOk (.ctorWait h) s =
        some (if asserts then .fatal else .ctorCas, s)) ∧
    (s.lock_owner ≠ t → s.lock_count ≠ -1 → s.initialized = false → ∀ fuel,
      (ctorTrace asserts t createOk fuel s).length = fuel + 1 ∧
      ∀ c ∈ ctorTrace asserts t createOk fuel s,
        c.1.isWait = false ∧ c.1 ≠ .done ∧ c.1 ≠ .fatal ∧ c.2 = s) ∧
    (s.lock_owner ≠ t → s.lock_count ≠ -1 → s.initialized = true →
      ∀ e, lookup s.lock_event s.events = some e → e.signaled = false →
      ∀ fuel, 4 ≤ fuel →
        ctorTrace asserts t createOk fuel s =
          [(.ctorReadOwner, s), (.ctorCas, s), (.ctorLoopReadInit, s),
           (.ctorLoopReadEvent, s), (.ctorWait s.lock_event, s)] ∧
        ctor asserts t createOk fuel s = (.ctorWait s.lock_event, s)) := by
  refine ⟨?_, ?_, ?_, ?_, ?_, ?_, ?_, ?_, ?_, ?_, ?_⟩
  rotate_left 6
  · intro h e hl hu
    exact stepPc_wait_blocked asserts t createOk h s e hl hu
  · intro h e hl hsig
    simp [stepPc, WaitForSingleObject, hl, hsig, WAIT_OBJECT_0]
  · intro h hl
    cases asserts <;> simp [stepPc, WaitForSingleObject, hl, WAIT_FAILED, WAIT_OBJECT_0]
  · intro ho hc hi fuel
    have e1 : stepPc asserts t createOk .ctorReadOwner s = some (.ctorCas, s) := by
      simp [stepPc, ho]
    cases fuel with
    | zero =>
      refine ⟨by simp [ctorTrace, trace], fun c hmem => ?_⟩
      simp only [ctorTrace, trace, List.mem_singleton] at hmem
      subst hmem
      exact ⟨rfl, by simp, by simp, rfl⟩
    | succ n =>
      obtain ⟨h1, h2⟩ := trace_spin asserts t createOk s hc hi n .ctorCas (Or.inl rfl)
      simp only [ctorTrace, trace, e1]
      refine ⟨by simp [h1], fun c hmem => ?_⟩
      simp only [List.mem_cons] at hmem
      rcases hmem with rfl | hmem
      · exact ⟨rfl, by simp, by simp, rfl⟩
      · obtain ⟨h3, h4⟩ := h2 c hmem
        rcases h3 with h3 | h3 <;> rw [h3] <;> exact ⟨rfl, by simp, by simp, h4⟩
  · intro ho hc hi e hl hu fuel hf
    obtain ⟨n, rfl⟩ : ∃ n, fuel = n + 4 := ⟨fuel - 4, by omega⟩
    have e1 : stepPc asserts t createOk .ctorReadOwner s = some (.ctorCas, s) := by
      simp [stepPc, ho]
    have e2 := stepPc_cas_failed asserts t createOk s hc
    have e3 : stepPc asserts t createOk .ctorLoopReadInit s = some (.ctorLoopReadEvent, s) := by
      simp [stepPc, hi]
    have e4 : stepPc asserts t createOk .ctorLoopReadEvent s =
        some (.ctorWait s.lock_event, s) := rfl
    have e5 := trace_blocked asserts t createOk n (.ctorWait s.lock_event) s
      (stepPc_wait_blocked asserts t createOk s.lock_event s e hl hu)
    simp only [ctorTrace, ctor, trace, run, e1, e2, e3, e4, e5.1, e5.2, and_self]
  · intro h
    simp [stepPc, cmpxchg, h]
  · intro h
    simp [stepPc, h]
  · intro h
    simp [stepPc, h]
  · intro pc pc' s' hs
    cases pc
    case ctorWait h =>
      simp only [stepPc] at hs
      cases hw : WaitForSingleObject h s.events with
      | none => simp [hw] at hs
      | some r =>
        obtain ⟨ret, evs⟩ := r
        simp only [hw, Option.some.injEq, Prod.mk.injEq] at hs
        obtain ⟨h1, _⟩ := hs
        split_ifs at h1 <;> subst h1 <;> simp [Pc.isWait]
    all_goals simp only [stepPc, Option.some.injEq, Prod.mk.injEq] at hs
    all_goals obtain ⟨h1, _⟩ := hs
    all_goals try split_ifs at h1 with hc
    all_goals subst h1
    all_goals simp_all [Pc.isWait]
  · intro h pc' s' hs
    simp only [stepPc] at hs
    cases hw : WaitForSingleObject h s.events with
    | none => simp [hw] at hs
    | some r =>
      obtain ⟨ret, evs⟩ := r
      simp only [hw, Option.some.injEq, Prod.mk.injEq] at hs
      obtain ⟨h1, rfl⟩ := hs
      split_ifs at h1 <;> subst h1 <;> simp
  · intro pc pc' s' hl hs hch
    cases pc <;> simp only [Pc.inLoop, Bool.false_eq_true] at hl
    · by_cases hc : s.lock_count = -1
      · simp only [stepPc, cmpxchg, hc, if_true, ne_eq, not_true_eq_false, if_false,
          Option.some.injEq, Prod.mk.injEq] at hs
        obtain ⟨rfl, rfl⟩ := hs
        simp [hc]
      · simp only [stepPc, cmpxchg, hc, if_false, ne_eq, not_false_eq_true, if_true,
          Option.some.injEq, Prod.mk.injEq] at hs
        obtain ⟨_, rfl⟩ := hs
        simp at hch
    · simp only [stepPc, Option.some.injEq, Prod.mk.injEq] at hs
      obtain ⟨_, rfl⟩ := hs
      simp at hch
    · simp only [stepPc, Option.some.injEq, Prod.mk.injEq] at hs
      obtain ⟨_, rfl⟩ := hs
      simp at hch
    · rename_i h
      simp only [stepPc] at hs
      cases hw : WaitForSingleObject h s.events with
      | none => simp [hw] at hs
      | some r =>
        obtain ⟨ret, evs⟩ := r
        simp only [hw, Option.some.injEq, Prod.mk.injEq] at hs
        obtain ⟨_, rfl⟩ := hs
        simp at hch

/-- Witness for C16: thread 8 in the retry loop while thread 7 holds the lock; it
blocks in the wait on event 1 when `initialized` is true, and it spins when
`initialized` is false. -/
theorem retry_loop_witness :
    (heldOnce.lock_count ≠ -1 →
      stepPc true 8 true .ctorCas heldOnce = some (.ctorLoopReadInit, heldOnce)) ∧
    (heldOnce.initialized = true →
      stepPc true 8 true .ctorLoopReadInit heldOnce = some (.ctorLoopReadEvent, heldOnce) ∧
      stepPc true 8 true .ctorLoopReadEvent heldOnce =
        some (.ctorWait heldOnce.lock_event, heldOnce)) ∧
    (stepPc true 8 true .ctorCas { State.init with lock_count := 0 } =
        some (.ctorLoopReadInit, { State.init with lock_count := 0 }) ∧
      stepPc true 8 true .ctorLoopReadInit { State.init with lock_count := 0 } =
        some (.ctorCas, { State.init with lock_count := 0 })) ∧
    stepPc true 8 true (.ctorWait 1) heldOnce = none ∧
    (ctorTrace true 8 true 10 heldOnce =
        [(.ctorReadOwner, heldOnce), (.ctorCas, heldOnce), (.ctorLoopReadInit, heldOnce),
         (.ctorLoopReadEvent, heldOnce), (.ctorWait heldOnce.lock_event, heldOnce)] ∧
      ctor true 8 true 10 heldOnce = (.ctorWait heldOnce.lock_event, heldOnce)) ∧
    (ctorTrace true 8 true 10 { State.init with lock_count := 0 }).length = 11 :=
  ⟨(retry_loop true 8 true heldOnce).1, (retry_loop true 8 true heldOnce).2.1,
    ⟨(retry_loop true 8 true { State.init with lock_count := 0 }).1 (by decide),
      (retry_loop true 8 true { State.init with lock_count := 0 }).2.2.1 rfl⟩,
    (retry_loop true 8 true heldOnce).2.2.2.2.2.2.1 1 { signaled := false, isOpen := true }
      (by decide) rfl,
    (retry_loop true 8 true heldOnce).2.2.2.2.2.2.2.2.2.2 (by decide) (by decide) rfl
      { signaled := false, isOpen := true } (by decide) rfl 10 (by decide),
    ((retry_loop true 8 true { State.init with lock_count := 0 }).2.2.2.2.2.2.2.2.2.1
      (by decide) (by decide) rfl 10).1⟩

/-! ## Failure of an operating-system call -/

/-- A wait that returns anything but `WAIT_OBJECT_0` is fatal when assertions are
compiled in (line 72). -/
theorem wait_failure_fatal (t : Nat) (createOk : Bool) (h : Nat) (s : State) (ret : Nat)
    (evs : List EventObj) (hw : WaitForSingleObject h s.events = some (ret, evs))
    (hr : ret ≠ WAIT_OBJECT_0) :
    stepPc true t createOk (.ctorWait h) s = some (.fatal, { s with events := evs }) := by
  simp [stepPc, hw, hr]

/-- A signal that returns `0` is fatal when assertions are compiled in
(line 103). -/
theorem signal_failure_fatal (t : Nat) (createOk : Bool) (h : Nat) (s : State)
    (hr : (SetEvent h s.events).1 = 0) :
    stepPc true t createOk (.dtorSignal h) s =
      some (.fatal, { s with events := (SetEvent h s.events).2 }) := by
  simp [stepPc, hr]

/-- C13 (where the code falls short): with assertions compiled in, an acquire by
thread 1 on the initial state during which `CreateEvent` fails makes that call
once and still returns normally, holding the lock, with `initialized = true`
and `lock_event = NULL`; the failure surfaces only in the release that follows,
at the assertion on `SetEvent`. -/
theorem createEvent_failure_unchecked :
    ctor true 1 false 16 State.init = (.done, heldWithoutEvent) ∧
    (ctorTrace true 1 false 16 State.init).countP (fun c => c.1.isCreate) = 1 ∧
    CreateEvent false State.init.events = (NULL, State.init.events) ∧
    (dtor true 1 16 heldWithoutEvent).1 = .fatal := by
  decide

/-! ## Completed operations: the exact state returned and the events created -/

theorem trace_add_of_done (asserts : Bool) (t : Nat) (createOk : Bool) (fuel m : Nat) :
    ∀ (pc : Pc) (s : State), (run asserts t createOk fuel pc s).1 = .done →
      trace asserts t createOk (fuel + m) pc s = trace asserts t createOk fuel pc s := by
  induction fuel with
  | zero =>
    intro pc s h
    simp only [run] at h
    subst h
    simp
  | succ n ih =>
    intro pc s h
    rw [Nat.add_right_comm]
    cases hs : stepPc asserts t createOk pc s with
    | none => simp only [trace, hs]
    | some r =>
      obtain ⟨pc', s'⟩ := r
      simp only [run, hs] at h
      simp only [trace, hs, List.cons.injEq, true_and]
      exact ih pc' s' h

/-- Once `initialized` is true, a thread running alone from any point other than
the `CreateEvent` call never makes that call, and `initialized` stays true. -/
theorem trace_no_create (asserts : Bool) (t : Nat) (createOk : Bool) (fuel : Nat) :
    ∀ (pc : Pc) (s : State), s.initialized = true → pc.isCreate = false →
      ∀ c ∈ trace asserts t createOk fuel pc s,
        c.1.isCreate = false ∧ c.2.initialized = true := by
  induction fuel with
  | zero =>
    intro pc s hi hp c hc
    simp only [trace, List.mem_singleton] at hc
    subst hc
    exact ⟨hp, hi⟩
  | succ n ih =>
    intro pc s hi hp c hc
    simp only [trace, List.mem_cons] at hc
    rcases hc with hc | hc
    · subst hc
      exact ⟨hp, hi⟩
    · cases hs : stepPc asserts t createOk pc s with
      | none => simp [hs] at hc
      | some r =>
        obtain ⟨pc', s'⟩ := r
        simp only [hs] at hc
        have key : s'.initialized = true ∧ pc'.isCreate = false := by
          cases pc
          case ctorWait h =>
            simp only [stepPc] at hs
            cases hw : WaitForSingleObject h s.events with
            | none => simp [hw] at hs
            | some r =>
              obtain ⟨ret, evs⟩ := r
              simp only [hw, Option.some.injEq, Prod.mk.injEq] at hs
              obtain ⟨h1, rfl⟩ := hs
              split_ifs at h1 <;> subst h1 <;> simp [hi, Pc.isCreate]
          all_goals simp only [stepPc, Option.some.injEq, Prod.mk.injEq] at hs
          all_goals obtain ⟨h1, rfl⟩ := hs
          all_goals try split_ifs at h1
          all_goals subst h1
          all_goals simp_all [Pc.isCreate]
        exact ih pc' s' key.1 key.2 c hc

theorem countP_eq_zero_of_forall {α : Type} (p : α → Bool) (l : List α)
    (h : ∀ c ∈ l, p c = false) : l.countP p = 0 := by
  rw [List.countP_eq_zero]
  intro c hc
  simp [h c hc]

/-- What a returning constructor has done, exactly: the state it leaves and the
number of `CreateEvent` calls it has made. -/
theorem ctor_done_state (asserts : Bool) (t : Nat) (createOk : Bool) (fuel : Nat) (s : State)
    (hd : (ctor asserts t createOk fuel s).1 = .done) :
    (s.lock_owner = t ∧
      (ctor asserts t createOk fuel s).2 = { s with lock_count := wrapJint (s.lock_count + 1) } ∧
      (ctorTrace asserts t createOk fuel s).countP (fun c => c.1.isCreate) = 0) ∨
    (s.lock_owner ≠ t ∧ s.lock_count = -1 ∧
      (ctor asserts t createOk fuel s).2 = afterFirstAcquire t createOk s ∧
      (ctorTrace asserts t createOk fuel s).countP (fun c => c.1.isCreate) =
        if s.initialized then 0 else 1) := by
  have h1 := run_add_of_done asserts t createOk fuel 9 .ctorReadOwner s hd
  have h2 := trace_add_of_done asserts t createOk fuel 9 .ctorReadOwner s hd
  unfold ctor ctorTrace at *
  rw [← h1] at hd ⊢
  rw [← h2]
  by_cases ho : s.lock_owner = t
  · left
    refine ⟨ho, ?_, ?_⟩ <;>
      simp [run, trace, stepPc, ho, Pc.isCreate, List.countP_cons]
  · right
    by_cases hc : s.lock_count = -1
    · refine ⟨ho, hc, ?_⟩
      by_cases hn : s.lock_owner = NONE
      · have ht2 : ¬ NONE = t := hn ▸ ho
        cases hi : s.initialized <;>
          simp [run, trace, stepPc, cmpxchg, hc, hi, hn, ht2, afterFirstAcquire, Pc.isCreate,
            List.countP_cons]
      · cases ha : asserts
        · cases hi : s.initialized <;>
            simp [run, trace, stepPc, cmpxchg, hc, ho, hi, hn, afterFirstAcquire, Pc.isCreate,
              List.countP_cons]
        · subst ha
          exfalso
          cases hi : s.initialized <;>
            simp [run, stepPc, cmpxchg, hc, ho, hi, hn] at hd
    · have hd' : (ctor asserts t createOk (fuel + 9) s).1 = .done := hd
      exact absurd hd' (ctor_never_returns asserts t createOk (fuel + 9) s ho hc).1

/-- What a returning destructor has done, exactly: it makes no `CreateEvent` call
and either clears owner and count and signals `lock_event`, or decrements the
count. -/
theorem dtor_done_state (asserts : Bool) (t : Nat) (fuel : Nat) (s : State)
    (hd : (dtor asserts t fuel s).1 = .done) :
    (dtorTrace asserts t fuel s).countP (fun c => c.1.isCreate) = 0 ∧
    ((s.lock_count = 0 ∧
        (dtor asserts t fuel s).2 =
          { s with lock_owner := NONE, lock_count := -1,
                   events := (SetEvent s.lock_event s.events).2 }) ∨
     (s.lock_count ≠ 0 ∧
        (dtor asserts t fuel s).2 = { s with lock_count := wrapJint (s.lock_count - 1) })) := by
  have h1 := run_add_of_done asserts t false fuel 7 .dtorAssertOwner s hd
  have h2 := trace_add_of_done asserts t false fuel 7 .dtorAssertOwner s hd
  unfold dtor dtorTrace at *
  rw [← h1] at hd ⊢
  rw [← h2]
  by_cases hz : s.lock_count = 0
  · cases ha : asserts
    · simp [run, trace, stepPc, hz, Pc.isCreate, List.countP_cons]
    · subst ha
      by_cases ho : s.lock_owner = t
      · by_cases hs : (SetEvent s.lock_event s.events).1 = 0
        · simp [run, stepPc, ho, hz, hs] at hd
        · simp [run, trace, stepPc, ho, hz, hs, Pc.isCreate, List.countP_cons]
      · simp [run, stepPc, ho] at hd
  · cases ha : asserts
    · simp [run, trace, stepPc, hz, Pc.isCreate, List.countP_cons]
    · subst ha
      by_cases ho : s.lock_owner = t
      · by_cases hn : s.lock_count < 0
        · simp [run, stepPc, ho, hn] at hd
        · simp [run, trace, stepPc, ho, hn, hz, Pc.isCreate, List.countP_cons]
      · simp [run, stepPc, ho] at hd

/-! ## When the event is created -/

theorem afterFirstAcquire_initialized (t : Nat) (createOk : Bool) (s : State) :
    (afterFirstAcquire t createOk s).initialized = true := by
  unfold afterFirstAcquire
  cases hi : s.initialized <;> simp [hi]

/-- What a completed operation does to `initialized` and how many `CreateEvent`
calls it makes: an acquire that finds `initialized` false sets it and makes
one call, every other operation leaves it and makes none. -/
theorem execOp_creation (asserts : Bool) (fuel : Nat) (op : Op) (s s' : State)
    (hex : execOp asserts fuel op s = some s') :
    (s.initialized = true →
      s'.initialized = true ∧
      (opTrace asserts fuel op s).countP (fun c => c.1.isCreate) = 0) ∧
    (s.initialized = false → op.isAcquire = true → s.lock_owner ≠ op.thread →
      s'.initialized = true ∧
      (opTrace asserts fuel op s).countP (fun c => c.1.isCreate) = 1) ∧
    (s.initialized = false → op.isAcquire = false →
      s'.initialized = false ∧ (s'.lock_owner = s.lock_owner ∨ s'.lock_owner = NONE) ∧
      (opTrace asserts fuel op s).countP (fun c => c.1.isCreate) = 0) := by
  cases op with
  | acquire t ok =>
    simp only [execOp] at hex
    split at hex
    · rename_i hd
      injection hex with hex
      subst hex
      simp only [opTrace, Op.isAcquire, Op.thread, Bool.true_eq_false, false_implies,
        implies_true, and_true, true_implies]
      rcases ctor_done_state asserts t ok fuel s hd with ⟨ho, hs, hc⟩ | ⟨ho, _, hs, hc⟩
      · refine ⟨fun hi => ⟨by rw [hs]; exact hi, hc⟩, fun _ hne => absurd ho hne⟩
      · refine ⟨fun hi => ⟨by rw [hs]; exact afterFirstAcquire_initialized t ok s, ?_⟩,
          fun hi _ => ⟨by rw [hs]; exact afterFirstAcquire_initialized t ok s, ?_⟩⟩
        · rw [hc, hi]; rfl
        · rw [hc, hi]; rfl
    · cases hex
  | release t =>
    simp only [execOp] at hex
    split at hex
    · rename_i hd
      injection hex with hex
      subst hex
      simp only [opTrace, Op.isAcquire, Bool.false_eq_true, false_implies, implies_true,
        true_and, true_implies]
      obtain ⟨hc, hs | hs⟩ := dtor_done_state asserts t fuel s hd
      · refine ⟨fun hi => ⟨by rw [hs.2]; exact hi, hc⟩, fun hi => ⟨by rw [hs.2]; exact hi, ?_, hc⟩⟩
        rw [hs.2]; exact Or.inr rfl
      · refine ⟨fun hi => ⟨by rw [hs.2]; exact hi, hc⟩, fun hi => ⟨by rw [hs.2]; exact hi, ?_, hc⟩⟩
        rw [hs.2]; exact Or.inl rfl
    · cases hex

theorem execTrace_cons (asserts : Bool) (fuel : Nat) (op : Op) (ops : List Op) (s s' : State)
    (hex : execOp asserts fuel op s = some s') :
    execTrace asserts fuel (op :: ops) s =
      opTrace asserts fuel op s ++ execTrace asserts fuel ops s' := by
  simp only [execTrace, hex]

/-- After `initialized` has become true no sequence of operations makes a
`CreateEvent` call, and `initialized` stays true. -/
theorem execOps_initialized (asserts : Bool) (fuel : Nat) (ops : List Op) :
    ∀ (s s' : State), s.initialized = true → execOps asserts fuel ops s = some s' →
      s'.initialized = true ∧
      (execTrace asserts fuel ops s).countP (fun c => c.1.isCreate) = 0 := by
  induction ops with
  | nil =>
    intro s s' hi hex
    simp only [execOps, Option.some.injEq] at hex
    subst hex
    exact ⟨hi, by simp [execTrace]⟩
  | cons op ops ih =>
    intro s s' hi hex
    rw [execOps_cons] at hex
    cases hop : execOp asserts fuel op s with
    | none => simp [hop] at hex
    | some s₁ =>
      rw [hop, Option.some_bind] at hex
      obtain ⟨h1, h2⟩ := (execOp_creation asserts fuel op s s₁ hop).1 hi
      obtain ⟨h3, h4⟩ := ih s₁ s' h1 hex
      refine ⟨h3, ?_⟩
      rw [execTrace_cons asserts fuel op ops s s₁ hop, List.countP_append, h2, h4]

theorem execOps_single_thread_creation (asserts : Bool) (fuel : Nat) (t : Nat) (ht : t ≠ NONE)
    (ops : List Op) :
    ∀ (s s' : State), s.initialized = false → s.lock_owner = NONE →
      (∀ op ∈ ops, op.thread = t) → execOps asserts fuel ops s = some s' →
      (ops.any Op.isAcquire = true →
        s'.initialized = true ∧
        (execTrace asserts fuel ops s).countP (fun c => c.1.isCreate) = 1) ∧
      (ops.any Op.isAcquire = false →
        s'.initialized = false ∧
        (execTrace asserts fuel ops s).countP (fun c => c.1.isCreate) = 0) := by
  induction ops with
  | nil =>
    intro s s' hi _ _ hex
    simp only [execOps, Option.some.injEq] at hex
    subst hex
    simp [execTrace, hi]
  | cons op ops ih =>
    intro s s' hi ho hth hex
    have hth' : ∀ op' ∈ ops, op'.thread = t := fun op' h => hth op' (List.mem_cons_of_mem _ h)
    have hop : op.thread = t := hth op (List.mem_cons_self _ _)
    rw [execOps_cons] at hex
    cases hstep : execOp asserts fuel op s with
    | none => simp [hstep] at hex
    | some s₁ =>
      rw [hstep, Option.some_bind] at hex
      rw [execTrace_cons asserts fuel op ops s s₁ hstep, List.countP_append]
      cases hacq : op.isAcquire
      · obtain ⟨h1, h2, h3⟩ := (execOp_creation asserts fuel op s s₁ hstep).2.2 hi hacq
        have ho₁ : s₁.lock_owner = NONE := by
          rcases h2 with h2 | h2
          · rw [h2]; exact ho
          · exact h2
        have := ih s₁ s' h1 ho₁ hth' hex
        simp only [List.any_cons, hacq, Bool.false_or, h3, Nat.zero_add]
        exact this
      · obtain ⟨h1, h2⟩ := (execOp_creation asserts fuel op s s₁ hstep).2.1 hi hacq
          (by rw [ho, hop]; exact fun h => ht h.symm)
        obtain ⟨h3, h4⟩ := execOps_initialized asserts fuel ops s₁ s' h1 hex
        simp only [List.any_cons, hacq, Bool.true_or, h2, h4, Bool.true_eq_false,
          false_implies, and_true, true_implies]
        exact h3

/-- C12 (as amended): the first acquire creates the event, contended or not.  For
every sequence of completed acquires and releases performed by a single thread
`t ≠ NONE` on the initial state: if the sequence contains an acquire,
`initialized` is true at the end and exactly one `CreateEvent` call has been
made; only if it contains none is `initialized` still false and no call made. -/
theorem creation_by_first_acquire (asserts : Bool) (fuel : Nat) (t : Nat) (ops : List Op)
    (s : State) (ht : t ≠ NONE) (hops : ∀ op ∈ ops, op.thread = t)
    (hex : execOps asserts fuel ops State.init = some s) :
    (ops.any Op.isAcquire = true →
      s.initialized = true ∧
      (execTrace asserts fuel ops State.init).countP (fun c => c.1.isCreate) = 1) ∧
    (ops.any Op.isAcquire = false →
      s.initialized = false ∧
      (execTrace asserts fuel ops State.init).countP (fun c => c.1.isCreate) = 0) :=
  execOps_single_thread_creation asserts fuel t ht ops State.init s rfl rfl hops hex

/-- Witness for C12 (as amended): thread 7 acquires twice and releases once. -/
theorem creation_by_first_acquire_witness :
    (([.acquire 7 true, .acquire 7 true, .release 7] : List Op).any Op.isAcquire = true →
      heldOnce.initialized = true ∧
      (execTrace true 9 [.acquire 7 true, .acquire 7 true, .release 7] State.init).countP
        (fun c => c.1.isCreate) = 1) ∧
    (([.acquire 7 true, .acquire 7 true, .release 7] : List Op).any Op.isAcquire = false →
      heldOnce.initialized = false ∧
      (execTrace true 9 [.acquire 7 true, .acquire 7 true, .release 7] State.init).countP
        (fun c => c.1.isCreate) = 0) :=
  creation_by_first_acquire true 9 7 [.acquire 7 true, .acquire 7 true, .release 7] heldOnce
    (by decide) (by decide) (by decide)

/-- C12 (as stated) fails: a single uncontended acquire by thread 7 on the initial
state makes the `CreateEvent` call and leaves `initialized = true` and one
event object. -/
theorem creation_by_first_acquire_fails :
    execOps true 16 [.acquire 7 true] State.init = some heldOnce ∧
    heldOnce.initialized = true ∧ heldOnce.events.length = 1 ∧
    (execTrace true 16 [.acquire 7 true] State.init).countP (fun c => c.1.isCreate) = 1 := by
  decide

/-! ## Shutdown: what it changes -/

/-- The static `release()`, when it returns, has done nothing but close the
handle. -/
theorem release_done_state (asserts : Bool) (t : Nat) (fuel : Nat) (s : State)
    (hd : (release asserts t fuel s).1 = .done) :
    (release asserts t fuel s).2 = { s with events := (CloseHandle s.lock_event s.events).2 } := by
  have h1 := run_add_of_done asserts t false fuel 5 .releaseAssertOwner s hd
  unfold release at *
  rw [← h1] at hd ⊢
  cases ha : asserts
  · simp [run, stepPc]
  · subst ha
    by_cases ho : s.lock_owner = NONE <;> by_cases hc : s.lock_count = -1 <;>
      by_cases hn : s.lock_event = NULL <;>
      first
      | (simp [run, stepPc, ho, hc, hn] at hd; done)
      | simp [run, stepPc, ho, hc, hn]

theorem lookup_CloseHandle (h : Nat) (evs : List EventObj) :
    lookup h (CloseHandle h evs).2 = none := by
  unfold CloseHandle
  cases hl : lookup h evs with
  | none => simpa using hl
  | some e => exact lookup_set_closed _ _ _ rfl

/-- C15: a shutdown (the static `release()`) that returns leaves `initialized`,
`lock_count`, `lock_owner` and the variable `lock_event` as they were and
changes the event objects only by closing the handle, which afterwards names
no open event; so when `initialized` was true it still is, and an acquire by
any thread `u` after the shutdown, for any fuel, never makes the `CreateEvent`
call and leaves `initialized` true. -/
theorem release_frame (asserts : Bool) (t : Nat) (fuel : Nat) (s : State)
    (hd : (release asserts t fuel s).1 = .done) :
    (release asserts t fuel s).2 = { s with events := (CloseHandle s.lock_event s.events).2 } ∧
    (release asserts t fuel s).2.initialized = s.initialized ∧
    (release asserts t fuel s).2.lock_count = s.lock_count ∧
    (release asserts t fuel s).2.lock_owner = s.lock_owner ∧
    (release asserts t fuel s).2.lock_event = s.lock_event ∧
    lookup s.lock_event (release asserts t fuel s).2.events = none ∧
    (s.initialized = true → ∀ (u : Nat) (createOk : Bool) (fuel' : Nat),
      (ctorTrace asserts u createOk fuel' (release asserts t fuel s).2).countP
        (fun c => c.1.isCreate) = 0 ∧
      (ctor asserts u createOk fuel' (release asserts t fuel s).2).2.initialized = true) := by
  have hs := release_done_state asserts t fuel s hd
  rw [hs]
  refine ⟨rfl, rfl, rfl, rfl, rfl, lookup_CloseHandle _ _, ?_⟩
  intro hi u createOk fuel'
  have key := trace_no_create asserts u createOk fuel' .ctorReadOwner
    { s with events := (CloseHandle s.lock_event s.events).2 } hi rfl
  refine ⟨countP_eq_zero_of_forall _ _ (fun c hc => (key c hc).1), ?_⟩
  exact (key _ (run_mem_trace asserts u createOk fuel' .ctorReadOwner _)).2

/-- Witness for C15: shutdown after thread 7 has acquired and released once. -/
theorem release_frame_witness :
    (release true 0 5 { heldOnce with lock_count := -1, lock_owner := NONE }).2 =
      { ({ heldOnce with lock_count := -1, lock_owner := NONE } : State) with
        events := (CloseHandle 1 heldOnce.events).2 } ∧
    (∀ (u : Nat) (createOk : Bool) (fuel' : Nat),
      (ctorTrace true u createOk fuel'
        (release true 0 5 { heldOnce with lock_count := -1, lock_owner := NONE }).2).countP
        (fun c => c.1.isCreate) = 0 ∧
      (ctor true u createOk fuel'
        (release true 0 5 { heldOnce with lock_count := -1, lock_owner := NONE }).2).2.initialized
        = true) :=
  have h := release_frame true 0 5 { heldOnce with lock_count := -1, lock_owner := NONE }
    (by decide)
  ⟨h.1, h.2.2.2.2.2.2 rfl⟩

/-! ## The event exists whenever the lock is held -/

theorem SetEvent_eventCreated (s : State) (he : s.eventCreated) :
    ({ s with lock_owner := NONE, lock_count := -1,
              events := (SetEvent s.lock_event s.events).2 } : State).eventCreated := by
  unfold State.eventCreated at he ⊢
  obtain ⟨e, hl⟩ := Option.isSome_iff_exists.mp he
  have h1 := SetEvent_of_created _ _ _ hl
  have h2 := lookup_set_self _ _ e { e with signaled := true } hl
    ((lookup_some_iff _ _ _).mp hl).2.2
  simp [h1, h2]

theorem execOp_preserves_eventOK (asserts : Bool) (fuel : Nat) (op : Op) (s s' : State)
    (hinv : s.eventOK) (hpre : op.preCreated s)
    (hex : execOp asserts fuel op s = some s') : s'.eventOK := by
  obtain ⟨⟨hne, hrel⟩, hok⟩ := hpre
  cases op with
  | acquire t ok =>
    simp only [Op.thread] at hne
    simp only [Op.createOk] at hok
    subst hok
    simp only [execOp] at hex
    split at hex
    · rename_i hd
      injection hex with hex
      subst hex
      rcases ctor_done_state asserts t true fuel s hd with ⟨ho, hs, _⟩ | ⟨_, _, hs, _⟩
      · rw [hs]
        rcases hinv with ⟨_, _, h3⟩ | ⟨h1, h2⟩
        · exact absurd (h3 ▸ ho : NONE = t).symm hne
        · exact Or.inr ⟨h1, h2⟩
      · rw [hs]
        refine Or.inr ⟨afterFirstAcquire_initialized t true s,
          afterFirstAcquire_eventCreated t true s ?_⟩
        rcases hinv with ⟨h1, _, _⟩ | ⟨h1, h2⟩
        · simp [h1]
        · simp [h1, h2]
    · cases hex
  | release t =>
    simp only [Op.thread] at hne
    simp only [Op.isAcquire, Op.thread, forall_const] at hrel
    obtain ⟨ho, _⟩ := hrel
    simp only [execOp] at hex
    split at hex
    · rename_i hd
      injection hex with hex
      subst hex
      rcases hinv with ⟨_, _, h3⟩ | ⟨h1, h2⟩
      · exact absurd (h3 ▸ ho : NONE = t).symm hne
      · rcases (dtor_done_state asserts t fuel s hd).2 with ⟨_, hs⟩ | ⟨_, hs⟩
        · rw [hs]
          exact Or.inr ⟨h1, SetEvent_eventCreated s h2⟩
        · rw [hs]
          exact Or.inr ⟨h1, h2⟩
    · cases hex

theorem execOps_eventOK (asserts : Bool) (fuel : Nat) (ops : List Op) :
    ∀ (s s' : State), s.eventOK → OpsSatisfy Op.preCreated asserts fuel ops s →
      execOps asserts fuel ops s = some s' →
      s'.eventOK ∧ OpsSatisfy Op.releaseHasEvent asserts fuel ops s := by
  induction ops with
  | nil =>
    intro s s' hinv _ hex
    simp only [execOps, Option.some.injEq] at hex
    exact ⟨hex ▸ hinv, trivial⟩
  | cons op ops ih =>
    intro s s' hinv hsat hex
    obtain ⟨hpre, hrest⟩ := hsat
    rw [execOps_cons] at hex
    cases hop : execOp asserts fuel op s with
    | none => simp [hop] at hex
    | some s₁ =>
      rw [hop, Option.some_bind] at hex
      have h1 := execOp_preserves_eventOK asserts fuel op s s₁ hinv hpre hop
      obtain ⟨h2, h3⟩ := ih s₁ s' h1 (hrest s₁ hop) hex
      refine ⟨h2, ?_, ?_⟩
      · intro hrelease
        rcases hinv with ⟨_, _, h6⟩ | ⟨_, h5⟩
        · exfalso
          have := (hpre.1.2 hrelease).1
          exact hpre.1.1 (this.symm.trans h6)
        · exact h5
      · intro s₂ hs₂
        have : s₂ = s₁ := Option.some.inj (hs₂.symm.trans hop)
        exact this ▸ h3

/-- C18 (as amended): every state reached from the initial state by a sequence of
completed acquires and releases, performed by threads whose id is not the
sentinel, each release called by the owner on a count that is not negative
and every `CreateEvent` call succeeding, satisfies: `lock_count ≥ 0` implies
`initialized = true` and `lock_event` names an open event; and every release
of the sequence starts in a state whose `lock_event` names an open event. -/
theorem held_implies_event (asserts : Bool) (fuel : Nat) (ops : List Op) (s : State)
    (hsat : OpsSatisfy Op.preCreated asserts fuel ops State.init)
    (hex : execOps asserts fuel ops State.init = some s) :
    (0 ≤ s.lock_count → s.initialized = true ∧ s.eventCreated) ∧
    OpsSatisfy Op.releaseHasEvent asserts fuel ops State.init := by
  obtain ⟨h1, h2⟩ := execOps_eventOK asserts fuel ops State.init s (Or.inl ⟨rfl, rfl, rfl⟩)
    hsat hex
  refine ⟨fun hc => ?_, h2⟩
  rcases h1 with ⟨_, h3, _⟩ | h3
  · omega
  · exact h3

theorem opsSatisfy_three (P : Op → State → Prop) (asserts : Bool) (fuel : Nat)
    (o₁ o₂ o₃ : Op) (s₀ s₁ s₂ : State)
    (h₁ : execOp asserts fuel o₁ s₀ = some s₁) (h₂ : execOp asserts fuel o₂ s₁ = some s₂)
    (p₁ : P o₁ s₀) (p₂ : P o₂ s₁) (p₃ : P o₃ s₂) :
    OpsSatisfy P asserts fuel [o₁, o₂, o₃] s₀ := by
  refine ⟨p₁, fun s hs => ?_⟩
  have e₁ : s = s₁ := Option.some.inj (hs.symm.trans h₁)
  subst e₁
  refine ⟨p₂, fun s' hs' => ?_⟩
  have e₂ : s' = s₂ := Option.some.inj (hs'.symm.trans h₂)
  subst e₂
  exact ⟨p₃, fun _ _ => trivial⟩

/-- Witness for C18 (as amended): thread 7 acquires twice and releases once. -/
theorem held_implies_event_witness :
    (0 ≤ heldOnce.lock_count → heldOnce.initialized = true ∧ heldOnce.eventCreated) ∧
    OpsSatisfy Op.releaseHasEvent true 9 [.acquire 7 true, .acquire 7 true, .release 7]
      State.init :=
  held_implies_event true 9 [.acquire 7 true, .acquire 7 true, .release 7] heldOnce
    (opsSatisfy_three Op.preCreated true 9 _ _ _ State.init heldOnce
      { heldOnce with lock_count := 1 } (by decide) (by decide) (by decide) (by decide)
      (by decide))
    (by decide)

/-- Without assertions the destructor on a nonzero count decrements it, whoever
calls it. -/
theorem dtor_unchecked_dec (t : Nat) (n : Nat) (s : State) (hz : s.lock_count ≠ 0) :
    dtor false t (n + 5) s = (.done, { s with lock_count := wrapJint (s.lock_count - 1) }) := by
  simp [dtor, run, stepPc, hz]

/-- Without assertions, releases on a negative count just count down. -/
theorem execOps_unchecked_releases (t : Nat) (fuel : Nat) (hf : 5 ≤ fuel) :
    ∀ (n : Nat) (s : State), s.lock_count < 0 → -2147483648 ≤ s.lock_count →
      (n : Int) ≤ s.lock_count + 2147483649 →
      execOps false fuel (List.replicate n (.release t)) s =
        some { s with lock_count := wrapJint (s.lock_count - (n : Int)) } := by
  obtain ⟨m, rfl⟩ : ∃ m, fuel = m + 5 := ⟨fuel - 5, by omega⟩
  intro n
  induction n with
  | zero =>
    intro s h1 h2 _
    have : wrapJint s.lock_count = s.lock_count := by
      unfold wrapJint; omega
    simp [execOps, this]
  | succ n ih =>
    intro s h1 h2 h3
    have hstep := dtor_unchecked_dec t m s (by omega)
    rw [List.replicate_succ, execOps_cons]
    simp only [execOp, hstep, if_true, Option.some_bind]
    cases n with
    | zero => simp [execOps]
    | succ k =>
      have hw : wrapJint (s.lock_count - 1) = s.lock_count - 1 := by
        unfold wrapJint; push_cast at h3; omega
      rw [ih { s with lock_count := wrapJint (s.lock_count - 1) }
        (by show wrapJint (s.lock_count - 1) < 0; rw [hw]; omega)
        (by show -2147483648 ≤ wrapJint (s.lock_count - 1); rw [hw]; push_cast at h3; omega)
        (by show ((k + 1 : Nat) : Int) ≤ wrapJint (s.lock_count - 1) + 2147483649
            rw [hw]; push_cast at h3 ⊢; omega)]
      simp only [Option.some.injEq, State.mk.injEq, true_and, and_true]
      rw [hw]
      unfold wrapJint
      push_cast
      omega

/-- C18 (as stated) fails twice over.  When `CreateEvent` fails, the acquire by
thread 1 still returns, with `lock_count = 0` and `initialized = true` although
`lock_event` names no event.  And without assertions, `2^31` releases by
thread 7 on the initial state all return and wrap `lock_count` round to
`2^31 - 1 ≥ 0` while `initialized` is false. -/
theorem held_implies_event_fails :
    execOps true 16 [.acquire 1 false] State.init = some heldWithoutEvent ∧
    0 ≤ heldWithoutEvent.lock_count ∧ ¬ heldWithoutEvent.eventCreated ∧
    execOps false 16 (List.replicate 2147483648 (.release 7)) State.init =
      some overReleased ∧
    0 ≤ overReleased.lock_count ∧ overReleased.initialized = false := by
  refine ⟨by decide, by decide, by decide, ?_, by decide, rfl⟩
  have h := execOps_unchecked_releases 7 16 (by decide) 2147483648 State.init (by decide)
    (by decide) (by decide)
  have hw : wrapJint (State.init.lock_count - ((2147483648 : Nat) : Int)) = 2147483647 := by
    simp only [wrapJint, State.init]; norm_num
  rw [hw] at h
  exact h

/-! ## The assertions of the constructor -/

/-- A step that ends at the fatal point has changed neither `lock_count` nor
`lock_owner`. -/
theorem stepPc_fatal_frame (asserts : Bool) (t : Nat) (ok : Bool) (pc : Pc) (s s' : State)
    (hs : stepPc asserts t ok pc s = some (.fatal, s')) :
    s'.lock_count = s.lock_count ∧ s'.lock_owner = s.lock_owner := by
  cases pc
  case ctorWait h =>
    simp only [stepPc] at hs
    cases hw : WaitForSingleObject h s.events with
    | none => simp [hw] at hs
    | some r =>
      obtain ⟨ret, evs⟩ := r
      simp only [hw, Option.some.injEq, Prod.mk.injEq] at hs
      obtain ⟨_, rfl⟩ := hs
      exact ⟨rfl, rfl⟩
  case ctorCas =>
    simp only [stepPc, Option.some.injEq, Prod.mk.injEq] at hs
    obtain ⟨h1, _⟩ := hs
    split_ifs at h1
  all_goals simp only [stepPc, Option.some.injEq, Prod.mk.injEq] at hs
  all_goals obtain ⟨h1, rfl⟩ := hs
  all_goals try split_ifs at h1
  all_goals first
    | exact ⟨rfl, rfl⟩
    | cases h1

theorem Inv_unlocked_owner (L : Nat) (hL : L ≤ 4294967295) (σ : System) (hinv : Inv L σ)
    (hab : σ.aborted = false) (hc : σ.shared.lock_count = -1) :
    σ.shared.lock_owner = NONE := by
  by_cases hex : ∃ u, σ.own u = true
  · obtain ⟨u, hu⟩ := hex
    exact absurd hc (good_owns_facts L u σ.shared _ _ hL (hinv.good hab u) hu).1
  · refine (hinv.free hab ?_).2
    intro u
    cases h : σ.own u
    · rfl
    · exact absurd ⟨u, h⟩ hex

theorem Inv_assertsHold (L : Nat) (hL : L ≤ 4294967295) (σ : System) (hinv : Inv L σ)
    (hab : σ.aborted = false) : σ.assertsHold := by
  refine ⟨Inv_unlocked_owner L hL σ hinv hab, fun t => ⟨fun hp => ?_, fun hp => ?_⟩⟩
  · have hg := hinv.good hab t
    rw [hp] at hg
    exact hg.2.2.1
  · have hg := hinv.good hab t
    rw [hp] at hg
    exact hg.2.1

theorem assertsHold_next (asserts : Bool) (limit : Option Nat) (a : Action) (σ σ' : System)
    (hq : σ.assertsHold) (hn : System.next asserts limit a σ = some σ')
    (hab' : σ'.aborted = true) : σ'.assertsHold := by
  unfold System.next at hn
  rcases Bool.eq_false_or_eq_true σ.aborted with hab | hab
  · simp [hab] at hn
  · rw [if_neg (by rw [hab]; exact Bool.false_ne_true)] at hn
    cases a with
    | callAcquire t =>
      simp only at hn
      split_ifs at hn
      injection hn with hn
      subst hn
      simp only [hab] at hab'
      cases hab'
    | callRelease t =>
      simp only at hn
      split_ifs at hn
      injection hn with hn
      subst hn
      simp only [hab] at hab'
      cases hab'
    | step t ok =>
      simp only at hn
      cases hs : stepPc asserts t ok (σ.threads t).pc σ.shared with
      | none => simp [hs] at hn
      | some r =>
        obtain ⟨pc', s'⟩ := r
        simp only [hs, Option.some.injEq] at hn
        subst hn
        simp only [decide_eq_true_eq] at hab'
        subst hab'
        obtain ⟨h1, h2⟩ := stepPc_fatal_frame asserts t ok _ _ _ hs
        refine ⟨fun hc => ?_, fun u => ?_⟩
        · show s'.lock_owner = NONE
          rw [h2]
          exact hq.1 (h1 ▸ hc)
        · by_cases hu : u = t
          · subst hu
            simp
          · simp only [Function.update_noteq hu]
            show ((σ.threads u).pc = .ctorAssertOwner → s'.lock_owner = NONE) ∧
              ((σ.threads u).pc = .ctorFinalAssert → s'.lock_owner = u)
            rw [h2]
            exact hq.2 u

theorem reachable_assertsHold (asserts : Bool) (L : Nat) (T : Finset Nat)
    (hL : L ≤ 4294967295) (hT : NONE ∉ T) (σ : System)
    (hr : Reachable asserts (some L) T σ) : σ.assertsHold := by
  induction hr with
  | init =>
    exact Inv_assertsHold L hL System.init (Inv_init L) rfl
  | step a hprev hmem hn ih =>
    rename_i σ₀ σ₁
    have hinv' := reachable_inv asserts L T hL hT σ₁ (Reachable.step a hprev hmem hn)
    rcases Bool.eq_false_or_eq_true σ₁.aborted with hab | hab
    · exact assertsHold_next asserts (some L) a σ₀ σ₁ ih hn hab
    · exact Inv_assertsHold L hL σ₁ hinv' hab

/-- C17 (as amended): when no thread nests more than `L ≤ 2^32 - 1` acquires, every
reachable state of the concurrent program, in the middle of operations
included, satisfies `lock_count = -1 → lock_owner = NONE`; a thread about to
execute the assertion of line 83 passes it and goes on to line 84, and a
thread about to execute the assertion of line 90 passes it and returns. -/
theorem acquire_assertions_hold (asserts : Bool) (L : Nat) (T : Finset Nat) (σ : System)
    (hL : L ≤ 4294967295) (hT : NONE ∉ T) (hr : Reachable asserts (some L) T σ) :
    (σ.shared.lock_count = -1 → σ.shared.lock_owner = NONE) ∧
    (∀ (t : Nat) (createOk : Bool), (σ.threads t).pc = .ctorAssertOwner →
      stepPc asserts t createOk .ctorAssertOwner σ.shared = some (.ctorWriteOwner, σ.shared)) ∧
    (∀ (t : Nat) (createOk : Bool), (σ.threads t).pc = .ctorFinalAssert →
      stepPc asserts t createOk .ctorFinalAssert σ.shared = some (.done, σ.shared)) := by
  obtain ⟨h1, h2⟩ := reachable_assertsHold asserts L T hL hT σ hr
  refine ⟨h1, fun t ok hp => ?_, fun t ok hp => ?_⟩
  · simp [stepPc, (h2 t).1 hp]
  · simp [stepPc, (h2 t).2 hp]

/-- Thread 1 nests `2^32` acquires, thread 2 stays outside. -/
theorem reach_wrapped (asserts : Bool) :
    Reachable asserts none {1, 2} (sys2 wrappedState ⟨.done, 4294967296⟩ ⟨.done, 0⟩) := by
  have r0 := reach_nested asserts {1, 2} (by decide) 4294967295
  have hw : wrapJint ((4294967295 : Nat) : Int) = -1 := by
    simp only [wrapJint]; norm_num
  rw [hw] at r0
  exact r0

/-- C17 (as stated) fails without a bound on the nesting depth: after `2^32`
nested acquires by thread 1 the reachable state has `lock_count = -1` and
`lock_owner = 1`; thread 2 then wins the compare-and-swap and reaches the
assertion of line 83, which fails. -/
theorem acquire_assertions_fail :
    Reachable true none {1, 2} (sys2 wrappedState ⟨.done, 4294967296⟩ ⟨.done, 0⟩) ∧
    wrappedState.lock_count = -1 ∧ wrappedState.lock_owner ≠ NONE ∧
    Reachable true none {1, 2} (sys2 heldByOne ⟨.done, 4294967296⟩ ⟨.ctorAssertOwner, 0⟩) ∧
    stepPc true 2 true .ctorAssertOwner heldByOne = some (.fatal, heldByOne) := by
  have h2 : (2 : Nat) ∈ ({1, 2} : Finset Nat) := by decide
  have r0 := reach_wrapped true
  have r1 := reach_call_two true none {1, 2} _ _ _ h2 rfl r0
  have r2 := reach_step_two true none {1, 2} true _ wrappedState
    .ctorReadOwner .ctorCas _ _ h2 (by decide) (by decide) r1
  have r3 := reach_step_two true none {1, 2} true _ heldByOne
    .ctorCas .ctorReadInit _ _ h2 (by decide) (by decide) r2
  have r4 := reach_step_two true none {1, 2} true _ heldByOne
    .ctorReadInit .ctorAssertOwner _ _ h2 (by decide) (by decide) r3
  exact ⟨r0, by decide, by decide, r4, by decide⟩

/-! ## The event is created once -/

/-- No step sets `initialized` back to false. -/
theorem stepPc_initialized (asserts : Bool) (t : Nat) (ok : Bool) (pc pc' : Pc) (s s' : State)
    (hs : stepPc asserts t ok pc s = some (pc', s')) (hi : s.initialized = true) :
    s'.initialized = true := by
  cases pc
  case ctorWait h =>
    simp only [stepPc] at hs
    cases hw : WaitForSingleObject h s.events with
    | none => simp [hw] at hs
    | some r =>
      obtain ⟨ret, evs⟩ := r
      simp only [hw, Option.some.injEq, Prod.mk.injEq] at hs
      obtain ⟨_, rfl⟩ := hs
      exact hi
  all_goals simp only [stepPc, Option.some.injEq, Prod.mk.injEq] at hs
  all_goals obtain ⟨_, rfl⟩ := hs
  all_goals first
    | exact hi
    | rfl

theorem next_initialized (asserts : Bool) (limit : Option Nat) (a : Action) (σ σ' : System)
    (hn : System.next asserts limit a σ = some σ') (hi : σ.shared.initialized = true) :
    σ'.shared.initialized = true := by
  unfold System.next at hn
  split_ifs at hn
  cases a with
  | callAcquire t =>
    simp only at hn
    split_ifs at hn
    injection hn with hn
    subst hn
    exact hi
  | callRelease t =>
    simp only at hn
    split_ifs at hn
    injection hn with hn
    subst hn
    exact hi
  | step t ok =>
    simp only at hn
    cases hs : stepPc asserts t ok (σ.threads t).pc σ.shared with
    | none => simp [hs] at hn
    | some r =>
      obtain ⟨pc', s'⟩ := r
      simp only [hs, Option.some.injEq] at hn
      subst hn
      exact stepPc_initialized asserts t ok _ _ _ _ hs hi

/-- What one step does once `initialized` is true: it is not the `CreateEvent`
call, it keeps `initialized` and `lock_event`, and the handle it may carry
along is `lock_event`. -/
theorem stepPc_after_init (asserts : Bool) (t : Nat) (ok : Bool) (pc pc' : Pc) (s s' : State)
    (hs : stepPc asserts t ok pc s = some (pc', s')) (hi : s.initialized = true)
    (hh : pc.handleOK s.lock_event) :
    pc.isCreate = false ∧ s'.initialized = true ∧ s'.lock_event = s.lock_event ∧
    pc'.handleOK s'.lock_event := by
  cases pc
  case ctorWait h =>
    simp only [stepPc] at hs
    cases hw : WaitForSingleObject h s.events with
    | none => simp [hw] at hs
    | some r =>
      obtain ⟨ret, evs⟩ := r
      simp only [hw, Option.some.injEq, Prod.mk.injEq] at hs
      obtain ⟨h1, rfl⟩ := hs
      split_ifs at h1 <;> subst h1 <;> simp [Pc.isCreate, Pc.handleOK, hi]
  all_goals simp only [Pc.handleOK] at hh
  all_goals simp only [stepPc, Option.some.injEq, Prod.mk.injEq] at hs
  all_goals obtain ⟨h1, rfl⟩ := hs
  all_goals try split_ifs at h1
  all_goals subst h1
  all_goals simp_all [Pc.isCreate, Pc.handleOK]

/-- What one step of a thread `t ≠ NONE` does while `initialized` is false and the
lock has no owner. -/
theorem stepPc_before_init (asserts : Bool) (t : Nat) (ok : Bool) (pc pc' : Pc) (s s' : State)
    (hs : stepPc asserts t ok pc s = some (pc', s')) (ht : t ≠ NONE)
    (hi : s.initialized = false) (ho : s.lock_owner = NONE) (hp : pc.beforeInit = true) :
    pc' ≠ .fatal ∧ pc ≠ .ctorFinalAssert ∧ s'.lock_owner = NONE ∧
    (s'.initialized = false → pc'.beforeInit = true) ∧
    (s'.initialized = true → pc.hasCreated = true ∧ pc'.handleOK s'.lock_event) ∧
    (pc.inCreation = true →
      s'.lock_count = s.lock_count ∧ (s'.initialized = false → pc'.inCreation = true)) ∧
    (pc.inCreation = false →
      (pc'.inCreation = true ∧ s.lock_count = -1 ∧ s'.lock_count = 0 ∧
        pc'.hasCreated = false ∧ s'.initialized = false) ∨
      (pc'.inCreation = false ∧ s' = s)) ∧
    (s'.initialized = false →
      (pc'.hasCreated = true ↔ (pc.hasCreated = true ∨ pc.isCreate = true))) ∧
    (pc.isCreate = true → pc.inCreation = true ∧ pc.hasCreated = false) := by
  have ht2 : ¬ NONE = t := fun h => ht h.symm
  cases pc <;> simp only [Pc.beforeInit, Bool.false_eq_true] at hp
  case ctorCas =>
    by_cases hc : s.lock_count = -1
    · simp only [stepPc, cmpxchg, hc, if_true, ne_eq, not_true_eq_false, if_false,
        Option.some.injEq, Prod.mk.injEq] at hs
      obtain ⟨rfl, rfl⟩ := hs
      simp [Pc.beforeInit, Pc.inCreation, Pc.hasCreated, Pc.isCreate, hi, ho, hc]
    · simp only [stepPc, cmpxchg, hc, if_false, ne_eq, not_false_eq_true, if_true,
        Option.some.injEq, Prod.mk.injEq] at hs
      obtain ⟨rfl, rfl⟩ := hs
      cases s
      simp_all [Pc.beforeInit, Pc.inCreation, Pc.hasCreated, Pc.isCreate]
  all_goals simp only [stepPc, Option.some.injEq, Prod.mk.injEq] at hs
  all_goals obtain ⟨h1, rfl⟩ := hs
  all_goals try simp only [hi, ho, ht2, Bool.false_eq_true, if_false, if_true, Bool.not_false,
    ne_eq, not_false_eq_true] at h1
  all_goals subst h1
  all_goals simp [Pc.beforeInit, Pc.inCreation, Pc.hasCreated, Pc.isCreate, Pc.handleOK, hi, ho]
theorem hasCreated_inCreation (pc : Pc) (h : pc.hasCreated = true) : pc.inCreation = true := by
  cases pc <;> simp_all [Pc.hasCreated, Pc.inCreation]

theorem handleOK_of_beforeInit (pc : Pc) (ev : Nat) (h1 : pc.beforeInit = true)
    (h2 : pc.inCreation = false) : pc.handleOK ev := by
  cases pc <;> simp_all [Pc.beforeInit, Pc.inCreation, Pc.handleOK]

/-- Moving one thread while `initialized` stays false keeps `BeforeInit`. -/
theorem BeforeInit_update (n n' : Nat) (σ σ' : System) (t : Nat) (pc' : Pc) (d' : Nat)
    (hA : BeforeInit n σ) (hsh : σ'.shared.lock_owner = NONE)
    (hth : σ'.threads = Function.update σ.threads t ⟨pc', d'⟩)
    (hpc : pc'.beforeInit = true) (hd : d' = 0)
    (hin : (σ.threads t).pc.inCreation = true →
      σ'.shared.lock_count = σ.shared.lock_count)
    (hout : (σ.threads t).pc.inCreation = false →
      (pc'.inCreation = true ∧ σ.shared.lock_count = -1 ∧ σ'.shared.lock_count = 0) ∨
      (pc'.inCreation = false ∧ σ'.shared.lock_count = σ.shared.lock_count))
    (hx : n' = 1 → pc'.hasCreated = true ∨
      (n = 1 ∧ ((σ.threads t).pc.hasCreated = true → pc'.hasCreated = true))) :
    BeforeInit n' σ' := by
  obtain ⟨_, hall, huniq, hcnt, hex⟩ := hA
  have hother : ∀ u, u ≠ t → σ'.threads u = σ.threads u := by
    intro u hu
    rw [hth, Function.update_noteq hu]
  have hself : σ'.threads t = ⟨pc', d'⟩ := by
    rw [hth, Function.update_same]
  have hcount : ∀ u, u ≠ t → (σ.threads u).pc.inCreation = true →
      σ'.shared.lock_count = 0 := by
    intro u hu hu_in
    have h0 := hcnt u hu_in
    cases hin_t : (σ.threads t).pc.inCreation
    · rcases hout hin_t with ⟨_, h2, _⟩ | ⟨_, h2⟩
      · omega
      · rw [h2]; exact h0
    · exact absurd (huniq u t hu_in hin_t) hu
  have hnew : ∀ u, u ≠ t → (σ.threads u).pc.inCreation = true → pc'.inCreation = true →
      False := by
    intro u hu hu_in hpc'
    have h0 := hcnt u hu_in
    cases hin_t : (σ.threads t).pc.inCreation
    · rcases hout hin_t with ⟨_, h2, _⟩ | ⟨h1, _⟩
      · omega
      · rw [hpc'] at h1; cases h1
    · exact hu (huniq u t hu_in hin_t)
  refine ⟨hsh, ?_, ?_, ?_, ?_⟩
  · intro u
    by_cases hu : u = t
    · subst hu
      rw [hself]
      exact ⟨hpc, hd⟩
    · rw [hother u hu]
      exact hall u
  · intro u v hu hv
    by_cases hut : u = t
    · by_cases hvt : v = t
      · rw [hut, hvt]
      · rw [hut, hself] at hu
        rw [hother v hvt] at hv
        exact absurd (hnew v hvt hv hu) id
    · by_cases hvt : v = t
      · rw [hvt, hself] at hv
        rw [hother u hut] at hu
        exact absurd (hnew u hut hu hv) id
      · rw [hother u hut] at hu
        rw [hother v hvt] at hv
        exact huniq u v hu hv
  · intro u hu
    by_cases hut : u = t
    · rw [hut, hself] at hu
      cases hin_t : (σ.threads t).pc.inCreation
      · rcases hout hin_t with ⟨_, _, h3⟩ | ⟨h1, _⟩
        · exact h3
        · simp only at hu
          rw [hu] at h1
          cases h1
      · rw [hin hin_t]
        exact hcnt t hin_t
    · rw [hother u hut] at hu
      exact hcount u hut hu
  · intro hn'
    rcases hx hn' with h1 | ⟨h1, h2⟩
    · exact ⟨t, by rw [hself]; exact h1⟩
    · obtain ⟨x, hx'⟩ := hex h1
      by_cases hxt : x = t
      · subst hxt
        exact ⟨x, by rw [hself]; exact h2 hx'⟩
      · exact ⟨x, by rw [hother x hxt]; exact hx'⟩

/-- Moving one thread once `initialized` is true keeps `AfterInit`. -/
theorem AfterInit_update (σ σ' : System) (t : Nat) (pc' : Pc) (d' : Nat)
    (hB : AfterInit σ) (hev : σ'.shared.lock_event = σ.shared.lock_event)
    (hth : σ'.threads = Function.update σ.threads t ⟨pc', d'⟩)
    (hpc : pc'.handleOK σ'.shared.lock_event) : AfterInit σ' := by
  intro u
  by_cases hu : u = t
  · subst hu
    rw [hth, Function.update_same]
    exact hpc
  · rw [hth, Function.update_noteq hu, hev]
    exact hB u

/-- The step that stores `initialized = true` leads from `BeforeInit` to
`AfterInit`. -/
theorem AfterInit_of_BeforeInit (n : Nat) (σ σ' : System) (t : Nat) (pc' : Pc) (d' : Nat)
    (hA : BeforeInit n σ) (hcr : (σ.threads t).pc.hasCreated = true)
    (hth : σ'.threads = Function.update σ.threads t ⟨pc', d'⟩)
    (hpc : pc'.handleOK σ'.shared.lock_event) : AfterInit σ' := by
  obtain ⟨_, hall, huniq, _, _⟩ := hA
  intro u
  by_cases hu : u = t
  · subst hu
    rw [hth, Function.update_same]
    exact hpc
  · rw [hth, Function.update_noteq hu]
    refine handleOK_of_beforeInit _ _ (hall u).1 ?_
    cases h : (σ.threads u).pc.inCreation
    · rfl
    · exact absurd (huniq u t h (hasCreated_inCreation _ hcr)) hu

theorem CreationInv_init : CreationInv 0 System.init := by
  refine ⟨by decide, fun _ => ⟨rfl, fun t => ⟨rfl, rfl⟩, ?_, ?_, ?_⟩, fun h => ?_⟩
  · intro t u h
    simp [System.init, Pc.inCreation] at h
  · intro t h
    simp [System.init, Pc.inCreation] at h
  · intro h
    cases h
  · simp [System.init, State.init] at h

/-- One action keeps the creation invariant, the number of `CreateEvent` calls
growing by one exactly when the action is such a call. -/
theorem CreationInv_next (asserts : Bool) (limit : Option Nat) (a : Action) (σ σ' : System)
    (n : Nat) (ha : a.thread ≠ NONE) (hinv : CreationInv n σ)
    (hn : System.next asserts limit a σ = some σ') :
    CreationInv (n + if a.isCreation σ = true then 1 else 0) σ' := by
  obtain ⟨hle, hA, hB⟩ := hinv
  unfold System.next at hn
  split_ifs at hn
  cases a with
  | callAcquire t =>
    simp only at hn
    split_ifs at hn with hc
    simp only [Option.some.injEq] at hn
    subst hn
    simp only [Action.isCreation, Bool.false_eq_true, if_false, Nat.add_zero]
    refine ⟨hle, fun hi => ?_, fun hi => ?_⟩
    · refine BeforeInit_update n n σ _ t .ctorReadOwner (σ.threads t).depth (hA hi) (hA hi).1
        rfl rfl ((hA hi).2.1 t).2 (fun _ => rfl) (fun _ => Or.inr ⟨rfl, rfl⟩)
        (fun h => Or.inr ⟨h, fun h2 => ?_⟩)
      rw [hc.1] at h2
      cases h2
    · exact AfterInit_update σ _ t .ctorReadOwner _ (hB hi) rfl rfl trivial
  | callRelease t =>
    simp only at hn
    split_ifs at hn with hc
    simp only [Option.some.injEq] at hn
    subst hn
    simp only [Action.isCreation, Bool.false_eq_true, if_false, Nat.add_zero]
    refine ⟨hle, fun hi => ?_, fun hi => ?_⟩
    · have h0 := ((hA hi).2.1 t).2
      have h1 := hc.2
      omega
    · exact AfterInit_update σ _ t .dtorAssertOwner _ (hB hi) rfl rfl trivial
  | step t ok =>
    simp only at hn
    cases hs : stepPc asserts t ok (σ.threads t).pc σ.shared with
    | none => simp [hs] at hn
    | some r =>
      obtain ⟨pc', s'⟩ := r
      simp only [hs, Option.some.injEq] at hn
      subst hn
      simp only [Action.isCreation]
      rcases Bool.eq_false_or_eq_true σ.shared.initialized with hi | hi
      · obtain ⟨h1, h2, h3, h4⟩ := stepPc_after_init _ _ _ _ _ _ _ hs hi (hB hi t)
        simp only [h1, Bool.false_eq_true, if_false, Nat.add_zero]
        refine ⟨hle, fun hi' => ?_, fun _ => AfterInit_update σ _ t pc' _ (hB hi) h3 rfl h4⟩
        simp only at hi'
        rw [h2] at hi'
        cases hi'
      · have hA' := hA hi
        obtain ⟨_, g2, g3, g4, g5, g6, g7, g8, g9⟩ :=
          stepPc_before_init _ _ _ _ _ _ _ hs ha hi hA'.1 (hA'.2.1 t).1
        have hn' : n + (if (σ.threads t).pc.isCreate = true then 1 else 0) ≤ 1 := by
          cases hc : (σ.threads t).pc.isCreate
          · simpa using hle
          · obtain ⟨c1, c2⟩ := g9 hc
            have h0 : n = 0 := by
              by_contra hne
              have h1 : n = 1 := by omega
              obtain ⟨x, hx⟩ := hA'.2.2.2.2 h1
              have hxt := hA'.2.2.1 x t (hasCreated_inCreation _ hx) c1
              subst hxt
              rw [c2] at hx
              cases hx
            simp [h0]
        refine ⟨hn', fun hi' => ?_, fun hi' => ?_⟩
        · refine BeforeInit_update n _ σ _ t pc' _ hA' g3 rfl (g4 hi') ?_ (fun h => (g6 h).1)
            ?_ ?_
          · rw [if_neg (fun h => g2 h.1)]
            exact (hA'.2.1 t).2
          · intro h
            rcases g7 h with ⟨a1, a2, a3, _, _⟩ | ⟨b1, b2⟩
            · exact Or.inl ⟨a1, a2, a3⟩
            · exact Or.inr ⟨b1, by rw [b2]⟩
          · intro h1
            cases hc : (σ.threads t).pc.isCreate
            · right
              simp only [hc, Bool.false_eq_true, if_false, Nat.add_zero] at h1
              exact ⟨h1, fun h2 => (g8 hi').2 (Or.inl h2)⟩
            · left
              exact (g8 hi').2 (Or.inr hc)
        · obtain ⟨e1, e2⟩ := g5 hi'
          exact AfterInit_of_BeforeInit n σ _ t pc' _ hA' e1 rfl e2

/-- With `n` calls of `CreateEvent` made so far, at most `1 - n` follow. -/
theorem creations_le (asserts : Bool) (limit : Option Nat) :
    ∀ (acts : List Action) (σ : System) (n : Nat), CreationInv n σ →
      (∀ a ∈ acts, a.thread ≠ NONE) → n + creations asserts limit acts σ ≤ 1
  | [], σ, n, h, _ => by simpa [creations] using h.1
  | a :: as, σ, n, h, hacts => by
    simp only [creations]
    cases hn : System.next asserts limit a σ with
    | none => simpa using h.1
    | some σ' =>
      have h' := CreationInv_next asserts limit a σ σ' n
        (hacts a (List.mem_cons_self _ _)) h hn
      have h2 := creations_le asserts limit as σ' _ h'
        (fun b hb => hacts b (List.mem_cons_of_mem _ hb))
      simp only
      omega

/-- The store of line 80 makes `initialized` true. -/
theorem stepPc_initStore (asserts : Bool) (t : Nat) (ok : Bool) (pc pc' : Pc) (s s' : State)
    (hs : stepPc asserts t ok pc s = some (pc', s')) (hp : pc.isInitStore = true) :
    s'.initialized = true := by
  cases pc <;> simp only [Pc.isInitStore, Bool.false_eq_true] at hp
  simp only [stepPc, Option.some.injEq, Prod.mk.injEq] at hs
  obtain ⟨_, rfl⟩ := hs
  rfl

theorem handleOK_not_initStore (pc : Pc) (ev : Nat) (h : pc.handleOK ev) :
    pc.isInitStore = false := by
  cases pc <;> simp_all [Pc.handleOK, Pc.isInitStore]

/-- One action from a state in which `initialized` is true is not the store of
line 80. -/
theorem next_not_initStore (a : Action) (σ : System) (n : Nat) (hinv : CreationInv n σ) (hi : σ.shared.initialized = true) :
    a.isInitStore σ = false := by
  cases a with
  | callAcquire t => rfl
  | callRelease t => rfl
  | step t ok => exact handleOK_not_initStore _ _ (hinv.2.2 hi t)

/-- One action that leaves `initialized` false is not the store of line 80. -/
theorem next_initStore (asserts : Bool) (limit : Option Nat) (a : Action) (σ σ' : System)
    (hn : System.next asserts limit a σ = some σ') (hs : a.isInitStore σ = true) :
    σ'.shared.initialized = true := by
  unfold System.next at hn
  split_ifs at hn
  cases a with
  | callAcquire t => cases hs
  | callRelease t => cases hs
  | step t ok =>
    simp only at hn
    cases hst : stepPc asserts t ok (σ.threads t).pc σ.shared with
    | none => simp [hst] at hn
    | some r =>
      obtain ⟨pc', s'⟩ := r
      simp only [hst, Option.some.injEq] at hn
      subst hn
      exact stepPc_initStore _ _ _ _ _ _ _ hst hs

/-- Once `initialized` is true no store of line 80 follows; before, at most one. -/
theorem initStores_le (asserts : Bool) (limit : Option Nat) :
    ∀ (acts : List Action) (σ : System) (n : Nat), CreationInv n σ →
      (∀ a ∈ acts, a.thread ≠ NONE) →
      initStores asserts limit acts σ ≤ 1 ∧
      (σ.shared.initialized = true → initStores asserts limit acts σ = 0)
  | [], σ, n, h, _ => by simp [initStores]
  | a :: as, σ, n, h, hacts => by
    simp only [initStores]
    cases hn : System.next asserts limit a σ with
    | none => simp
    | some σ' =>
      have h' := CreationInv_next asserts limit a σ σ' n
        (hacts a (List.mem_cons_self _ _)) h hn
      obtain ⟨h1, h2⟩ := initStores_le asserts limit as σ' _ h'
        (fun b hb => hacts b (List.mem_cons_of_mem _ hb))
      simp only
      constructor
      · cases hs : a.isInitStore σ
        · simpa using h1
        · have := h2 (next_initStore asserts limit a σ σ' hn hs)
          simp [this]
      · intro hi
        rw [next_not_initStore a σ n h hi,
          h2 (next_initialized asserts limit a σ σ' hn hi)]
        rfl

/-- Executing actions keeps `initialized` true. -/
theorem exec_initialized (asserts : Bool) (limit : Option Nat) :
    ∀ (acts : List Action) (σ σ' : System), System.exec asserts limit acts σ = some σ' →
      σ.shared.initialized = true → σ'.shared.initialized = true
  | [], σ, σ', h, hi => by
    simp only [System.exec, Option.some.injEq] at h
    subst h
    exact hi
  | a :: as, σ, σ', h, hi => by
    simp only [System.exec] at h
    cases hn : System.next asserts limit a σ with
    | none => simp [hn] at h
    | some σ₁ =>
      simp only [hn] at h
      exact exec_initialized asserts limit as σ₁ σ' h (next_initialized asserts limit a σ σ₁ hn hi)

/-- C11: in every execution of the interleaved program from the initial state by
threads whose ids are not the sentinel, with assertions compiled in or out and
with or without a nesting bound, the `CreateEvent` call of line 79 is executed at
most once and the store `initialized = true` of line 80 is executed at most once;
and from any state in which `initialized` is true, every execution ends in a state
in which it is true. -/
theorem event_created_once (asserts : Bool) (limit : Option Nat) (T : Finset Nat)
    (acts : List Action) (hT : NONE ∉ T) (hacts : ∀ a ∈ acts, a.thread ∈ T) :
    creations asserts limit acts System.init ≤ 1 ∧
    initStores asserts limit acts System.init ≤ 1 ∧
    ∀ (more : List Action) (σ σ' : System), σ.shared.initialized = true →
      System.exec asserts limit more σ = some σ' → σ'.shared.initialized = true := by
  have hne : ∀ a ∈ acts, a.thread ≠ NONE := fun a ha h => hT (h ▸ hacts a ha)
  refine ⟨?_, ?_, fun more σ σ' hi he => exec_initialized asserts limit more σ σ' he hi⟩
  · have := creations_le asserts limit acts System.init 0 CreationInv_init hne
    omega
  · exact (initStores_le asserts limit acts System.init 0 CreationInv_init hne).1

/-- The first acquire of thread 1, run to its return, makes the one `CreateEvent`
call and the one store. -/
theorem firstAcquire_creations :
    creations true none firstAcquireActions System.init = 1 ∧
    initStores true none firstAcquireActions System.init = 1 := by
  decide

theorem event_created_once_witness :
    (NONE ∉ ({1, 2} : Finset Nat)) ∧ (∀ a ∈ firstAcquireActions, a.thread ∈ ({1, 2} : Finset Nat)) ∧
    creations true none firstAcquireActions System.init ≤ 1 ∧
    initStores true none firstAcquireActions System.init ≤ 1 ∧
    ∀ (more : List Action) (σ σ' : System), σ.shared.initialized = true →
      System.exec true none more σ = some σ' → σ'.shared.initialized = true :=
  ⟨by decide, by decide,
    event_created_once true none {1, 2} firstAcquireActions (by decide) (by decide)⟩

/-! ## No lost wake-up -/

/-- A wait on an event that has just been signaled does not block. -/
theorem WaitForSingleObject_SetEvent (h : Nat) (evs : List EventObj) :
    WaitForSingleObject h (SetEvent h evs).2 ≠ none := by
  cases hl : lookup h evs with
  | none => simp [SetEvent, WaitForSingleObject, hl]
  | some e =>
    have ho : e.isOpen = true := ((lookup_some_iff h evs e).1 hl).2.2
    have h2 := lookup_set_self h evs e { e with signaled := true } hl ho
    simp [SetEvent, WaitForSingleObject, hl, h2]

/-- A blocked wait is a wait on an open event. -/
theorem lookup_of_blocked (h : Nat) (evs : List EventObj)
    (hw : WaitForSingleObject h evs = none) : ∃ e, lookup h evs = some e := by
  cases hl : lookup h evs with
  | none => simp [WaitForSingleObject, hl] at hw
  | some e => exact ⟨e, rfl⟩

/-- What one step of a thread does to the wake-up invariant. -/
theorem stepPc_wake (asserts : Bool) (L t : Nat) (ok : Bool) (pc pc' : Pc) (s s' : State)
    (d : Nat) (hL : L ≤ 4294967295) (hs : stepPc asserts t ok pc s = some (pc', s'))
    (hg : good L t s pc d) (hh : s.initialized = true → pc.handleOK s.lock_event)
    (hb : s.initialized = false → pc.beforeInit = true) :
    (pc' = .fatal → s'.lock_count ≠ -1 ∨ lookup s'.lock_event s'.events = none) ∧
    (pc' ≠ .fatal →
      pc'.willWake = true ∨
      ¬ (s'.initialized = true ∧ s'.lock_count = -1 ∧
          WaitForSingleObject s'.lock_event s'.events = none) ∨
      (s' = s ∧ pc.willWake = false ∧ (pc'.inRetry = true → pc.inRetry = true))) := by
  have hi_of : pc.beforeInit = false → s.initialized = true := by
    intro h
    cases hi : s.initialized
    · rw [hb hi] at h
      cases h
    · rfl
  cases pc
  case ctorWait h =>
    have hi := hi_of rfl
    have he : h = s.lock_event := hh hi
    simp only [stepPc] at hs
    cases hl : lookup h s.events with
    | none =>
      simp only [WaitForSingleObject, hl, Option.some.injEq, Prod.mk.injEq] at hs
      obtain ⟨h1, rfl⟩ := hs
      refine ⟨fun _ => Or.inr ?_, fun hf => Or.inl ?_⟩
      · rw [← he]
        exact hl
      · subst h1
        split_ifs at hf ⊢
        · exact absurd rfl hf
        · rfl
    | some e =>
      simp only [WaitForSingleObject, hl] at hs
      split_ifs at hs
      simp only [Option.some.injEq, Prod.mk.injEq] at hs
      obtain ⟨h1, rfl⟩ := hs
      simp only [ne_eq, not_true_eq_false, decide_False, Bool.and_false, Bool.false_eq_true,
        if_false] at h1
      subst h1
      exact ⟨fun hf => (by cases hf), fun _ => Or.inl rfl⟩
  case dtorSignal h =>
    have hi := hi_of rfl
    have he : h = s.lock_event := hh hi
    simp only [stepPc, Option.some.injEq, Prod.mk.injEq] at hs
    obtain ⟨h1, rfl⟩ := hs
    refine ⟨fun hf => Or.inr ?_, fun _ => Or.inr (Or.inl ?_)⟩
    · cases hl : lookup h s.events with
      | none =>
        simp only [SetEvent, hl]
        rw [← he]
        exact hl
      | some e =>
        subst h1
        simp [SetEvent, hl] at hf
    · rintro ⟨_, _, hw⟩
      simp only at hw
      rw [← he] at hw
      exact WaitForSingleObject_SetEvent h s.events hw
  case ctorCas =>
    simp only [stepPc, cmpxchg, Option.some.injEq, Prod.mk.injEq] at hs
    obtain ⟨h1, rfl⟩ := hs
    subst h1
    refine ⟨fun hf => ?_, fun _ => Or.inr (Or.inl ?_)⟩
    · split_ifs at hf
    · rintro ⟨_, hc, _⟩
      simp only at hc
      split_ifs at hc with h0
      all_goals omega
  all_goals simp only [stepPc, Option.some.injEq, Prod.mk.injEq] at hs
  all_goals obtain ⟨h1, rfl⟩ := hs
  all_goals subst h1
  all_goals simp only [good, wrapJint] at hg
  all_goals refine ⟨fun hf => ?_, fun hf => ?_⟩
  all_goals try split_ifs at hf ⊢
  all_goals first
    | exact Or.inl rfl
    | exact Or.inr (Or.inr ⟨rfl, rfl, fun _ => rfl⟩)
    | exact Or.inr (Or.inr ⟨rfl, rfl, fun h => (by cases h)⟩)
    | (left; omega)
    | (left; simp only [wrapJint]; omega)
    | cases hf
    | exact absurd rfl hf
    | (refine Or.inr (Or.inl ?_); rintro ⟨_, hc, _⟩; simp only [wrapJint] at hc; omega)

theorem stepPc_of_willWake (asserts : Bool) (u : Nat) (ok : Bool) (pc : Pc) (s : State)
    (h : pc.willWake = true) : (stepPc asserts u ok pc s).isSome = true := by
  cases pc <;> simp_all [Pc.willWake, stepPc]

/-- An action moves only the thread that acts. -/
theorem next_threads_other (asserts : Bool) (limit : Option Nat) (a : Action) (σ σ' : System)
    (u : Nat) (hn : System.next asserts limit a σ = some σ') (hu : u ≠ a.thread) :
    σ'.threads u = σ.threads u := by
  unfold System.next at hn
  split_ifs at hn
  cases a with
  | callAcquire t =>
    simp only at hn
    split_ifs at hn
    simp only [Option.some.injEq] at hn
    subst hn
    exact Function.update_noteq hu _ _
  | callRelease t =>
    simp only at hn
    split_ifs at hn
    simp only [Option.some.injEq] at hn
    subst hn
    exact Function.update_noteq hu _ _
  | step t ok =>
    simp only at hn
    cases hs : stepPc asserts t ok (σ.threads t).pc σ.shared with
    | none => simp [hs] at hn
    | some r =>
      obtain ⟨pc', s'⟩ := r
      simp only [hs, Option.some.injEq] at hn
      subst hn
      exact Function.update_noteq hu _ _

/-- A thread outside `T` stays in client code. -/
theorem reachable_idle (asserts : Bool) (limit : Option Nat) (T : Finset Nat) (σ : System)
    (hr : Reachable asserts limit T σ) (u : Nat) (hu : u ∉ T) : σ.threads u = ⟨.done, 0⟩ := by
  induction hr with
  | init => rfl
  | step a _ hmem hn ih =>
    rw [next_threads_other asserts limit a _ _ u hn (fun h => hu (h ▸ hmem))]
    exact ih

theorem reachable_creationInv (asserts : Bool) (limit : Option Nat) (T : Finset Nat)
    (σ : System) (hT : NONE ∉ T) (hr : Reachable asserts limit T σ) :
    ∃ n, CreationInv n σ := by
  induction hr with
  | init => exact ⟨0, CreationInv_init⟩
  | step a _ hmem hn ih =>
    obtain ⟨n, h⟩ := ih
    exact ⟨_, CreationInv_next asserts limit a _ _ n (fun h => hT (h ▸ hmem)) h hn⟩

/-- Performing actions of threads of `T` leads from reachable states to reachable
states. -/
theorem reachable_exec (asserts : Bool) (limit : Option Nat) (T : Finset Nat) :
    ∀ (acts : List Action) (σ σ' : System), Reachable asserts limit T σ →
      (∀ a ∈ acts, a.thread ∈ T) → System.exec asserts limit acts σ = some σ' →
      Reachable asserts limit T σ'
  | [], σ, σ', hr, _, he => by
    simp only [System.exec, Option.some.injEq] at he
    subst he
    exact hr
  | a :: as, σ, σ', hr, hacts, he => by
    simp only [System.exec] at he
    cases hn : System.next asserts limit a σ with
    | none => simp [hn] at he
    | some σ₁ =>
      simp only [hn] at he
      exact reachable_exec asserts limit T as σ₁ σ'
        (Reachable.step a hr (hacts a (List.mem_cons_self _ _)) hn)
        (fun b hb => hacts b (List.mem_cons_of_mem _ hb)) he

theorem getD_of_isSome (o : Option System) (h : o.isSome = true) :
    o = some (o.getD System.init) := by
  cases o with
  | none => cases h
  | some x => rfl

/-- Moving a thread that is not about to wake anybody, and not into the retry
loop, keeps the wake-up invariant. -/
theorem WakeInv_update (σ σ' : System) (t : Nat) (pc' : Pc) (d' : Nat) (hw : WakeInv σ)
    (hab : σ.aborted = false) (hsh : σ'.shared = σ.shared)
    (hth : σ'.threads = Function.update σ.threads t ⟨pc', d'⟩)
    (h1 : (σ.threads t).pc.willWake = false)
    (h2 : pc'.inRetry = true → (σ.threads t).pc.inRetry = true) : WakeInv σ' := by
  intro _ hi hc hwt hx
  obtain ⟨x, hx⟩ := hx
  rw [hsh] at hi hc hwt
  have hx' : ∃ y, (σ.threads y).pc.inRetry = true := by
    by_cases hxt : x = t
    · subst hxt
      rw [hth, Function.update_same] at hx
      exact ⟨x, h2 hx⟩
    · rw [hth, Function.update_noteq hxt] at hx
      exact ⟨x, hx⟩
  obtain ⟨u, hu⟩ := hw hab hi hc hwt hx'
  have hut : u ≠ t := by
    rintro rfl
    rw [h1] at hu
    cases hu
  exact ⟨u, by rw [hth, Function.update_noteq hut]; exact hu⟩

/-- One action keeps the wake-up invariant, and an abort leaves the lock held or
the event missing. -/
theorem WakeInv_next (asserts : Bool) (L : Nat) (hL : L ≤ 4294967295) (a : Action)
    (σ σ' : System) (n : Nat) (hinv : Inv L σ) (hc : CreationInv n σ) (hw : WakeInv σ)
    (hn : System.next asserts (some L) a σ = some σ') : WakeInv σ' ∧ RunInv σ' := by
  have hab : σ.aborted = false := by
    cases h : σ.aborted
    · rfl
    · simp [System.next, h] at hn
  unfold System.next at hn
  rw [if_neg (by simp [hab])] at hn
  cases a with
  | callAcquire t =>
    simp only at hn
    split_ifs at hn with hcnd
    simp only [Option.some.injEq] at hn
    subst hn
    refine ⟨WakeInv_update σ _ t .ctorReadOwner _ hw hab rfl rfl ?_ ?_, fun h => ?_⟩
    · rw [hcnd.1]
      rfl
    · intro h
      cases h
    · simp only at h
      rw [hab] at h
      cases h
  | callRelease t =>
    simp only at hn
    split_ifs at hn with hcnd
    simp only [Option.some.injEq] at hn
    subst hn
    refine ⟨WakeInv_update σ _ t .dtorAssertOwner _ hw hab rfl rfl ?_ ?_, fun h => ?_⟩
    · rw [hcnd.1]
      rfl
    · intro h
      cases h
    · simp only at h
      rw [hab] at h
      cases h
  | step t ok =>
    simp only at hn
    cases hs : stepPc asserts t ok (σ.threads t).pc σ.shared with
    | none => simp [hs] at hn
    | some r =>
      obtain ⟨pc', s'⟩ := r
      simp only [hs, Option.some.injEq] at hn
      subst hn
      have hB : σ.shared.initialized = true →
          (σ.threads t).pc.handleOK σ.shared.lock_event := fun hi => hc.2.2 hi t
      have hA : σ.shared.initialized = false → (σ.threads t).pc.beforeInit = true :=
        fun hi => ((hc.2.1 hi).2.1 t).1
      obtain ⟨p1, p2⟩ := stepPc_wake asserts L t ok _ pc' _ s' _ hL hs (hinv.good hab t) hB hA
      refine ⟨?_, fun h => p1 (by simpa using h)⟩
      intro hab' hi' hc' hw' hx'
      have hnf : pc' ≠ .fatal := by simpa using hab'
      rcases p2 hnf with q | q | ⟨q1, q2, q3⟩
      · exact ⟨t, by simp only [Function.update_same]; exact q⟩
      · exact absurd ⟨hi', hc', hw'⟩ q
      · exact WakeInv_update σ _ t pc' _ hw hab q1 rfl q2 q3 hab' hi' hc' hw' hx'

theorem reachable_wake (asserts : Bool) (L : Nat) (T : Finset Nat) (hL : L ≤ 4294967295)
    (hT : NONE ∉ T) (σ : System) (hr : Reachable asserts (some L) T σ) :
    WakeInv σ ∧ RunInv σ := by
  induction hr with
  | init =>
    refine ⟨fun _ _ _ _ hx => ?_, fun h => ?_⟩
    · obtain ⟨x, hx⟩ := hx
      cases hx
    · cases h
  | step a hr' _ hn ih =>
    obtain ⟨n, hc⟩ := reachable_creationInv asserts (some L) T _ hT hr'
    exact WakeInv_next asserts L hL a _ _ n (reachable_inv asserts L T hL hT _ hr') hc ih.1 hn

/-- C14 (as amended): with no thread nesting more than `L ≤ 2^32 - 1` acquires,
in every state reachable by interleaved atomic steps of threads whose ids are not
the sentinel, for a thread `t` blocked in the wait of line 71 on an unsignaled
event: if the lock is free (`lock_count = -1`), some other thread of `T` has a
step to take without starting a new acquire; and when a thread executes the
`SetEvent` of its release, the process keeps running and `t` is no longer
blocked. -/
theorem no_lost_wakeup (asserts : Bool) (L : Nat) (T : Finset Nat) (σ : System) (t : Nat)
    (hL : L ≤ 4294967295) (hT : NONE ∉ T) (hr : Reachable asserts (some L) T σ)
    (hb : σ.blockedInWait t) :
    (σ.shared.lock_count = -1 → ∃ u ∈ T, u ≠ t ∧ σ.enabled asserts (some L) u) ∧
    (∀ (u : Nat) (ok : Bool) (σ' : System), (σ.threads u).pc.isSignal = true →
      System.next asserts (some L) (.step u ok) σ = some σ' →
      σ'.aborted = false ∧ ¬ σ'.blockedInWait t) := by
  obtain ⟨h, hpc, hwait⟩ := hb
  obtain ⟨n, hc⟩ := reachable_creationInv asserts (some L) T σ hT hr
  have hi : σ.shared.initialized = true := by
    cases hi : σ.shared.initialized
    · have h1 := ((hc.2.1 hi).2.1 t).1
      rw [hpc] at h1
      cases h1
    · rfl
  have he : h = σ.shared.lock_event := by
    have h1 := hc.2.2 hi t
    rw [hpc] at h1
    exact h1
  obtain ⟨e, hl⟩ := lookup_of_blocked h _ hwait
  constructor
  · intro hfree
    obtain ⟨hw, hrun⟩ := reachable_wake asserts L T hL hT σ hr
    have hab : σ.aborted = false := by
      cases hab : σ.aborted
      · rfl
      · rcases hrun hab with h1 | h1
        · exact absurd hfree h1
        · rw [← he, hl] at h1
          cases h1
    obtain ⟨u, hu⟩ := hw hab hi hfree (he ▸ hwait) ⟨t, by rw [hpc]; rfl⟩
    have hut : u ≠ t := by
      rintro rfl
      rw [hpc] at hu
      cases hu
    have huT : u ∈ T := by
      by_contra hn
      rw [reachable_idle asserts (some L) T σ hr u hn] at hu
      cases hu
    refine ⟨u, huT, hut, .step u true, rfl, (by intro h; cases h), ?_⟩
    have hs := stepPc_of_willWake asserts u true _ σ.shared hu
    cases hst : stepPc asserts u true (σ.threads u).pc σ.shared with
    | none => simp [hst] at hs
    | some r => simp [System.next, hab, hst]
  · intro u ok σ' hsig hn
    have hab : σ.aborted = false := by
      cases h : σ.aborted
      · rfl
      · simp [System.next, h] at hn
    have hut : t ≠ u := by
      rintro rfl
      rw [hpc] at hsig
      cases hsig
    cases hpu : (σ.threads u).pc <;> rw [hpu] at hsig <;>
      simp only [Pc.isSignal, Bool.false_eq_true] at hsig
    rename_i hu
    have heu : hu = σ.shared.lock_event := by
      have h1 := hc.2.2 hi u
      rw [hpu] at h1
      exact h1
    have hhu : hu = h := by rw [heu, he]
    subst hhu
    simp only [System.next, hab, Bool.false_eq_true, if_false, hpu, stepPc,
      SetEvent_of_created _ _ e hl, Option.some.injEq] at hn
    subst hn
    refine ⟨by simp, ?_⟩
    rintro ⟨h', hp', hw'⟩
    simp only [Function.update_noteq hut] at hp'
    rw [hpc] at hp'
    cases hp'
    have h2 := WaitForSingleObject_SetEvent hu σ.shared.events
    rw [SetEvent_of_created _ _ e hl] at h2
    exact h2 hw'
/-- The run `wakeRun` is possible under the nesting bound 5. -/
theorem reach_wakeState : Reachable true (some 5) {1, 2} wakeState := by
  have h : (System.exec true (some 5) wakeRun System.init).isSome = true := by decide
  exact reachable_exec true (some 5) {1, 2} wakeRun System.init wakeState Reachable.init
    (by decide) (getD_of_isSome _ h)

theorem no_lost_wakeup_witness :
    (5 ≤ 4294967295 ∧ NONE ∉ ({1, 2} : Finset Nat) ∧
      Reachable true (some 5) {1, 2} wakeState ∧ wakeState.blockedInWait 2 ∧
      wakeState.shared.lock_count = -1) ∧
    ∃ u ∈ ({1, 2} : Finset Nat), u ≠ 2 ∧ wakeState.enabled true (some 5) u :=
  ⟨⟨by decide, by decide, reach_wakeState, ⟨1, by decide, by decide⟩, by decide⟩,
    (no_lost_wakeup true 5 {1, 2} wakeState 2 (by decide) (by decide) reach_wakeState
      ⟨1, by decide, by decide⟩).1 (by decide)⟩

/-- The run `lostWakeupRun` is possible after the `2^32` nested acquires of
thread 1, without assertions and without a nesting bound. -/
theorem reach_lostWakeup : Reachable false none {1, 2, 3} lostWakeup := by
  have r0 := reach_nested false {1, 2, 3} (by decide) 4294967295
  have hw : wrapJint ((4294967295 : Nat) : Int) = -1 := by
    simp only [wrapJint]; norm_num
  rw [hw] at r0
  have h : (System.exec false none lostWakeupRun
      (sys2 wrappedState ⟨.done, 4294967296⟩ ⟨.done, 0⟩)).isSome = true := by decide
  exact reachable_exec false none {1, 2, 3} lostWakeupRun _ lostWakeup r0
    (by decide) (getD_of_isSome _ h)

/-- C14 (as stated) fails without a bound on the nesting depth when assertions
are compiled out: after `2^32` nested acquires by thread 1 a second thread can
take the lock, and two releases that overlap bring `lock_count` from `1` to `-1`
without a `SetEvent`.  In the reachable state `lostWakeup` threads 1 and 2 are
blocked in the wait on the unsignaled event, the lock is free, and thread 3 is in
client code outside all its scopes: no thread other than thread 2 has a step to
take without starting a new acquire. -/
theorem lost_wakeup_unbounded :
    Reachable false none {1, 2, 3} lostWakeup ∧ lostWakeup.blockedInWait 2 ∧
    lostWakeup.shared.lock_count = -1 ∧ lostWakeup.blockedInWait 1 ∧
    (lostWakeup.threads 3).pc = .done ∧ (lostWakeup.threads 3).depth = 0 ∧
    ¬ ∃ u ∈ ({1, 2, 3} : Finset Nat), u ≠ 2 ∧ lostWakeup.enabled false none u := by
  refine ⟨reach_lostWakeup, ⟨1, by decide, by decide⟩, by decide,
    ⟨1, by decide, by decide⟩, by decide, by decide, ?_⟩
  rintro ⟨u, hu, hne, a, ha, hca, hs⟩
  simp only [Finset.mem_insert, Finset.mem_singleton] at hu
  rcases hu with rfl | rfl | rfl
  · cases a with
    | callAcquire t =>
      simp only [Action.thread] at ha
      subst ha
      exact hca rfl
    | callRelease t =>
      simp only [Action.thread] at ha
      subst ha
      revert hs
      decide
    | step t ok =>
      simp only [Action.thread] at ha
      subst ha
      cases ok <;> revert hs <;> decide
  · exact hne rfl
  · cases a with
    | callAcquire t =>
      simp only [Action.thread] at ha
      subst ha
      exact hca rfl
    | callRelease t =>
      simp only [Action.thread] at ha
      subst ha
      revert hs
      decide
    | step t ok =>
      simp only [Action.thread] at ha
      subst ha
      cases ok <;> revert hs <;> decide

/-! ## The assertions of the constructor in concrete runs -/

theorem reach_atLine83 : Reachable true (some 5) {1, 2} atLine83 := by
  have h : (System.exec true (some 5) (firstAcquireActions.take 7) System.init).isSome = true := by
    decide
  exact reachable_exec true (some 5) {1, 2} _ System.init atLine83 Reachable.init
    (by decide) (getD_of_isSome _ h)

theorem reach_atLine90 : Reachable true (some 5) {1, 2} atLine90 := by
  have h : (System.exec true (some 5) (firstAcquireActions.take 9) System.init).isSome = true := by
    decide
  exact reachable_exec true (some 5) {1, 2} _ System.init atLine90 Reachable.init
    (by decide) (getD_of_isSome _ h)

/-- Witness for C17 (as amended), threads 1 and 2 under the nesting bound 5, with
assertions compiled in.  In `wakeState` thread 1 is in the middle of its release,
after the store of `-1` into `lock_count`, while thread 2 waits: `lock_count` is
`-1` and `lock_owner` is `NONE`.  In `atLine83` thread 1 stands at the assertion
of line 83 and passes it; in `atLine90` it stands at the assertion of line 90
and passes it. -/
theorem acquire_assertions_hold_witness :
    (Reachable true (some 5) {1, 2} wakeState ∧ wakeState.shared.lock_count = -1 ∧
      (wakeState.threads 1).pc = .dtorReadEvent ∧ wakeState.shared.lock_owner = NONE) ∧
    (Reachable true (some 5) {1, 2} atLine83 ∧ (atLine83.threads 1).pc = .ctorAssertOwner ∧
      stepPc true 1 true .ctorAssertOwner atLine83.shared =
        some (.ctorWriteOwner, atLine83.shared)) ∧
    (Reachable true (some 5) {1, 2} atLine90 ∧ (atLine90.threads 1).pc = .ctorFinalAssert ∧
      stepPc true 1 true .ctorFinalAssert atLine90.shared = some (.done, atLine90.shared)) :=
  ⟨⟨reach_wakeState, by decide, by decide,
      (acquire_assertions_hold true 5 {1, 2} wakeState (by decide) (by decide)
        reach_wakeState).1 (by decide)⟩,
    ⟨reach_atLine83, by decide,
      (acquire_assertions_hold true 5 {1, 2} atLine83 (by decide) (by decide)
        reach_atLine83).2.1 1 true (by decide)⟩,
    ⟨reach_atLine90, by decide,
      (acquire_assertions_hold true 5 {1, 2} atLine90 (by decide) (by decide)
        reach_atLine90).2.2 1 true (by decide)⟩⟩

end ThreadCritical
